import Mathlib

/-!
# Candidate–job matching pipeline: embedding and verification

A shallow embedding of the JavaScript sources

* `src/lib/embeddings.js` (`getEmbedding`, `generateAIEvaluation`),
* `src/app/api/evaluate/route.js` (`POST`, the Evaluate pipeline),
* `src/app/api/search/route.js` (`POST`, `rerankWithGemini`, the Search pipeline),
* `src/lib/dataStore.js` (`indexCandidateInPinecone`).

Modelling conventions.

* JavaScript values that come out of `JSON.parse`, of a request body or of the
  record store are values of `JVal`; objects are association lists.
* JavaScript numbers are exact rationals; `NaN` is `none` in `Option ℚ`.
  Rounding to IEEE doubles is modelled where a digit run of any length is
  turned into a number, in the `parseInt` of the Evaluator
  (`Str.parseIntNumber`); the infinities are not values of `JVal`.
* A `try`/`catch` is a match on `Except String _`; the string is the message of
  the thrown error.
* The services outside the repository (language model, embedding provider,
  vector index, HTTP fetches of the job and candidate routes) are parameters
  that return an outcome: a value, or `raised`.
* The built-ins `JSON.parse`, the string-to-number conversion and the
  number-to-string conversion are fields of `Runtime`; every universally
  quantified theorem holds for every runtime.  `refRuntime` is a concrete one,
  used to evaluate the pipelines on concrete inputs.
* Strings are sequences of characters; positions and lengths count characters,
  not UTF-16 code units.
* Console logging has no effect on results and is left out, except where the
  logged expression itself can throw.
* `Math.random` is a stream of results; a function that calls it is given the
  number of calls made so far and returns the number made afterwards
  (`getEmbeddingStep`).
* Where the identity of an array matters, arrays are held in a store and
  passed by reference (`rerankWithGeminiRef`); objects are values, as no
  statement of the sources assigns to a property of a candidate.
* Converting an array or an object to a primitive never throws: an object
  gives `"[object Object]"`.  A parsed object whose own `toString` or `valueOf`
  property shadows the inherited method is outside the model.
* The candidate and job routes answer with what the record store holds: a
  successful candidate fetch carries a list of objects, a successful job fetch
  carries the job object that `jobs.find(j => j.id === id)` found.  The fields
  of these objects are arbitrary values and may be absent.
-/

/-! ## JavaScript values -/

/-- A JavaScript value as produced by `JSON.parse`, plus `undefined`. -/
inductive JVal where
  | undefined : JVal
  | null : JVal
  | bool (b : Bool) : JVal
  | num (q : ℚ) : JVal
  | str (s : String) : JVal
  | arr (items : List JVal) : JVal
  | obj (props : List (String × JVal)) : JVal

mutual
/-- Decision procedure for equality of values. -/
def JVal.decEq : (a b : JVal) → Decidable (a = b)
  | .undefined, .undefined => isTrue rfl
  | .undefined, .null => isFalse nofun
  | .undefined, .bool _ => isFalse nofun
  | .undefined, .num _ => isFalse nofun
  | .undefined, .str _ => isFalse nofun
  | .undefined, .arr _ => isFalse nofun
  | .undefined, .obj _ => isFalse nofun
  | .null, .undefined => isFalse nofun
  | .null, .null => isTrue rfl
  | .null, .bool _ => isFalse nofun
  | .null, .num _ => isFalse nofun
  | .null, .str _ => isFalse nofun
  | .null, .arr _ => isFalse nofun
  | .null, .obj _ => isFalse nofun
  | .bool _, .undefined => isFalse nofun
  | .bool _, .null => isFalse nofun
  | .bool x, .bool y =>
    if h : x = y then isTrue (congrArg JVal.bool h) else isFalse (fun e => h (JVal.bool.inj e))
  | .bool _, .num _ => isFalse nofun
  | .bool _, .str _ => isFalse nofun
  | .bool _, .arr _ => isFalse nofun
  | .bool _, .obj _ => isFalse nofun
  | .num _, .undefined => isFalse nofun
  | .num _, .null => isFalse nofun
  | .num _, .bool _ => isFalse nofun
  | .num x, .num y =>
    if h : x = y then isTrue (congrArg JVal.num h) else isFalse (fun e => h (JVal.num.inj e))
  | .num _, .str _ => isFalse nofun
  | .num _, .arr _ => isFalse nofun
  | .num _, .obj _ => isFalse nofun
  | .str _, .undefined => isFalse nofun
  | .str _, .null => isFalse nofun
  | .str _, .bool _ => isFalse nofun
  | .str _, .num _ => isFalse nofun
  | .str x, .str y =>
    if h : x = y then isTrue (congrArg JVal.str h) else isFalse (fun e => h (JVal.str.inj e))
  | .str _, .arr _ => isFalse nofun
  | .str _, .obj _ => isFalse nofun
  | .arr _, .undefined => isFalse nofun
  | .arr _, .null => isFalse nofun
  | .arr _, .bool _ => isFalse nofun
  | .arr _, .num _ => isFalse nofun
  | .arr _, .str _ => isFalse nofun
  | .arr x, .arr y =>
    match JVal.decEqList x y with
    | isTrue h => isTrue (congrArg JVal.arr h)
    | isFalse h => isFalse (fun e => h (JVal.arr.inj e))
  | .arr _, .obj _ => isFalse nofun
  | .obj _, .undefined => isFalse nofun
  | .obj _, .null => isFalse nofun
  | .obj _, .bool _ => isFalse nofun
  | .obj _, .num _ => isFalse nofun
  | .obj _, .str _ => isFalse nofun
  | .obj _, .arr _ => isFalse nofun
  | .obj x, .obj y =>
    match JVal.decEqProps x y with
    | isTrue h => isTrue (congrArg JVal.obj h)
    | isFalse h => isFalse (fun e => h (JVal.obj.inj e))
/-- Decision procedure for equality of lists of values. -/
def JVal.decEqList : (a b : List JVal) → Decidable (a = b)
  | [], [] => isTrue rfl
  | [], _ :: _ => isFalse nofun
  | _ :: _, [] => isFalse nofun
  | x :: xs, y :: ys =>
    match JVal.decEq x y, JVal.decEqList xs ys with
    | isTrue h, isTrue h' => isTrue (by rw [h, h'])
    | isFalse h, _ => isFalse (fun e => h (List.cons.inj e).1)
    | _, isFalse h => isFalse (fun e => h (List.cons.inj e).2)
/-- Decision procedure for equality of property lists. -/
def JVal.decEqProps : (a b : List (String × JVal)) → Decidable (a = b)
  | [], [] => isTrue rfl
  | [], _ :: _ => isFalse nofun
  | _ :: _, [] => isFalse nofun
  | (k, x) :: xs, (l, y) :: ys =>
    if hk : k = l then
      match JVal.decEq x y, JVal.decEqProps xs ys with
      | isTrue h, isTrue h' => isTrue (by rw [hk, h, h'])
      | isFalse h, _ => isFalse (fun e => h (Prod.mk.inj (List.cons.inj e).1).2)
      | _, isFalse h => isFalse (fun e => h (List.cons.inj e).2)
    else isFalse (fun e => hk (Prod.mk.inj (List.cons.inj e).1).1)
end

instance : DecidableEq JVal := JVal.decEq

/-- A plain JavaScript object: its own properties in insertion order. -/
abbrev Obj := List (String × JVal)

/-- The built-ins of the JavaScript runtime that are taken as given. -/
structure Runtime where
  /-- The function `JSON.parse`; `none` when it throws a `SyntaxError`. -/
  jsonParse : String → Option JVal
  /-- The conversion `StringToNumber`; `none` is `NaN`. -/
  stringToNumber : String → Option ℚ
  /-- The conversion `Number::toString`. -/
  numberToString : ℚ → String

namespace JVal

/-- Own-property lookup `o[k]` on a plain object; `undefined` when absent. -/
def lookup (k : String) : Obj → JVal
  | [] => undefined
  | (k', v) :: rest => if k' = k then v else lookup k rest

/-- Whether the object has an own property `k`. -/
def hasKey (k : String) : Obj → Bool
  | [] => false
  | (k', _) :: rest => if k' = k then true else hasKey k rest

/-- Replace the value of an existing own property `k` in place. -/
def replaceProp (k : String) (v : JVal) : Obj → Obj
  | [] => []
  | (k', v') :: rest =>
    if k' = k then (k', v) :: rest else (k', v') :: replaceProp k v rest

/-- The object `{ ...o, k: v }`: an existing key keeps its position, a new key
is appended. -/
def setProp (o : Obj) (k : String) (v : JVal) : Obj :=
  if hasKey k o then replaceProp k v o else o ++ [(k, v)]

/-- JavaScript truthiness (`ToBoolean`). -/
def truthy : JVal → Bool
  | undefined => false
  | null => false
  | bool b => b
  | num q => decide (q ≠ 0)
  | str s => decide (s ≠ "")
  | arr _ => true
  | obj _ => true

/-- The JavaScript expression `a || b`. -/
def orElse (a b : JVal) : JVal := if truthy a then a else b

/-- Strict equality `a === b`.  Two arrays or objects obtained from different
parses or literals are different references, hence never strictly equal. -/
def strictEq : JVal → JVal → Bool
  | undefined, undefined => true
  | null, null => true
  | bool a, bool b => decide (a = b)
  | num a, num b => decide (a = b)
  | str a, str b => decide (a = b)
  | _, _ => false

/-- Property read `v.k`: throws a `TypeError` on `undefined` and `null`. -/
def getProp (v : JVal) (k : String) : Except String JVal :=
  match v with
  | undefined => .error ("Cannot read properties of undefined (reading " ++ k ++ ")")
  | null => .error ("Cannot read properties of null (reading " ++ k ++ ")")
  | obj props => .ok (lookup k props)
  | arr items => .ok (if k = "length" then num items.length else undefined)
  | str s => .ok (if k = "length" then num s.length else undefined)
  | _ => .ok undefined

/-- Whether a value is a JavaScript number. -/
def isNum : JVal → Bool
  | num _ => true
  | _ => false

mutual
/-- The conversion `ToString`, as used by template literals. -/
def toStr (rt : Runtime) : JVal → String
  | undefined => "undefined"
  | null => "null"
  | bool b => if b then "true" else "false"
  | num q => rt.numberToString q
  | str s => s
  | arr items => joinItems rt items
  | obj _ => "[object Object]"
/-- The method `Array.prototype.join` with separator `","`. -/
def joinItems (rt : Runtime) : List JVal → String
  | [] => ""
  | [x] => itemStr rt x
  | x :: y :: rest => itemStr rt x ++ "," ++ joinItems rt (y :: rest)
/-- An array element inside `join`: `undefined` and `null` give the empty
string. -/
def itemStr (rt : Runtime) : JVal → String
  | undefined => ""
  | null => ""
  | v => toStr rt v
end

/-- The conversion `ToNumber`; `none` is `NaN`. -/
def toNumber (rt : Runtime) : JVal → Option ℚ
  | undefined => none
  | null => some 0
  | bool b => some (if b then 1 else 0)
  | num q => some q
  | str s => rt.stringToNumber s
  | arr items => rt.stringToNumber (joinItems rt items)
  | obj _ => none

/-- The method call `v.toString()`: throws on `undefined` and `null`. -/
def toStringMethod (rt : Runtime) (v : JVal) : Except String String :=
  match v with
  | undefined => .error "Cannot read properties of undefined (reading toString)"
  | null => .error "Cannot read properties of null (reading toString)"
  | v => .ok (toStr rt v)

end JVal

/-- Equality of results of a `try` is decidable. -/
instance instDecidableEqExcept {ε α : Type} [DecidableEq ε] [DecidableEq α] :
    DecidableEq (Except ε α)
  | .ok a, .ok b => if h : a = b then isTrue (congrArg Except.ok h)
    else isFalse (fun e => h (Except.ok.inj e))
  | .error a, .error b => if h : a = b then isTrue (congrArg Except.error h)
    else isFalse (fun e => h (Except.error.inj e))
  | .ok _, .error _ => isFalse nofun
  | .error _, .ok _ => isFalse nofun

/-- Subtraction `x - y` of two converted numbers; `NaN` is contagious. -/
def jsSub (x y : Option ℚ) : Option ℚ :=
  match x, y with
  | some a, some b => some (a - b)
  | _, _ => none

/-- Multiplication `x * y` of two converted numbers; `NaN` is contagious. -/
def jsMul (x y : Option ℚ) : Option ℚ :=
  match x, y with
  | some a, some b => some (a * b)
  | _, _ => none

/-- The comparison `x > y` of two converted numbers; false when either is
`NaN`. -/
def jsGt (x y : Option ℚ) : Bool :=
  match x, y with
  | some a, some b => decide (b < a)
  | _, _ => false

/-- The comparison `x >= y` of two converted numbers; false when either is
`NaN`. -/
def jsGe (x y : Option ℚ) : Bool :=
  match x, y with
  | some a, some b => decide (b ≤ a)
  | _, _ => false

/-! ## Arrays: `sort` and `slice` -/

/-- Whether a comparator result is a positive number; `NaN` is not. -/
def isPositive : Option ℚ → Bool
  | some v => decide (0 < v)
  | none => false

/-- The order a comparator induces: `a` may stay before `b` unless the
comparator returns a positive number.  A `NaN` result counts as `0`. -/
def notAfter {α : Type} (cmp : α → α → Option ℚ) (a b : α) : Prop :=
  isPositive (cmp a b) = false

instance instDecidableNotAfter {α : Type} (cmp : α → α → Option ℚ) :
    DecidableRel (notAfter cmp) :=
  fun a b => inferInstanceAs (Decidable (isPositive (cmp a b) = false))

/-- The method `Array.prototype.sort(cmp)`: a stable sort.  For a consistent
comparator the result does not depend on the sorting algorithm; it is computed
here by insertion. -/
def arraySort {α : Type} (cmp : α → α → Option ℚ) (xs : List α) : List α :=
  List.insertionSort (notAfter cmp) xs

/-- The conversion `ToIntegerOrInfinity`: truncation towards zero, `NaN` to
`0`. -/
def toIntegerOrInfinity (n : Option ℚ) : Int :=
  match n with
  | none => 0
  | some q => if q < 0 then Int.ceil q else Int.floor q

/-- The clamping of a relative end index `k` into `0 .. len`, as done by
`slice` for its second argument: a negative `k` counts from the end. -/
def relativeEnd (len : Nat) (k : Int) : Nat :=
  if k < 0 then len - Int.toNat (-k) else min (Int.toNat k) len

/-- The call `xs.slice(0, limit)`. -/
def sliceTo {α : Type} (rt : Runtime) (xs : List α) (limit : JVal) : List α :=
  match limit with
  | .undefined => xs
  | l => xs.take (relativeEnd xs.length (toIntegerOrInfinity (JVal.toNumber rt l)))

/-! ## Strings -/

namespace Str

/-- The characters matched by `\s` in a regular expression and removed by
`trim`: JavaScript white space and line terminators. -/
def isWhiteSpace (c : Char) : Bool :=
  let n := c.toNat
  (9 ≤ n && n ≤ 13) || n == 32 || n == 160 || n == 5760 || (8192 ≤ n && n ≤ 8202) ||
    n == 8232 || n == 8233 || n == 8239 || n == 8287 || n == 12288 || n == 65279

/-- The decimal digits matched by `\d`. -/
def isDigit (c : Char) : Bool := 48 ≤ c.toNat && c.toNat ≤ 57

/-- Canonicalisation of a character under the `i` flag (without the `u`
flag); only ASCII letters are identified with their other case. -/
def canon (c : Char) : Char :=
  if 97 ≤ c.toNat && c.toNat ≤ 122 then Char.ofNat (c.toNat - 32) else c

/-- Position of the first occurrence of `c`, if any. -/
def findFirst (c : Char) : List Char → Option Nat
  | [] => none
  | x :: xs => if x = c then some 0 else (findFirst c xs).map (· + 1)

/-- Position of the last occurrence of `c`, if any. -/
def findLast (c : Char) : List Char → Option Nat
  | [] => none
  | x :: xs =>
    match findLast c xs with
    | some i => some (i + 1)
    | none => if x = c then some 0 else none

/-- The method `text.indexOf(c)` for a one-character needle; `-1` when
absent. -/
def indexOf (text : String) (c : Char) : Int :=
  match findFirst c text.data with
  | some i => (i : Int)
  | none => -1

/-- The method `text.lastIndexOf(c)` for a one-character needle; `-1` when
absent. -/
def lastIndexOf (text : String) (c : Char) : Int :=
  match findLast c text.data with
  | some i => (i : Int)
  | none => -1

/-- Clamp an index into `0 .. len`. -/
def clampIndex (len : Nat) (i : Int) : Nat := min (Int.toNat i) len

/-- The method `text.substring(start, stop)` on integer arguments: both are
clamped into the string and swapped when out of order. -/
def substring (text : String) (start stop : Int) : String :=
  let a := clampIndex text.length start
  let b := clampIndex text.length stop
  String.mk ((text.data.drop (min a b)).take (max a b - min a b))

/-- Remove leading white space. -/
def trimStart (cs : List Char) : List Char := cs.dropWhile isWhiteSpace

/-- The method `text.trim()`. -/
def trim (text : String) : String :=
  String.mk (trimStart (trimStart text.data).reverse).reverse

/-- Match the literal `pat` at the head of the input, ignoring ASCII case
as the `i` flag does; returns the rest of the input. -/
def stripPrefixCI : List Char → List Char → Option (List Char)
  | [], cs => some cs
  | _ :: _, [] => none
  | p :: ps, c :: cs => if canon p = canon c then stripPrefixCI ps cs else none

/-- Try a matcher at every start position from left to right, the end of the
input included, as a non-global `match` does. -/
def firstMatch {α : Type} (f : List Char → Option α) : List Char → Option α
  | [] => f []
  | c :: cs =>
    match f (c :: cs) with
    | some r => some r
    | none => firstMatch f cs

/-- The character class `["\s:]`. -/
def isSep (c : Char) : Bool := c == Char.ofNat 34 || isWhiteSpace c || c == Char.ofNat 58

/-- The pattern `score["\s:]+(\d+)` with flag `i`, anchored at the head of the
input; returns capture group 1.  The class and the digits are disjoint, so a
shorter run of the class never helps. -/
def scoreAt (cs : List Char) : Option (List Char) :=
  match stripPrefixCI "score".data cs with
  | none => none
  | some rest =>
    if (rest.takeWhile isSep).isEmpty then none
    else
      let digits := (rest.dropWhile isSep).takeWhile isDigit
      if digits.isEmpty then none else some digits

/-- The lookahead `(?=recommendations|$)`. -/
def feedbackLookahead (cs : List Char) : Bool :=
  (stripPrefixCI "recommendations".data cs).isSome || cs.isEmpty

/-- The lazy group `([^"]+?)` followed by the lookahead: the shortest non-empty
run of characters other than the double quote after which the lookahead
holds. -/
def lazyGroup : List Char → Option (List Char)
  | [] => none
  | c :: cs =>
    if c == Char.ofNat 34 then none
    else if feedbackLookahead cs then some [c]
    else (lazyGroup cs).map (c :: ·)

/-- Backtracking over the greedy `["\s:]+`: try the longest run first, then
give characters back one at a time, down to one. -/
def backtrackSep {α : Type} (f : List Char → Option α) (rest : List Char) : Nat → Option α
  | 0 => none
  | j + 1 =>
    match f (rest.drop (j + 1)) with
    | some g => some g
    | none => backtrackSep f rest j

/-- The pattern `feedback["\s:]+([^"]+?)(?=recommendations|$)` with flags `is`,
anchored at the head of the input; returns capture group 1. -/
def feedbackAt (cs : List Char) : Option (List Char) :=
  match stripPrefixCI "feedback".data cs with
  | none => none
  | some rest => backtrackSep lazyGroup rest (rest.takeWhile isSep).length

/-- The greedy group `([^}]+)`: the longest non-empty run of characters other
than the closing brace. -/
def untilBrace (cs : List Char) : Option (List Char) :=
  let g := cs.takeWhile (fun c => !(c == Char.ofNat 125))
  if g.isEmpty then none else some g

/-- The pattern `recommendations["\s:]+([^}]+)` with flags `is`, anchored at
the head of the input; returns capture group 1. -/
def recommendationsAt (cs : List Char) : Option (List Char) :=
  match stripPrefixCI "recommendations".data cs with
  | none => none
  | some rest => backtrackSep untilBrace rest (rest.takeWhile isSep).length

/-- Value of a run of decimal digits. -/
def digitsValue (ds : List Char) : Nat :=
  ds.foldl (fun acc d => 10 * acc + (d.toNat - 48)) 0

/-- The integer read by the call `parseInt(text, 10)`: leading white space and
a sign are accepted, then the longest run of digits; `NaN` when there is none.
This is the mathematical integer the digits spell; it is the value of the call
whenever that integer is a double, as every integer up to `2 ^ 53` is
(`parseIntNumber` has the conversion to a double). -/
def parseInt (text : String) : Option ℚ :=
  let cs := trimStart text.data
  let neg := cs.head? == some (Char.ofNat 45)
  let body := if neg || cs.head? == some (Char.ofNat 43) then cs.tail else cs
  let ds := body.takeWhile isDigit
  if ds.isEmpty then none
  else some (if neg then -((digitsValue ds : ℕ) : ℚ) else ((digitsValue ds : ℕ) : ℚ))

/-- The number of binary digits of `n`; `fuel` bounds the recursion. -/
def bitLength : Nat → Nat → Nat
  | 0, _ => 0
  | fuel + 1, n => if n = 0 then 0 else bitLength fuel (n / 2) + 1

/-- The double nearest to the natural number `n`: `n` itself up to `2 ^ 53`,
beyond that the nearest multiple of `2 ^ e` that has a significand of 53 binary
digits, with ties going to the even significand; `none` when the result needs
more than 1024 binary digits, that is, is beyond the largest double: the
Number value is `Infinity` then. -/
def nearestDouble (n : Nat) : Option Nat :=
  if n ≤ 2 ^ 53 then some n
  else
    let e := bitLength n n - 53
    let q := n / 2 ^ e
    let r := n % 2 ^ e
    let half := 2 ^ (e - 1)
    let q' := if half < r ∨ (r = half ∧ q % 2 = 1) then q + 1 else q
    if bitLength (q' * 2 ^ e) (q' * 2 ^ e) ≤ 1024 then some (q' * 2 ^ e) else none

/-- A Number value that an integer converts to. -/
inductive NumberValue where
  | nan : NumberValue
  | finite (q : ℚ) : NumberValue
  | infinity (negative : Bool) : NumberValue
  deriving DecidableEq

/-- The value of the call `parseInt(text, 10)`: the integer read, converted to
the nearest double. -/
def parseIntNumber (text : String) : NumberValue :=
  match parseInt text with
  | none => .nan
  | some q =>
    match nearestDouble q.num.natAbs with
    | some d => .finite (if q < 0 then -((d : ℕ) : ℚ) else ((d : ℕ) : ℚ))
    | none => .infinity (decide (q < 0))

/-- Remove `pat` at the head of the input when it is there. -/
def stripPrefix : List Char → List Char → Option (List Char)
  | [], cs => some cs
  | _ :: _, [] => none
  | p :: ps, c :: cs => if p = c then stripPrefix ps cs else none

/-- Remove the first occurrence of `pat` from the input. -/
def removeFirst (pat : List Char) : List Char → List Char
  | [] => []
  | c :: cs =>
    match stripPrefix pat (c :: cs) with
    | some rest => rest
    | none => c :: removeFirst pat cs

/-- The call `text.replace(pat, "")` with a string pattern: the first
occurrence is removed. -/
def replaceWithEmpty (text pat : String) : String :=
  String.mk (removeFirst pat.data text.data)

end Str

/-! ## External services -/

/-- Outcome of a call to the language model: the call raises, or
`result.response.text()` yields a text. -/
inductive ModelOutcome where
  | raised (message : String) : ModelOutcome
  | text (t : String) : ModelOutcome
  deriving DecidableEq

/-- Outcome of a call to the embedding provider: the call raises, or
`result.embedding` is a value. -/
inductive EmbedOutcome where
  | raised (message : String) : EmbedOutcome
  | embedding (v : JVal) : EmbedOutcome
  deriving DecidableEq

/-! ## `src/lib/embeddings.js` -/

/-- The function `getEmbedding`: the provider's embedding, or on any failure
1536 components `Math.random() * 2 - 1`; `random i` is the result of the
`i`-th call of `Math.random`. -/
def getEmbedding (provider : JVal → EmbedOutcome) (random : Nat → ℚ) (text : JVal) : JVal :=
  match provider text with
  | .embedding v => v
  | .raised _ => .arr ((List.range 1536).map (fun i => .num (random i * 2 - 1)))

/-- The prompt of `generateAIEvaluation`, up to the job description. -/
def evaluationPromptHead : String :=
  "\nYou are an expert AI talent evaluator with years of experience in technical recruiting.\n\nJOB DESCRIPTION:\n"

/-- The prompt of `generateAIEvaluation`, between the job description and the
candidate profile. -/
def evaluationPromptMiddle : String := "\n\nCANDIDATE PROFILE:\n"

/-- The prompt of `generateAIEvaluation`, after the candidate profile. -/
def evaluationPromptTail : String :=
  "\n\nYour task is to thoroughly evaluate how well this candidate's skills, experience, and background match the requirements for this position.\n\nPlease provide:\n\n1. A score from 0-100 representing the overall match between the candidate and job (be realistic and nuanced)\n2. A well-structured, detailed feedback analysis (3-4 paragraphs) covering:\n   - Candidate's key strengths relevant to this role\n   - Areas where the candidate meets or exceeds expectations\n   - Gaps or areas for improvement\n   - Overall fit assessment\n\n3. Specific recommendations (in bullet points) for:\n   - Skills the candidate should develop to better fit the role\n   - How the candidate could position themselves better for this type of role\n   - Any other constructive suggestions\n\nFormat your response exactly as follows:\n\n\x7b\n  \"score\": [number between 0-100],\n  \"feedback\": \"[Your detailed, well-formatted feedback analysis]\",\n  \"recommendations\": \"[Your specific recommendations in bullet point format]\"\n\x7d\n"

/-- The prompt of `generateAIEvaluation`. -/
def evaluationPrompt (candidateProfile jobDescription : String) : String :=
  evaluationPromptHead ++ jobDescription ++ evaluationPromptMiddle ++ candidateProfile
    ++ evaluationPromptTail

/-- The result `{ score, feedback, recommendations }` as an object. -/
def evaluationObject (score feedback recommendations : JVal) : JVal :=
  .obj [("score", score), ("feedback", feedback), ("recommendations", recommendations)]

/-- The value returned when `JSON.parse` throws (the inner `catch`). -/
def parseFailureEvaluation : JVal :=
  evaluationObject (.num 60)
    (.str "The candidate shows some relevant skills for the position. Their background includes experience that could be valuable, though there may be some gaps in specific technical requirements. Further discussion recommended to assess cultural fit and technical depth.")
    (.str "• Focus on strengthening core technical skills required for the position\n• Consider gaining more hands-on project experience\n• Highlight relevant achievements more prominently")

/-- The value returned when the model call raises (the outer `catch`). -/
def modelFailureEvaluation : JVal :=
  evaluationObject (.num 0)
    (.str "Error generating evaluation. Please try again later.")
    (.str "• Unable to provide recommendations at this time")

/-- Default feedback of the regular-expression branch. -/
def defaultFeedback : String :=
  "Based on the candidate's profile, there appears to be a partial match with the job requirements. The candidate has some relevant skills but may need additional experience in key areas."

/-- Default recommendations of the regular-expression branch. -/
def defaultRecommendations : String :=
  "• Focus on developing skills directly relevant to the role\n• Gain more practical experience in related areas\n• Consider additional certifications or training"

/-- The `else` branch of `generateAIEvaluation`: extraction by the three
regular expressions, each with its own default.  The score `parseInt` gives is
a double; where it is not a finite number (`Infinity`, for digits that spell
an integer beyond the largest double, about `1.8e308`) it is no `JVal`:
`undefined` stands in its place, and no statement is made about it. -/
def regexEvaluation (text : String) : JVal :=
  let score : JVal :=
    match Str.firstMatch Str.scoreAt text.data with
    | some ds =>
      (match Str.parseIntNumber (String.mk ds) with
       | .finite q => .num q
       | _ => .undefined)
    | none => .num 65
  let feedback : String :=
    match Str.firstMatch Str.feedbackAt text.data with
    | some g => Str.trim (String.mk g)
    | none => defaultFeedback
  let recommendations : String :=
    match Str.firstMatch Str.recommendationsAt text.data with
    | some g => Str.trim (String.mk g)
    | none => defaultRecommendations
  evaluationObject score (.str feedback) (.str recommendations)

/-- The text handed to `JSON.parse` by both model clients: with
`jsonStart = text.indexOf('{')` and `jsonEnd = text.lastIndexOf('}') + 1`, the
substring `text.substring(jsonStart, jsonEnd)` when
`jsonStart >= 0 && jsonEnd > jsonStart`, and `none` otherwise. -/
def jsonSlice (text : String) : Option String :=
  let jsonStart := Str.indexOf text (Char.ofNat 123)
  let jsonEnd := Str.lastIndexOf text (Char.ofNat 125) + 1
  if jsonStart ≥ 0 ∧ jsonEnd > jsonStart then some (Str.substring text jsonStart jsonEnd)
  else none

/-- The inner `try` of `generateAIEvaluation` on the response text. -/
def parseEvaluation (rt : Runtime) (text : String) : JVal :=
  match jsonSlice text with
  | some jsonText =>
    (match rt.jsonParse jsonText with
     | some v => v
     | none => parseFailureEvaluation)
  | none => regexEvaluation text

/-- The function `generateAIEvaluation`. -/
def generateAIEvaluation (rt : Runtime) (model : String → ModelOutcome)
    (candidateProfile jobDescription : String) : JVal :=
  match model (evaluationPrompt candidateProfile jobDescription) with
  | .raised _ => modelFailureEvaluation
  | .text text => parseEvaluation rt text

/-- The body of the inner `try` of `generateAIEvaluation`, with the exception
that `JSON.parse` throws made explicit. -/
def evaluationInnerTry (rt : Runtime) (text : String) : Except String JVal :=
  match jsonSlice text with
  | some jsonText =>
    (match rt.jsonParse jsonText with
     | some v => .ok v
     | none => .error "SyntaxError: the text is not valid JSON")
  | none => .ok (regexEvaluation text)

/-- The body of the outer `try` of `generateAIEvaluation`, with its exceptions
made explicit: the model call can throw; what the inner `try` throws is caught
by the inner `catch`. -/
def evaluationOuterTry (rt : Runtime) (model : String → ModelOutcome)
    (candidateProfile jobDescription : String) : Except String JVal :=
  match model (evaluationPrompt candidateProfile jobDescription) with
  | .raised message => .error message
  | .text text =>
    match evaluationInnerTry rt text with
    | .ok v => .ok v
    | .error _ => .ok parseFailureEvaluation

/-- The outcome of a call of `generateAIEvaluation`: the value its promise
resolves with, or the error it rejects with.  What the outer `try` throws is
caught by the outer `catch`. -/
def generateAIEvaluationOutcome (rt : Runtime) (model : String → ModelOutcome)
    (candidateProfile jobDescription : String) : Except String JVal :=
  match evaluationOuterTry rt model candidateProfile jobDescription with
  | .ok v => .ok v
  | .error _ => .ok modelFailureEvaluation

/-! ## `src/app/api/evaluate/route.js` -/

/-- One element of the `evaluations` array of the response.  A property that
the object literal does not set is `undefined`. -/
structure Evaluation where
  candidateId : String
  candidateName : JVal
  similarity : String
  score : JVal
  feedback : JVal
  recommendations : JVal
  deriving DecidableEq

/-- Response of `POST /api/evaluate`. -/
inductive EvaluateResponse where
  /-- Status 400 with `{ error }`. -/
  | badRequest (error : String) : EvaluateResponse
  /-- Status 200 with `{ evaluations }` and, for an empty store, `message`. -/
  | ok (evaluations : List Evaluation) (message : Option String) : EvaluateResponse
  /-- Status 500 with `{ error, details }`. -/
  | serverError (error details : String) : EvaluateResponse
  deriving DecidableEq

/-- Outcome of `fetch('/api/candidates')` followed by `.json()`.  The route
answers with the candidate array of the record store, whose elements are
objects. -/
inductive CandidatesFetch where
  | raised (message : String) : CandidatesFetch
  | notOk : CandidatesFetch
  | badJson (message : String) : CandidatesFetch
  | ok (candidates : List Obj) : CandidatesFetch
  deriving DecidableEq

/-- Outcome of `fetch('/api/jobs/<id>')` followed by `.json()`.  The route
answers with status 200 only for a job object found in the store. -/
inductive JobFetch where
  | raised (message : String) : JobFetch
  | notOk (status : Nat) : JobFetch
  | badJson (message : String) : JobFetch
  | ok (job : Obj) : JobFetch
  deriving DecidableEq

/-- The job substituted when the job cannot be fetched. -/
def fallbackJob : Obj :=
  [("title", .str "Unknown Position"),
   ("description", .str "Job details not available"),
   ("requirements", .str "Unknown requirements")]

/-- The job used by the Evaluate pipeline: the fetched one, or the fallback
when the response is not ok or the fetch raises. -/
def resolveJob (fetched : JobFetch) : Obj :=
  match fetched with
  | .ok job => job
  | _ => fallbackJob

/-- The template literal `jobText`. -/
def jobText (rt : Runtime) (job : Obj) : String :=
  "\n      Title: " ++ JVal.toStr rt (JVal.orElse (JVal.lookup "title" job) (.str "No title"))
  ++ "\n      Description: "
  ++ JVal.toStr rt (JVal.orElse (JVal.lookup "description" job) (.str "No description"))
  ++ "\n      Requirements: "
  ++ JVal.toStr rt (JVal.orElse (JVal.lookup "requirements" job) (.str "No requirements"))
  ++ "\n    "

/-- The template literal `candidateProfile`. -/
def candidateProfile (rt : Runtime) (c : Obj) : String :=
  "\n          Name: " ++ JVal.toStr rt (JVal.orElse (JVal.lookup "name" c) (.str "Unknown"))
  ++ "\n          Email: "
  ++ JVal.toStr rt (JVal.orElse (JVal.lookup "email" c) (.str "Not provided"))
  ++ "\n          LinkedIn: "
  ++ JVal.toStr rt (JVal.orElse (JVal.lookup "linkedin" c) (.str "Not provided"))
  ++ "\n          Skills: "
  ++ JVal.toStr rt (JVal.orElse (JVal.lookup "skills" c) (.str "Not specified"))
  ++ "\n          Experience: "
  ++ JVal.toStr rt (JVal.orElse (JVal.lookup "experience" c) (.str "Not specified"))
  ++ "\n          Resume Text: "
  ++ JVal.toStr rt (JVal.orElse (JVal.lookup "resumeText" c) (.str "Not available"))
  ++ "\n        "

/-- The optional chain `v?.length`. -/
def optionalLength (v : JVal) : JVal :=
  match v with
  | .undefined => .undefined
  | .null => .undefined
  | .obj props => JVal.lookup "length" props
  | .arr items => .num items.length
  | .str s => .num s.length
  | _ => .undefined

/-- The logging of the resume preview: `resumeText.substring(0, 100)` is
called when `resumeText?.length > 100`, and throws unless `resumeText` is a
string. -/
def resumePreview (rt : Runtime) (c : Obj) : Except String Unit :=
  let resume := JVal.lookup "resumeText" c
  if jsGt (JVal.toNumber rt (optionalLength resume)) (some 100) then
    match resume with
    | .str _ => .ok ()
    | _ => .error "candidate.resumeText.substring is not a function"
  else .ok ()

/-- The body of the per-candidate `try`. -/
def evaluateTry (rt : Runtime) (evaluator : String → String → Except String JVal)
    (jobTxt : String) (c : Obj) : Except String Evaluation := do
  resumePreview rt c
  let evaluation ← evaluator (candidateProfile rt c) jobTxt
  let id ← JVal.toStringMethod rt (JVal.lookup "id" c)
  let score ← JVal.getProp evaluation "score"
  let feedback ← JVal.getProp evaluation "feedback"
  let recommendations ← JVal.getProp evaluation "recommendations"
  pure {
    candidateId := id
    candidateName := JVal.lookup "name" c
    similarity := "N/A"
    score := JVal.orElse score (.num 0)
    feedback := JVal.orElse feedback (.str "No feedback available")
    recommendations := JVal.orElse recommendations (.str "No recommendations available") }

/-- The body of the per-candidate `catch`; an error here rejects the
candidate's promise. -/
def evaluateCatch (rt : Runtime) (c : Obj) (message : String) : Except String Evaluation := do
  let id ← JVal.toStringMethod rt (JVal.lookup "id" c)
  pure {
    candidateId := id
    candidateName := JVal.lookup "name" c
    similarity := "0.00"
    score := .num 0
    feedback := .str ("Error during evaluation: " ++ message)
    recommendations := .undefined }

/-- The callback of `candidates.map`: one promise per candidate, resolved with
an evaluation or rejected. -/
def evaluateCandidate (rt : Runtime) (evaluator : String → String → Except String JVal)
    (jobTxt : String) (c : Obj) : Except String Evaluation :=
  match evaluateTry rt evaluator jobTxt c with
  | .ok e => .ok e
  | .error message => evaluateCatch rt c message

/-- The call `Promise.all`: all results in input order, or the rejection.
When several promises reject, the first in input order is reported. -/
def promiseAll {α : Type} : List (Except String α) → Except String (List α)
  | [] => .ok []
  | .error m :: _ => .error m
  | .ok a :: rest =>
    match promiseAll rest with
    | .ok as => .ok (a :: as)
    | .error m => .error m

/-- The comparator `(a, b) => b.score - a.score` of the Evaluate pipeline. -/
def compareEvaluations (rt : Runtime) (a b : Evaluation) : Option ℚ :=
  jsSub (JVal.toNumber rt b.score) (JVal.toNumber rt a.score)

/-- The handler `POST` of `/api/evaluate`.  `body` is the result of
`request.json()`, an error when that throws. -/
def evaluatePOST (rt : Runtime) (fetchCandidates : CandidatesFetch)
    (fetchJob : JVal → JobFetch) (evaluator : String → String → Except String JVal)
    (body : Except String JVal) : EvaluateResponse :=
  let failure (details : String) := EvaluateResponse.serverError "Error evaluating candidates" details
  match body with
  | .error m => failure m
  | .ok b =>
    match JVal.getProp b "jobId" with
    | .error m => failure m
    | .ok jobId =>
      if !(JVal.truthy jobId) then .badRequest "Job ID is required"
      else
        match fetchCandidates with
        | .raised m => failure m
        | .notOk => failure "Failed to fetch candidates"
        | .badJson m => failure m
        | .ok candidates =>
          if candidates.length = 0 then
            .ok [] (some "No candidates found in the system")
          else
            let job := resolveJob (fetchJob jobId)
            let jobTxt := jobText rt job
            match promiseAll (candidates.map (evaluateCandidate rt evaluator jobTxt)) with
            | .error m => failure m
            | .ok evaluations => .ok (arraySort (compareEvaluations rt) evaluations) none

/-! ## `src/app/api/search/route.js` -/

/-- One element of `searchResults.matches`: the entry's id and its similarity
(`undefined` when the index sends none). -/
structure IndexMatch where
  id : String
  score : JVal
  deriving DecidableEq

/-- The argument of `pineconeIndex.query`. -/
structure QueryArgs where
  vector : JVal
  topK : Option ℚ
  filterType : String
  includeMetadata : Bool
  deriving DecidableEq

/-- Outcome of `pineconeIndex.query`: the call raises, or answers with its
matches. -/
inductive IndexOutcome where
  | raised (message : String) : IndexOutcome
  | result (hits : List IndexMatch) : IndexOutcome
  deriving DecidableEq

/-- Response of `POST /api/search`. -/
inductive SearchResponse where
  /-- Status 400 with `{ error }`. -/
  | badRequest (error : String) : SearchResponse
  /-- Status 200 with `{ results, searchMethod }`. -/
  | ok (results : List Obj) (searchMethod : String) : SearchResponse
  /-- Status 500 with `{ error, details, stack }`. -/
  | serverError (error details : String) : SearchResponse
  deriving DecidableEq

/-- The expression `c.resumeText?.substring(0, 800) || "No resume text
available"` of the reranking prompt. -/
def resumeExcerpt (c : Obj) : Except String String :=
  match JVal.lookup "resumeText" c with
  | .undefined => .ok "No resume text available"
  | .null => .ok "No resume text available"
  | .str s =>
    let cut := Str.substring s 0 800
    .ok (if cut = "" then "No resume text available" else cut)
  | _ => .error "c.resumeText?.substring is not a function"

/-- The block of candidate number `i + 1` in the reranking prompt. -/
def candidateBlock (rt : Runtime) (i : Nat) (c : Obj) : Except String String := do
  let resume ← resumeExcerpt c
  pure ("\nCANDIDATE " ++ rt.numberToString ((i + 1 : ℕ) : ℚ) ++ ":\nID: "
    ++ JVal.toStr rt (JVal.lookup "id" c) ++ "\nName: "
    ++ JVal.toStr rt (JVal.lookup "name" c) ++ "\nSkills: "
    ++ JVal.toStr rt (JVal.lookup "skills" c) ++ "\nExperience: "
    ++ JVal.toStr rt (JVal.lookup "experience" c) ++ "\nResume Text: " ++ resume ++ "\n")

/-- The blocks of all candidates, numbered from `i + 1`. -/
def candidateBlocks (rt : Runtime) : Nat → List Obj → Except String (List String)
  | _, [] => .ok []
  | i, c :: cs => do
    let b ← candidateBlock rt i c
    let bs ← candidateBlocks rt (i + 1) cs
    pure (b :: bs)

/-- The prompt of `rerankWithGemini`; building it can throw. -/
def rerankPrompt (rt : Runtime) (candidates : List Obj) (requirements : JVal) :
    Except String String := do
  let blocks ← candidateBlocks rt 0 candidates
  pure ("\nYou are an expert HR recruiter evaluating candidate resumes against job requirements.\n\nJOB REQUIREMENTS:\n"
    ++ JVal.toStr rt (JVal.orElse requirements
        (.str "General skills and experience relevant to this role"))
    ++ "\n\nCANDIDATES:\n" ++ "\n".intercalate blocks
    ++ "\n\nRank these candidates based on their match to the job requirements. For each candidate, provide:\n1. A match score from 0.0 to 1.0 (higher is better)\n2. A brief explanation of why they match or don't match\n\nReturn ONLY valid JSON in exactly this format:\n\x7b\n  \"rankings\": [\n    \x7b\n      \"id\": 1,\n      \"score\": 0.95,\n      \"explanation\": \"Explanation text here\"\n    \x7d,\n    ...more candidates\n  ]\n\x7d\n")

/-- The call `rankings.rankings.find(r => r.id === candidate.id)`:
the first entry whose `id` is strictly equal to `id`, `undefined` when there is
none.  Reading `r.id` throws on a `null` entry. -/
def findRanking (id : JVal) : List JVal → Except String JVal
  | [] => .ok .undefined
  | r :: rest => do
    let rid ← JVal.getProp r "id"
    if JVal.strictEq rid id then pure r else findRanking id rest

/-- The object `{ ...candidate, score, explanation }`. -/
def withScore (c : Obj) (score explanation : JVal) : Obj :=
  JVal.setProp (JVal.setProp c "score" score) "explanation" explanation

/-- The body of the loop `for (const candidate of candidates)`: the row pushed
for one candidate. -/
def mergeCandidate (rankings : List JVal) (c : Obj) : Except String Obj := do
  let ranking ← findRanking (JVal.lookup "id" c) rankings
  if JVal.truthy ranking then
    let score ← JVal.getProp ranking "score"
    let explanation ← JVal.getProp ranking "explanation"
    pure (withScore c score explanation)
  else
    pure (withScore c (.num 0.1) (.str "Not specifically ranked by AI"))

/-- The loop that maps rankings to candidates: one row per candidate, in
input order; it throws as soon as one iteration throws. -/
def mergeRankings (rankings : List JVal) : List Obj → Except String (List Obj)
  | [] => .ok []
  | c :: cs => do
    let row ← mergeCandidate rankings c
    let rows ← mergeRankings rankings cs
    pure (row :: rows)

/-- The comparator `(a, b) => b.score - a.score` of the Reranker. -/
def compareRows (rt : Runtime) (a b : Obj) : Option ℚ :=
  jsSub (JVal.toNumber rt (JVal.lookup "score" b)) (JVal.toNumber rt (JVal.lookup "score" a))

/-- The part of `rerankWithGemini` after the JSON text has been parsed: `none`
stands for every path that ends in `candidates.slice(0, limit)`. -/
def rankParsed (rt : Runtime) (candidates : List Obj) (parsed : JVal) : Option (List Obj) :=
  match JVal.getProp parsed "rankings" with
  | .ok (.arr rankings) =>
    (match mergeRankings rankings candidates with
     | .ok rows => some (arraySort (compareRows rt) rows)
     | .error _ => none)
  | _ => none

/-- The part of `rerankWithGemini` that works on the response text. -/
def rankFromText (rt : Runtime) (candidates : List Obj) (text : String) : Option (List Obj) :=
  match jsonSlice text with
  | some jsonText =>
    (match rt.jsonParse jsonText with
     | some parsed => rankParsed rt candidates parsed
     | none => none)
  | none => none

/-- The function `rerankWithGemini`. -/
def rerankWithGemini (rt : Runtime) (model : String → ModelOutcome)
    (candidates : List Obj) (requirements limit : JVal) : List Obj :=
  if candidates.length = 0 then []
  else
    match rerankPrompt rt candidates requirements with
    | .error _ => sliceTo rt candidates limit
    | .ok prompt =>
      match model prompt with
      | .raised _ => sliceTo rt candidates limit
      | .text text =>
        match rankFromText rt candidates text with
        | some ranked => sliceTo rt ranked limit
        | none => sliceTo rt candidates limit

/-- The callback of `searchResults.matches.map`: the stored candidate whose id
is the number decoded from the match id, extended with `vectorScore`; `none`
stands for `null`. -/
def resolveMatch (allCandidates : List Obj) (m : IndexMatch) : Option Obj :=
  let candidateId := Str.parseInt (Str.replaceWithEmpty m.id "candidate_")
  match candidateId with
  | none => none
  | some n =>
    match allCandidates.find? (fun c => JVal.strictEq (JVal.lookup "id" c) (.num n)) with
    | some c => some (JVal.setProp c "vectorScore" m.score)
    | none => none

/-- The search text and job requirements after the job lookup. -/
def resolveSearchText (rt : Runtime) (fetchJob : JVal → JobFetch) (query jobId : JVal) :
    JVal × JVal :=
  if JVal.truthy jobId then
    match fetchJob jobId with
    | .ok job =>
      let requirements := JVal.lookup "requirements" job
      (.str (Str.trim (JVal.toStr rt requirements ++ " "
          ++ JVal.toStr rt (JVal.orElse query (.str "")))), requirements)
    | _ => (query, .str "")
  else (query, .str "")

/-- The destructuring default `limit = 10`: it applies when the property is
`undefined`. -/
def requestLimit (limitProp : JVal) : JVal :=
  match limitProp with
  | .undefined => .num 10
  | l => l

/-- The argument of the call `pineconeIndex.query` of the vector tier. -/
def searchQuery (rt : Runtime) (provider : JVal → EmbedOutcome) (random : Nat → ℚ)
    (searchText limit : JVal) : QueryArgs :=
  { vector := getEmbedding provider random searchText
    topK := jsMul (JVal.toNumber rt limit) (some 2)
    filterType := "candidate"
    includeMetadata := true }

/-- The candidates of the fallback tier:
`allCandidates.slice(0, Math.min(allCandidates.length, 15))`. -/
def fallbackCandidates (allCandidates : List Obj) : List Obj :=
  allCandidates.take (min allCandidates.length 15)

/-- The handler `POST` of `/api/search`.  `body` is the result of
`request.json()`, `allCandidates` the result of `getCandidates()`. -/
def searchPOST (rt : Runtime) (fetchJob : JVal → JobFetch) (allCandidates : List Obj)
    (provider : JVal → EmbedOutcome) (random : Nat → ℚ) (index : QueryArgs → IndexOutcome)
    (model : String → ModelOutcome) (body : Except String JVal) : SearchResponse :=
  let failure (details : String) := SearchResponse.serverError "Error searching candidates" details
  match body with
  | .error m => failure m
  | .ok b =>
    match JVal.getProp b "query", JVal.getProp b "jobId", JVal.getProp b "limit" with
    | .ok query, .ok jobId, .ok limitProp =>
      let limit := requestLimit limitProp
      if !(JVal.truthy query) && !(JVal.truthy jobId) then
        .badRequest "Either search query or job ID is required"
      else
        let resolved := resolveSearchText rt fetchJob query jobId
        let searchText := resolved.1
        let jobRequirements := resolved.2
        if !(JVal.truthy searchText) then .badRequest "No valid search text available"
        else
          let requirements := JVal.orElse jobRequirements query
          let fallback :=
            SearchResponse.ok
              (rerankWithGemini rt model (fallbackCandidates allCandidates) requirements limit)
              "gemini-only"
          match index (searchQuery rt provider random searchText limit) with
          | .raised _ => fallback
          | .result ms =>
            if ms.length > 0 then
              .ok (rerankWithGemini rt model (ms.filterMap (resolveMatch allCandidates))
                    requirements limit)
                "vector-and-gemini"
            else fallback
    | .error m, _, _ => failure m
    | _, .error m, _ => failure m
    | _, _, .error m => failure m

/-! ## A reference runtime

A concrete `Runtime`, used to run the pipelines on concrete inputs.  Its JSON
reader follows the JSON grammar (escapes `\u` in the surrogate range are not
supported); its number reader accepts signed decimal literals; its number
printer is exact on integers and on short terminating decimals. -/

namespace Json

/-- JSON white space. -/
def isWs (c : Char) : Bool := c.toNat == 32 || c.toNat == 9 || c.toNat == 10 || c.toNat == 13

/-- Skip JSON white space. -/
def skipWs (cs : List Char) : List Char := cs.dropWhile isWs

/-- Value of a hexadecimal digit. -/
def hexValue (c : Char) : Option Nat :=
  let n := c.toNat
  if 48 ≤ n && n ≤ 57 then some (n - 48)
  else if 97 ≤ n && n ≤ 102 then some (n - 87)
  else if 65 ≤ n && n ≤ 70 then some (n - 55)
  else none

/-- The character of a `\uXXXX` escape outside the surrogate range. -/
def unicodeEscape (a b c d : Char) : Option Char :=
  match hexValue a, hexValue b, hexValue c, hexValue d with
  | some w, some x, some y, some z =>
    let n := ((w * 16 + x) * 16 + y) * 16 + z
    if 55296 ≤ n && n ≤ 57343 then none else some (Char.ofNat n)
  | _, _, _, _ => none

/-- Read the characters of a string after its opening quote, up to and
including the closing quote. -/
def readString : List Char → Option (List Char × List Char)
  | [] => none
  | c :: cs =>
    if c.toNat == 34 then some ([], cs)
    else if c.toNat == 92 then
      match cs with
      | [] => none
      | e :: rest =>
        if e.toNat == 117 then
          match rest with
          | a :: b :: c' :: d :: rest' =>
            (match unicodeEscape a b c' d, readString rest' with
             | some u, some (s, r) => some (u :: s, r)
             | _, _ => none)
          | _ => none
        else
          let decoded : Option Char :=
            if e.toNat == 34 then some e
            else if e.toNat == 92 then some e
            else if e.toNat == 47 then some e
            else if e.toNat == 98 then some (Char.ofNat 8)
            else if e.toNat == 102 then some (Char.ofNat 12)
            else if e.toNat == 110 then some (Char.ofNat 10)
            else if e.toNat == 114 then some (Char.ofNat 13)
            else if e.toNat == 116 then some (Char.ofNat 9)
            else none
          match decoded, readString rest with
          | some u, some (s, r) => some (u :: s, r)
          | _, _ => none
    else if c.toNat < 32 then none
    else
      match readString cs with
      | some (s, r) => some (c :: s, r)
      | none => none

/-- Read an unsigned decimal literal: digits, an optional fraction, an
optional exponent.  With `strict` a leading zero must stand alone, as JSON
requires. -/
def readUnsigned (strict : Bool) (cs : List Char) : Option (ℚ × List Char) :=
  let intDigits := cs.takeWhile Str.isDigit
  let afterInt := cs.dropWhile Str.isDigit
  if intDigits.isEmpty then none
  else if strict && intDigits.length > 1 && intDigits.head? == some (Char.ofNat 48) then none
  else
    let hasFrac := afterInt.head? == some (Char.ofNat 46)
    let fracDigits := if hasFrac then afterInt.tail.takeWhile Str.isDigit else []
    let afterFrac := if hasFrac then afterInt.tail.dropWhile Str.isDigit else afterInt
    if hasFrac && fracDigits.isEmpty then none
    else
      let mantissa : ℚ :=
        (Str.digitsValue intDigits : ℚ)
          + (Str.digitsValue fracDigits : ℚ) / (10 : ℚ) ^ fracDigits.length
      let hasExp := afterFrac.head? == some (Char.ofNat 101)
        || afterFrac.head? == some (Char.ofNat 69)
      if hasExp then
        let e1 := afterFrac.tail
        let negExp := e1.head? == some (Char.ofNat 45)
        let e2 := if negExp || e1.head? == some (Char.ofNat 43) then e1.tail else e1
        let expDigits := e2.takeWhile Str.isDigit
        if expDigits.isEmpty then none
        else
          let e := Str.digitsValue expDigits
          some (if negExp then mantissa / (10 : ℚ) ^ e else mantissa * (10 : ℚ) ^ e,
            e2.dropWhile Str.isDigit)
      else some (mantissa, afterFrac)

/-- Read a JSON number. -/
def readNumber (cs : List Char) : Option (ℚ × List Char) :=
  if cs.head? == some (Char.ofNat 45) then
    match readUnsigned true cs.tail with
    | some (q, r) => some (-q, r)
    | none => none
  else readUnsigned true cs

mutual
/-- Read a JSON value; `fuel` bounds the nesting and the number of items. -/
def readValue : Nat → List Char → Option (JVal × List Char)
  | 0, _ => none
  | fuel + 1, cs =>
    match cs with
    | [] => none
    | c :: rest =>
      if c.toNat == 123 then
        match skipWs rest with
        | [] => none
        | d :: rest' =>
          if d.toNat == 125 then some (.obj [], rest')
          else
            match readMembers fuel (d :: rest') with
            | some (props, r) => some (.obj props, r)
            | none => none
      else if c.toNat == 91 then
        match skipWs rest with
        | [] => none
        | d :: rest' =>
          if d.toNat == 93 then some (.arr [], rest')
          else
            match readElements fuel (d :: rest') with
            | some (items, r) => some (.arr items, r)
            | none => none
      else if c.toNat == 34 then
        match readString rest with
        | some (s, r) => some (.str (String.mk s), r)
        | none => none
      else
        match Str.stripPrefix "true".data cs, Str.stripPrefix "false".data cs,
            Str.stripPrefix "null".data cs with
        | some r, _, _ => some (.bool true, r)
        | _, some r, _ => some (.bool false, r)
        | _, _, some r => some (.null, r)
        | _, _, _ =>
          match readNumber cs with
          | some (q, r) => some (.num q, r)
          | none => none
/-- Read the elements of an array up to and including the closing bracket. -/
def readElements : Nat → List Char → Option (List JVal × List Char)
  | 0, _ => none
  | fuel + 1, cs =>
    match readValue fuel (skipWs cs) with
    | none => none
    | some (v, r) =>
      match skipWs r with
      | [] => none
      | d :: rest =>
        if d.toNat == 93 then some ([v], rest)
        else if d.toNat == 44 then
          match readElements fuel rest with
          | some (vs, r') => some (v :: vs, r')
          | none => none
        else none
/-- Read the members of an object up to and including the closing brace; a
repeated key keeps its first position and takes the last value. -/
def readMembers : Nat → List Char → Option (Obj × List Char)
  | 0, _ => none
  | fuel + 1, cs =>
    match skipWs cs with
    | [] => none
    | q :: afterQuote =>
      if q.toNat == 34 then
        match readString afterQuote with
        | none => none
        | some (k, r) =>
          match skipWs r with
          | [] => none
          | colon :: r1 =>
            if colon.toNat == 58 then
              match readValue fuel (skipWs r1) with
              | none => none
              | some (v, r2) =>
                match skipWs r2 with
                | [] => none
                | d :: rest =>
                  if d.toNat == 125 then some ([(String.mk k, v)], rest)
                  else if d.toNat == 44 then
                    match readMembers fuel rest with
                    | some (props, r') =>
                      some (if JVal.hasKey (String.mk k) props then (String.mk k, JVal.lookup (String.mk k) props) :: props.filter (fun p => !(p.1 == String.mk k))
                            else (String.mk k, v) :: props, r')
                    | none => none
                  else none
            else none
      else none
end

/-- The function `JSON.parse` of the reference runtime. -/
def parse (text : String) : Option JVal :=
  match readValue (text.length + 1) (skipWs text.data) with
  | some (v, rest) => if (skipWs rest).isEmpty then some v else none
  | none => none

/-- The conversion `StringToNumber` of the reference runtime: white space is
trimmed, the empty string is `0`, a signed decimal literal is its value, and
everything else is `NaN`. -/
def stringToNumber (text : String) : Option ℚ :=
  let cs := (Str.trim text).data
  if cs.isEmpty then some 0
  else
    let neg := cs.head? == some (Char.ofNat 45)
    let body := if neg || cs.head? == some (Char.ofNat 43) then cs.tail else cs
    let body' := if body.head? == some (Char.ofNat 46) then Char.ofNat 48 :: body else body
    match readUnsigned false body' with
    | some (q, []) => some (if neg then -q else q)
    | _ => none

/-- The decimal digits of a natural number. -/
def natDigits (n : Nat) : String := String.mk (Nat.toDigits 10 n)

/-- The first `k` digits of the fractional part `r` (with `0 ≤ r < 1`),
stopping when the remainder vanishes. -/
def fracDigits : Nat → ℚ → List Char
  | 0, _ => []
  | k + 1, r =>
    if r = 0 then []
    else
      let d := Int.toNat (Int.floor (r * 10))
      Char.ofNat (48 + d) :: fracDigits k (r * 10 - d)

/-- The conversion `Number::toString` of the reference runtime. -/
def numberToString (q : ℚ) : String :=
  let a := |q|
  let whole := Int.toNat (Int.floor a)
  let frac := fracDigits 20 (a - whole)
  (if q < 0 then "-" else "") ++ natDigits whole
    ++ (if frac.isEmpty then "" else "." ++ String.mk frac)

end Json

/-- The reference runtime. -/
def refRuntime : Runtime where
  jsonParse := Json.parse
  stringToNumber := Json.stringToNumber
  numberToString := Json.numberToString


/-! ## `src/lib/embeddings.js`: `getEmbedding` with its `try` and the state of `Math.random` -/

/-- The body of the `try` of `getEmbedding`. -/
def getEmbeddingTry (provider : JVal → EmbedOutcome) (text : JVal) : Except String JVal :=
  match provider text with
  | .embedding v => .ok v
  | .raised message => .error message

/-- The expression `Array(1536).fill(0).map(() => Math.random() * 2 - 1)`
evaluated after `calls` earlier calls of `Math.random`: `random n` is the result
of call number `n` of the process, and component `i` uses call `calls + i`. -/
def fallbackEmbedding (random : Nat → ℚ) (calls : Nat) : JVal :=
  .arr ((List.range 1536).map (fun i => .num (random (calls + i) * 2 - 1)))

/-- The function `getEmbedding` as a step on the number of calls of
`Math.random` made so far: what the call resolves with (or the error it
rejects with), and the number of calls made afterwards. -/
def getEmbeddingStep (provider : JVal → EmbedOutcome) (random : Nat → ℚ) (calls : Nat)
    (text : JVal) : Except String JVal × Nat :=
  match getEmbeddingTry provider text with
  | .ok v => (.ok v, calls)
  | .error _ => (.ok (fallbackEmbedding random calls), calls + 1536)

/-! ## `src/lib/dataStore.js` -/

/-- One entry of the array passed to `pineconeIndex.upsert`. -/
structure IndexEntry where
  id : String
  values : JVal
  metadata : Obj
  deriving DecidableEq

/-- The template literal `candidateText` of `indexCandidateInPinecone`. -/
def candidateIndexText (rt : Runtime) (c : Obj) : String :=
  "\n      Name: " ++ JVal.toStr rt (JVal.orElse (JVal.lookup "name" c) (.str ""))
  ++ "\n      Skills: " ++ JVal.toStr rt (JVal.orElse (JVal.lookup "skills" c) (.str ""))
  ++ "\n      Experience: "
  ++ JVal.toStr rt (JVal.orElse (JVal.lookup "experience" c) (.str ""))
  ++ "\n      Resume: " ++ JVal.toStr rt (JVal.orElse (JVal.lookup "resumeText" c) (.str ""))
  ++ "\n    "

/-- The entry that `indexCandidateInPinecone` upserts for a candidate; its id is
the template literal `candidate_${candidate.id}`. -/
def candidateIndexEntry (rt : Runtime) (provider : JVal → EmbedOutcome) (random : Nat → ℚ)
    (c : Obj) : IndexEntry :=
  IndexEntry.mk ("candidate_" ++ JVal.toStr rt (JVal.lookup "id" c))
    (getEmbedding provider random (.str (candidateIndexText rt c)))
    [("type", .str "candidate"), ("name", JVal.lookup "name" c),
      ("skills", JVal.lookup "skills" c), ("experience", JVal.lookup "experience" c)]

/-- The function `indexCandidateInPinecone`: `true` when the upsert went
through, `false` when it raised. -/
def indexCandidateInPinecone (rt : Runtime) (provider : JVal → EmbedOutcome)
    (random : Nat → ℚ) (upsert : List IndexEntry → Except String Unit) (c : Obj) : Bool :=
  match upsert [candidateIndexEntry rt provider random c] with
  | .ok _ => true
  | .error _ => false

/-! ## A runtime with the exponent notation of large integers -/

namespace Json

/-- The decimal digits of `n` up to its last non-zero digit. -/
def significantDigits (n : Nat) : List Char :=
  ((Nat.toDigits 10 n).reverse.dropWhile (fun d => d == Char.ofNat 48)).reverse

/-- The exponent notation of `Number::toString` for an integer with more than
21 digits: the first digit, the other significant digits after a point when
there are any, `e+` and the decimal exponent. -/
def exponentDigits (n : Nat) : String :=
  let exponent := natDigits ((Nat.toDigits 10 n).length - 1)
  match significantDigits n with
  | [] => "0"
  | [d] => String.mk [d] ++ "e+" ++ exponent
  | d :: rest => String.mk (d :: Char.ofNat 46 :: rest) ++ "e+" ++ exponent

end Json

/-- The reference runtime with the number printer refined for integers from
`10 ^ 21` on, which `Number::toString` prints in exponent notation. -/
def exponentRuntime : Runtime where
  jsonParse := Json.parse
  stringToNumber := Json.stringToNumber
  numberToString := fun q =>
    if (10 : ℚ) ^ 21 ≤ q ∧ q.den = 1 then Json.exponentDigits q.num.toNat
    else Json.numberToString q

/-! ## `rerankWithGemini` with its arrays held by reference -/

/-- The arrays of objects alive during a call; a reference is a position in
this list. -/
abbrev ArrayStore := List (List Obj)

/-- The content of the array behind a reference (empty when there is none). -/
def ArrayStore.read (h : ArrayStore) (ref : Nat) : List Obj := List.getD h ref []

/-- A newly created array: the store with it, and its reference. -/
def ArrayStore.alloc (h : ArrayStore) (xs : List Obj) : ArrayStore × Nat :=
  (h ++ [xs], h.length)

/-- An array changed in place. -/
def ArrayStore.write (h : ArrayStore) (ref : Nat) (xs : List Obj) : ArrayStore :=
  List.set h ref xs

/-- The loop `for (const candidate of candidates)` with its calls
`rankedCandidates.push(...)`: the store afterwards, and whether the loop ran to
its end (`false` when an iteration threw). -/
def pushRows (rankings : List JVal) (ranked : Nat) : List Obj → ArrayStore → ArrayStore × Bool
  | [], h => (h, true)
  | c :: cs, h =>
    match mergeCandidate rankings c with
    | .ok row =>
      pushRows rankings ranked cs
        (ArrayStore.write h ranked (ArrayStore.read h ranked ++ [row]))
    | .error _ => (h, false)

/-- The statement `return candidates.slice(0, limit)`: a new array. -/
def returnSlice (rt : Runtime) (h : ArrayStore) (candidates : Nat) (limit : JVal) :
    ArrayStore × Nat :=
  ArrayStore.alloc h (sliceTo rt (ArrayStore.read h candidates) limit)

/-- The function `rerankWithGemini` on array references: `candidates` refers
to the caller's array; the result is the store after the call and the
reference of the returned array.  The statements that change an array in
place are `rankedCandidates.push(...)` and `rankedCandidates.sort(...)`; the
rows `{ ...candidate, score, explanation }` are new objects. -/
def rerankWithGeminiRef (rt : Runtime) (model : String → ModelOutcome) (h : ArrayStore)
    (candidates : Nat) (requirements limit : JVal) : ArrayStore × Nat :=
  if (ArrayStore.read h candidates).length = 0 then ArrayStore.alloc h []
  else
    match rerankPrompt rt (ArrayStore.read h candidates) requirements with
    | .error _ => returnSlice rt h candidates limit
    | .ok prompt =>
      match model prompt with
      | .raised _ => returnSlice rt h candidates limit
      | .text text =>
        match jsonSlice text with
        | none => returnSlice rt h candidates limit
        | some jsonText =>
          match rt.jsonParse jsonText with
          | none => returnSlice rt h candidates limit
          | some parsed =>
            match JVal.getProp parsed "rankings" with
            | .ok (.arr rankings) =>
              let fresh := ArrayStore.alloc h []
              let pushed := pushRows rankings fresh.2 (ArrayStore.read fresh.1 candidates) fresh.1
              if pushed.2 then
                let sorted := ArrayStore.write pushed.1 fresh.2
                  (arraySort (compareRows rt) (ArrayStore.read pushed.1 fresh.2))
                ArrayStore.alloc sorted (sliceTo rt (ArrayStore.read sorted fresh.2) limit)
              else returnSlice rt pushed.1 candidates limit
            | _ => returnSlice rt h candidates limit
/-! ## Specification-level notions -/

/-- A candidate has an id: its `id` property is neither `undefined` (absent)
nor `null`. -/
def HasId (c : Obj) : Prop :=
  JVal.lookup "id" c ≠ .undefined ∧ JVal.lookup "id" c ≠ .null

instance (c : Obj) : Decidable (HasId c) := by
  unfold HasId
  exact inferInstance

/-- The candidate's id rendered as a string. -/
def idString (rt : Runtime) (c : Obj) : String := JVal.toStr rt (JVal.lookup "id" c)

/-- The Evaluator as the Evaluate pipeline calls it: `generateAIEvaluation`
never throws. -/
def aiEvaluator (rt : Runtime) (model : String → ModelOutcome) :
    String → String → Except String JVal :=
  fun profile job => .ok (generateAIEvaluation rt model profile job)

/-- The score of an Evaluator result `r` is supplied by the response text:
either the brace-delimited part of the text parses and `r` is the parsed value
as it stands, or there is no such part, the text has a `score` label followed
by digits, and the score of `r` is what `parseInt` returns for these digits:
the double nearest to the integer they spell, whenever that double is
finite. -/
def ScoreFromResponse (rt : Runtime) (text : String) (r : JVal) : Prop :=
  (∃ jsonText, jsonSlice text = some jsonText ∧ rt.jsonParse jsonText = some r) ∨
  (jsonSlice text = none ∧ ∃ ds, Str.firstMatch Str.scoreAt text.data = some ds ∧
    ∀ d : ℕ, Str.nearestDouble (Str.digitsValue ds) = some d →
      JVal.getProp r "score" = .ok (.num ((d : ℕ) : ℚ)))

/-- Descending order by a rational key: `a` may come before `b` when the key
of `a` is at least the key of `b`. -/
def descBy {α : Type} (key : α → ℚ) (a b : α) : Prop := key b ≤ key a

instance instDecidableDescBy {α : Type} (key : α → ℚ) : DecidableRel (descBy key) :=
  fun a b => inferInstanceAs (Decidable (key b ≤ key a))

instance instIsTotalDescBy {α : Type} (key : α → ℚ) : IsTotal α (descBy key) :=
  ⟨fun a b => le_total (key b) (key a)⟩

instance instIsTransDescBy {α : Type} (key : α → ℚ) : IsTrans α (descBy key) :=
  ⟨fun _ _ _ hab hbc => le_trans hbc hab⟩

/-- The numeric value of a score; `0` for a value that is not a number. -/
def scoreValue : JVal → ℚ
  | .num q => q
  | _ => 0

/-- Check that every adjacent pair of a list of scores has the earlier score
at least the later one. -/
def scoresDescending (rt : Runtime) : List JVal → Bool
  | [] => true
  | [_] => true
  | a :: b :: rest =>
    jsGe (JVal.toNumber rt a) (JVal.toNumber rt b) && scoresDescending rt (b :: rest)

/-- A list of scores is in descending order: every adjacent pair has the
earlier score at least the later one. -/
def ScoresDescending (rt : Runtime) (scores : List JVal) : Prop :=
  scoresDescending rt scores = true

instance instDecidableScoresDescending (rt : Runtime) (scores : List JVal) :
    Decidable (ScoresDescending rt scores) :=
  inferInstanceAs (Decidable (scoresDescending rt scores = true))

/-- The scores of the evaluations of a successful response, in order. -/
def responseScores : EvaluateResponse → List JVal
  | .ok evaluations _ => evaluations.map Evaluation.score
  | _ => []

/-- The property `k` of a rankings entry, `undefined` where reading it would
throw. -/
def entryProp (r : JVal) (k : String) : JVal :=
  match JVal.getProp r k with
  | .ok v => v
  | .error _ => .undefined

/-- No entry of the rankings array is `null` (or `undefined`). -/
def NonNullEntries (rankings : List JVal) : Prop :=
  ∀ r ∈ rankings, r ≠ .null ∧ r ≠ .undefined

instance instDecidableNonNullEntries (rankings : List JVal) :
    Decidable (NonNullEntries rankings) :=
  inferInstanceAs (Decidable (∀ r ∈ rankings, r ≠ .null ∧ r ≠ .undefined))

/-- The first entry of the rankings array whose id is strictly equal to
`id`. -/
def firstRanking (id : JVal) (rankings : List JVal) : Option JVal :=
  rankings.find? (fun r => JVal.strictEq (entryProp r "id") id)

/-- The row of a candidate the model did not rank. -/
def unrankedRow (c : Obj) : Obj :=
  withScore c (.num 0.1) (.str "Not specifically ranked by AI")

/-- The row the merge rule prescribes for a candidate: the score and
explanation of the first entry with the candidate's id, or the unranked row. -/
def rankedRow (rankings : List JVal) (c : Obj) : Obj :=
  match firstRanking (JVal.lookup "id" c) rankings with
  | some r => withScore c (entryProp r "score") (entryProp r "explanation")
  | none => unrankedRow c

/-- The model response of a Reranker invocation was parsed to an object with
the rankings array `rankings`: the prompt was built, the model answered with a
text, the brace-delimited part of the text parsed, and the parsed value has an
array under `rankings`. -/
def ParsedRankings (rt : Runtime) (model : String → ModelOutcome) (candidates : List Obj)
    (requirements : JVal) (rankings : List JVal) : Prop :=
  ∃ prompt text jsonText parsed,
    rerankPrompt rt candidates requirements = .ok prompt ∧
    model prompt = .text text ∧
    jsonSlice text = some jsonText ∧
    rt.jsonParse jsonText = some parsed ∧
    JVal.getProp parsed "rankings" = .ok (.arr rankings)

/-- Every row of a result list has a numeric score in the range 0..1. -/
def ScoresWithinUnitInterval (rows : List Obj) : Prop :=
  ∀ row ∈ rows, ∃ q, JVal.lookup "score" row = .num q ∧ 0 ≤ q ∧ q ≤ 1

/-- The effective search text of a request. -/
def searchTextOf (rt : Runtime) (fetchJob : JVal → JobFetch) (props : Obj) : JVal :=
  (resolveSearchText rt fetchJob (JVal.lookup "query" props) (JVal.lookup "jobId" props)).1

/-- The requirements text a request hands to the Reranker:
`jobRequirements || query`. -/
def requirementsOf (rt : Runtime) (fetchJob : JVal → JobFetch) (props : Obj) : JVal :=
  JVal.orElse
    (resolveSearchText rt fetchJob (JVal.lookup "query" props) (JVal.lookup "jobId" props)).2
    (JVal.lookup "query" props)

/-- The request passes the first validation: a query or a job id is present. -/
def PassesValidation (props : Obj) : Prop :=
  JVal.truthy (JVal.lookup "query" props) = true ∨ JVal.truthy (JVal.lookup "jobId" props) = true

instance instDecidablePassesValidation (props : Obj) : Decidable (PassesValidation props) :=
  inferInstanceAs (Decidable (_ ∨ _))

/-- Every row is one of the given candidates, as stored or with a score and an
explanation set. -/
def RowsFrom (candidates rows : List Obj) : Prop :=
  ∀ row ∈ rows, ∃ c ∈ candidates, row = c ∨ ∃ s e, row = withScore c s e

/-! ## Concrete inputs -/

/-- A stored candidate with id 10. -/
def sampleCandidateA : Obj :=
  [("id", .num 10), ("name", .str "Ann"), ("skills", .str "React, CSS")]

/-- A stored candidate with id 11. -/
def sampleCandidateB : Obj :=
  [("id", .num 11), ("name", .str "Bob"), ("skills", .str "Python")]

/-- A request body `{ jobId: 1 }`. -/
def sampleEvaluateBody : JVal := .obj [("jobId", .num 1)]

/-- A job lookup that always answers 404. -/
def jobNotFound : JVal → JobFetch := fun _ => .notOk 404

/-- A model that answers every prompt with the same text. -/
def constantModel (text : String) : String → ModelOutcome := fun _ => .text text

/-- A well-formed model response whose score is 150. -/
def responseScore150 : String :=
  "\x7b\"score\": 150, \"feedback\": \"Outstanding\", \"recommendations\": \"None\"\x7d"

/-- A stored candidate with id 12. -/
def sampleCandidateC : Obj :=
  [("id", .num 12), ("name", .str "Cy"), ("skills", .str "Go")]

/-- The job text built from the fallback job. -/
def fallbackJobText : String := jobText refRuntime fallbackJob

/-- The prompt the Evaluator sends for a candidate when the job is the
fallback job. -/
def promptFor (c : Obj) : String :=
  evaluationPrompt (candidateProfile refRuntime c) fallbackJobText

/-- A response with score 50. -/
def responseFair : String := "\x7b\"score\": 50, \"feedback\": \"Fair\"\x7d"

/-- A response whose score is the string `"high"`. -/
def responseHigh : String := "\x7b\"score\": \"high\", \"feedback\": \"Strong\"\x7d"

/-- A response with score 70. -/
def responseGood : String := "\x7b\"score\": 70, \"feedback\": \"Good\"\x7d"

/-- A model that scores the first sample candidate 50, answers `"high"` for
the second and scores every other candidate 70. -/
def mixedModel : String → ModelOutcome := fun prompt =>
  if prompt = promptFor sampleCandidateA then .text responseFair
  else if prompt = promptFor sampleCandidateB then .text responseHigh
  else .text responseGood

/-- A model that scores the first sample candidate 50 and every other
candidate 70. -/
def numericModel : String → ModelOutcome := fun prompt =>
  if prompt = promptFor sampleCandidateA then .text responseFair
  else .text responseGood

/-- The per-candidate evaluations of the three sample candidates under
`numericModel`, in candidate order. -/
def numericEvaluations : List Evaluation :=
  [{ candidateId := "10", candidateName := .str "Ann", similarity := "N/A",
     score := .num 50, feedback := .str "Fair",
     recommendations := .str "No recommendations available" },
   { candidateId := "11", candidateName := .str "Bob", similarity := "N/A",
     score := .num 70, feedback := .str "Good",
     recommendations := .str "No recommendations available" },
   { candidateId := "12", candidateName := .str "Cy", similarity := "N/A",
     score := .num 70, feedback := .str "Good",
     recommendations := .str "No recommendations available" }]

/-- A model response whose rankings array holds a single `null`. -/
def responseNullRanking : String := "\x7b\"rankings\": [null]\x7d"

/-- A model response whose rankings array holds `null` before an entry for
candidate 10. -/
def responseNullThenRanked : String :=
  "\x7b\"rankings\": [null, \x7b\"id\": 10, \"score\": 0.9, \"explanation\": \"fit\"\x7d]\x7d"

/-- The entry `{ id: 10, score: 0.9, explanation: "fit" }`. -/
def rankingFor10 : JVal :=
  .obj [("id", .num 10), ("score", .num 0.9), ("explanation", .str "fit")]

/-- Rankings for candidate 11 (ranked twice) and for an id 99 that no
candidate has; candidate 10 is left out. -/
def sampleRankings : List JVal :=
  [.obj [("id", .num 11), ("score", .num 0.9), ("explanation", .str "fit")],
   .obj [("id", .num 99), ("score", .num 0.5), ("explanation", .str "invented")],
   .obj [("id", .num 11), ("score", .num 0.2), ("explanation", .str "repeated")]]

/-- A candidate record without an id. -/
def candidateWithoutId : Obj := [("name", .str "Dee")]

/-- The model response that spells `sampleRankings`. -/
def responseSampleRankings : String :=
  "\x7b\"rankings\": [\x7b\"id\": 11, \"score\": 0.9, \"explanation\": \"fit\"\x7d, \x7b\"id\": 99, \"score\": 0.5, \"explanation\": \"invented\"\x7d, \x7b\"id\": 11, \"score\": 0.2, \"explanation\": \"repeated\"\x7d]\x7d"

/-- A model response that gives candidate 10 the score 5. -/
def responseScore5 : String :=
  "\x7b\"rankings\": [\x7b\"id\": 10, \"score\": 5, \"explanation\": \"superb\"\x7d]\x7d"

/-- A model whose every call raises. -/
def failingModel : String → ModelOutcome := fun _ => .raised "quota exceeded"

/-- An embedding provider whose every call raises. -/
def failingProvider : JVal → EmbedOutcome := fun _ => .raised "unavailable"

/-- A vector index whose every query raises. -/
def failingIndex : QueryArgs → IndexOutcome := fun _ => .raised "index unreachable"

/-- A vector index that never finds a match. -/
def emptyIndex : QueryArgs → IndexOutcome := fun _ => .result []

/-- A pseudo-random source that always returns one half. -/
def constantRandom : Nat → ℚ := fun _ => 1 / 2

/-- A request body `{ query: "react" }`. -/
def sampleSearchBody : JVal := .obj [("query", .str "react")]

/-- A request body `{ jobId: 1 }` without a query. -/
def jobOnlySearchBody : JVal := .obj [("jobId", .num 1)]

/-- A job lookup that finds a job whose requirements are empty. -/
def jobWithoutRequirements : JVal → JobFetch :=
  fun _ => .ok [("id", .num 1), ("title", .str "Intern"), ("requirements", .str "")]


/-! ## Specification-level notions: the Evaluator's tiers -/

/-- The text contains a `{` before a `}`, that is, before its last `}`: it is
`pre ++ "{" ++ mid ++ "}" ++ post`. -/
def HasBraceSpan (text : String) : Prop :=
  ∃ pre mid post : List Char,
    text.data = pre ++ Char.ofNat 123 :: (mid ++ Char.ofNat 125 :: post)

/-- The substring of a text from its first `{` through its last `}` is `span`:
the text is `pre ++ span ++ post` where `span` begins with `{` and ends with
`}`, `pre` has no `{` and `post` has no `}`. -/
def BraceSpan (text : String) (span : String) : Prop :=
  ∃ pre mid post : List Char,
    text.data = pre ++ Char.ofNat 123 :: (mid ++ Char.ofNat 125 :: post) ∧
    Char.ofNat 123 ∉ pre ∧ Char.ofNat 125 ∉ post ∧
    span = String.mk (Char.ofNat 123 :: (mid ++ [Char.ofNat 125]))

/-- The runtime's `JSON.parse` maps a text that begins with `{` to an object
whenever it accepts it, as the JSON grammar demands. -/
def ParsesBraceTextToObject (rt : Runtime) : Prop :=
  ∀ (text : String) (v : JVal), text.data.head? = some (Char.ofNat 123) →
    rt.jsonParse text = some v → ∃ props, v = .obj props

/-! ## Concrete inputs: the Evaluator's tiers -/

/-- A response whose brace-delimited part is not valid JSON although it has a
`score` label followed by an integer. -/
def responseUnquotedScore : String := "\x7bscore: 85\x7d"

/-- A response without braces that has a `score` label followed by an
integer, a feedback span and a recommendations span. -/
def responseLabelled : String :=
  "Score: 85\nFeedback: solid React work\nRecommendations: learn testing"

/-- A response without braces and without any label. -/
def responseUnlabelled : String := "I cannot evaluate this candidate."

/-- The characters `label` spell `word` up to ASCII case. -/
def SpellsIgnoringCase (word : String) (label : List Char) : Prop :=
  label.map Str.canon = word.data.map Str.canon

/-- After the characters `pre`, the text has a `score` label, then one or more
characters among the double quote, white space and the colon, then the
integer written by the digits `digits` (a maximal run of digits). -/
def ScoreLabelAt (text : String) (pre digits : List Char) : Prop :=
  ∃ label seps rest : List Char,
    text.data = pre ++ (label ++ (seps ++ (digits ++ rest))) ∧
    SpellsIgnoringCase "score" label ∧
    seps ≠ [] ∧ (∀ c ∈ seps, Str.isSep c = true) ∧
    digits ≠ [] ∧ (∀ d ∈ digits, Str.isDigit d = true) ∧
    (∀ c, rest.head? = some c → Str.isDigit c = false)

/-- The first `score` label of the text that is followed by an integer is
followed by the integer written by `digits`. -/
def FirstScoreLabel (text : String) (digits : List Char) : Prop :=
  ∃ pre, ScoreLabelAt text pre digits ∧
    ∀ pre' digits', ScoreLabelAt text pre' digits' → pre.length ≤ pre'.length

/-! ## Specification-level notions: isolation of the per-candidate evaluations -/

/-- The Evaluation `e` is the one the pipeline computes for candidate `c`, it
carries the candidate's id, it is the zero-score error Evaluation when the
candidate's own evaluation raises, and it depends on the evaluator only
through the evaluator's answer for this candidate: every evaluator that gives
the same answer for `c`, whatever it does for other candidates, leads to the
same Evaluation. -/
def IsolatedEvaluation (rt : Runtime) (evaluator : String → String → Except String JVal)
    (jobTxt : String) (c : Obj) (e : Evaluation) : Prop :=
  evaluateCandidate rt evaluator jobTxt c = .ok e ∧
  e.candidateId = idString rt c ∧
  (∀ m, evaluateTry rt evaluator jobTxt c = .error m →
    e.score = .num 0 ∧ e.feedback = .str ("Error during evaluation: " ++ m)) ∧
  (∀ evaluator' : String → String → Except String JVal,
    evaluator' (candidateProfile rt c) jobTxt = evaluator (candidateProfile rt c) jobTxt →
    evaluateCandidate rt evaluator' jobTxt c = .ok e)

/-- An evaluator that raises for the candidate with id 11 and answers score 70
for every other candidate. -/
def evaluatorFailingForB : String → String → Except String JVal :=
  fun profile _ =>
    if profile = candidateProfile refRuntime sampleCandidateB then .error "quota exceeded"
    else .ok (.obj [("score", .num 70), ("feedback", .str "Good")])

/-- A job lookup whose every call raises. -/
def jobUnreachable : JVal → JobFetch := fun _ => .raised "fetch failed"

/-- The Evaluation `e` is the one computed for candidate `c` against the
placeholder job. -/
def EvaluatedAgainstFallbackJob (rt : Runtime)
    (evaluator : String → String → Except String JVal) (c : Obj) (e : Evaluation) : Prop :=
  evaluateCandidate rt evaluator (jobText rt fallbackJob) c = .ok e ∧
  e.candidateId = idString rt c

/-- A job lookup that finds the job with requirements `3+ years React`. -/
def jobFound : JVal → JobFetch :=
  fun _ => .ok [("id", .num 1), ("title", .str "Frontend Developer"),
    ("requirements", .str "3+ years React")]

/-! ## Concrete inputs: the strict tier of the Evaluator -/

/-- A response with text before and after a well-formed JSON object. -/
def responseWrapped : String :=
  "Here is my evaluation:\n\x7b\"score\": 72, \"feedback\": \"Solid\"\x7d\nHope this helps."

/-- The brace-delimited part of `responseWrapped`. -/
def responseWrappedSpan : String := "\x7b\"score\": 72, \"feedback\": \"Solid\"\x7d"

/-! ## Specification-level notions: the embedding fallback -/

/-- The value is an array of exactly 1536 numbers, each in `[-1, 1]`. -/
def IsUnitVector1536 (v : JVal) : Prop :=
  ∃ comps, v = .arr comps ∧ comps.length = 1536 ∧
    ∀ c ∈ comps, ∃ q : ℚ, c = .num q ∧ -1 ≤ q ∧ q ≤ 1

/-- A stream of results of `Math.random`, all in `[0, 1)`. -/
def sampleStream : Nat → ℚ := fun n => ((n % 4096 : ℕ) : ℚ) / 4096

/-! ## Specification-level notions: the vector tier of Search -/

/-- The candidate id decoded from the id of an index match, by the expression
`parseInt(match.id.replace('candidate_', ''), 10)` of the handler; `none` is
`NaN`. -/
def decodedId (m : IndexMatch) : Option ℚ :=
  Str.parseInt (Str.replaceWithEmpty m.id "candidate_")

/-- The candidate `c` is the first one of the store whose id is the number
`n`. -/
def FirstWithId (store : List Obj) (n : ℚ) (c : Obj) : Prop :=
  ∃ before after, store = before ++ c :: after ∧ JVal.lookup "id" c = .num n ∧
    ∀ c' ∈ before, JVal.lookup "id" c' ≠ .num n

/-- The id of the match decodes to the id of no stored candidate. -/
def Unresolved (store : List Obj) (m : IndexMatch) : Prop :=
  ∀ n, decodedId m = some n → ∀ c ∈ store, JVal.lookup "id" c ≠ .num n

/-- The rows for a list of index matches, in match order: one row for each
match whose id decodes to the id of a stored candidate (the candidate's fields
plus the similarity of the match as `vectorScore`), none for the others. -/
inductive ResolvedRows (store : List Obj) : List IndexMatch → List Obj → Prop
  | nil : ResolvedRows store [] []
  | resolved {m : IndexMatch} {ms : List IndexMatch} {rows : List Obj} (n : ℚ) (c : Obj) :
      decodedId m = some n → FirstWithId store n c → ResolvedRows store ms rows →
      ResolvedRows store (m :: ms) (JVal.setProp c "vectorScore" m.score :: rows)
  | dropped {m : IndexMatch} {ms : List IndexMatch} {rows : List Obj} :
      Unresolved store m → ResolvedRows store ms rows → ResolvedRows store (m :: ms) rows

/-- Every row is a stored candidate with the similarity of one of the matches
as `vectorScore`, as it is or with a score and an explanation set. -/
def RowsFromStore (store : List Obj) (ms : List IndexMatch) (rows : List Obj) : Prop :=
  ∀ row ∈ rows, ∃ c ∈ store, ∃ m ∈ ms,
    row = JVal.setProp c "vectorScore" m.score ∨
    ∃ s e, row = withScore (JVal.setProp c "vectorScore" m.score) s e

/-- The argument of the index query of a request with numeric limit `l`. -/
def vectorQuery (rt : Runtime) (fetchJob : JVal → JobFetch) (provider : JVal → EmbedOutcome)
    (random : Nat → ℚ) (props : Obj) (l : ℚ) : QueryArgs :=
  QueryArgs.mk (getEmbedding provider random (searchTextOf rt fetchJob props)) (some (2 * l))
    "candidate" true

/-! ## Concrete inputs: the vector tier of Search -/

/-- A store with the candidates 10 and 11. -/
def sampleStore : List Obj := [sampleCandidateA, sampleCandidateB]

/-- An index that answers every query with three matches: candidate 11, an
entry of a candidate that is no longer stored, and candidate 10. -/
def sampleIndex : QueryArgs → IndexOutcome :=
  fun _ => .result [⟨"candidate_11", .num (9 / 10)⟩, ⟨"candidate_99", .num (1 / 2)⟩,
    ⟨"candidate_10", .num (2 / 5)⟩]

/-- An index that answers every query with matches of entries whose candidates
are not stored. -/
def staleIndex : QueryArgs → IndexOutcome :=
  fun _ => .result [⟨"candidate_98", .num (9 / 10)⟩, ⟨"candidate_99", .num (1 / 2)⟩]

/-! ## Concrete inputs: the external id of a candidate -/

/-- A candidate stored after candidate 10 with the same id. -/
def sampleCandidateTwin : Obj := [("id", .num 10), ("name", .str "Bea")]

/-- A candidate whose id is `10 ^ 21`. -/
def hugeCandidate : Obj := [("id", .num ((10 : ℚ) ^ 21)), ("name", .str "Zed")]

/-! ## Specification-level notions: scoring leaves candidates as they are -/

/-- Every output row agrees with one of the input candidates on every field
other than `score` and `explanation`. -/
def AgreeExceptScore (inputs outputs : List Obj) : Prop :=
  ∀ row ∈ outputs, ∃ c ∈ inputs, ∀ k : String, k ≠ "score" → k ≠ "explanation" →
    JVal.lookup k row = JVal.lookup k c

/-! ## Concrete inputs: a score beyond `2 ^ 53` -/

/-- A response without braces whose score label is followed by the digits of
`2 ^ 53 + 1`. -/
def responseLongScore : String := "score: 9007199254740993"

/-! ## Specification-level notions: trimming -/

/-- The string `trimmed` is `full` with its surrounding white space removed:
`full` is `trimmed` between two runs of white space, and `trimmed` neither
starts nor ends with white space. -/
def IsTrimOf (full trimmed : String) : Prop :=
  ∃ lead trail : List Char, full.data = lead ++ (trimmed.data ++ trail) ∧
    (∀ c ∈ lead, Str.isWhiteSpace c = true) ∧ (∀ c ∈ trail, Str.isWhiteSpace c = true) ∧
    (∀ c, trimmed.data.head? = some c → Str.isWhiteSpace c = false) ∧
    (∀ c, trimmed.data.getLast? = some c → Str.isWhiteSpace c = false)
/-! ## Lemmas: the Evaluate pipeline -/

theorem toStringMethod_of_hasId (rt : Runtime) (c : Obj) (h : HasId c) :
    JVal.toStringMethod rt (JVal.lookup "id" c) = .ok (idString rt c) := by
  unfold HasId at h
  unfold idString
  cases hv : JVal.lookup "id" c <;> simp_all [JVal.toStringMethod]

theorem evaluateTry_candidateId (rt : Runtime)
    (evaluator : String → String → Except String JVal) (jobTxt : String) (c : Obj)
    (h : HasId c) (e : Evaluation) (he : evaluateTry rt evaluator jobTxt c = .ok e) :
    e.candidateId = idString rt c := by
  unfold evaluateTry at he
  rw [toStringMethod_of_hasId rt c h] at he
  simp only [bind, Except.bind, pure, Except.pure] at he
  split at he
  · cases he
  · split at he
    · cases he
    · split at he
      · cases he
      · split at he
        · cases he
        · split at he
          · cases he
          · cases he
            rfl

theorem evaluateCandidate_ok (rt : Runtime)
    (evaluator : String → String → Except String JVal) (jobTxt : String) (c : Obj)
    (h : HasId c) :
    ∃ e, evaluateCandidate rt evaluator jobTxt c = .ok e ∧ e.candidateId = idString rt c := by
  unfold evaluateCandidate
  cases htry : evaluateTry rt evaluator jobTxt c with
  | ok e => exact ⟨e, rfl, evaluateTry_candidateId rt evaluator jobTxt c h e htry⟩
  | error m =>
    simp only [evaluateCatch, toStringMethod_of_hasId rt c h, bind, Except.bind, pure,
      Except.pure]
    exact ⟨_, rfl, rfl⟩

theorem promiseAll_map_ok {α β : Type} (f : α → Except String β) (g : β → String)
    (k : α → String) :
    ∀ xs : List α, (∀ x ∈ xs, ∃ y, f x = .ok y ∧ g y = k x) →
      ∃ ys, promiseAll (xs.map f) = .ok ys ∧ ys.map g = xs.map k
  | [], _ => ⟨[], rfl, rfl⟩
  | x :: xs, h => by
    obtain ⟨y, hy, hg⟩ := h x (List.mem_cons_self x xs)
    obtain ⟨ys, hys, hmap⟩ := promiseAll_map_ok f g k xs
      (fun z hz => h z (List.mem_cons_of_mem x hz))
    refine ⟨y :: ys, ?_, ?_⟩
    · simp [promiseAll, hy, hys]
    · simp [hg, hmap]


/-! ## Lemmas: the Evaluator -/

theorem Str.isDigit_not_whiteSpace (c : Char) (h : Str.isDigit c = true) :
    Str.isWhiteSpace c = false := by
  simp only [Str.isDigit, Bool.and_eq_true, decide_eq_true_eq] at h
  simp only [Str.isWhiteSpace, Bool.or_eq_false_iff, Bool.and_eq_false_iff, beq_eq_false_iff_ne,
    decide_eq_false_iff_not]
  omega

theorem Str.isDigit_not_sign (c : Char) (h : Str.isDigit c = true) :
    (some c == some (Char.ofNat 45)) = false ∧ (some c == some (Char.ofNat 43)) = false := by
  simp only [Str.isDigit, Bool.and_eq_true, decide_eq_true_eq] at h
  have h45 : (Char.ofNat 45).toNat = 45 := by decide
  have h43 : (Char.ofNat 43).toNat = 43 := by decide
  constructor <;>
  · simp only [beq_eq_false_iff_ne, ne_eq, Option.some.injEq]
    intro hc
    have := congrArg Char.toNat hc
    omega

theorem Str.takeWhile_eq_self_of_all {p : Char → Bool} :
    ∀ ds : List Char, (∀ d ∈ ds, p d = true) → ds.takeWhile p = ds
  | [], _ => rfl
  | d :: ds, h => by
    have hd := h d (List.mem_cons_self d ds)
    simp only [List.takeWhile_cons, hd, if_true]
    rw [Str.takeWhile_eq_self_of_all ds (fun x hx => h x (List.mem_cons_of_mem d hx))]

/-- The capture of the score pattern is read back by `parseInt` as the value
of its digits. -/
theorem Str.parseInt_digits (ds : List Char) (hne : ds.isEmpty = false)
    (hall : ∀ d ∈ ds, Str.isDigit d = true) :
    Str.parseInt (String.mk ds) = some ((Str.digitsValue ds : ℕ) : ℚ) := by
  cases ds with
  | nil => simp at hne
  | cons d rest =>
    have hd := hall d (List.mem_cons_self d rest)
    have hws := Str.isDigit_not_whiteSpace d hd
    have hsign := Str.isDigit_not_sign d hd
    have htake := Str.takeWhile_eq_self_of_all (d :: rest) hall
    simp only [Str.parseInt, Str.trimStart, List.dropWhile_cons, hws, List.head?_cons, hsign.1,
      hsign.2, Bool.or_self, Bool.false_eq_true, if_false, htake, List.isEmpty_cons]

/-- The capture of the score pattern is a non-empty run of digits. -/
theorem Str.scoreAt_digits (cs ds : List Char) (h : Str.scoreAt cs = some ds) :
    ds.isEmpty = false ∧ ∀ d ∈ ds, Str.isDigit d = true := by
  unfold Str.scoreAt at h
  split at h
  · cases h
  · split at h
    · cases h
    · simp only at h
      split at h
      · cases h
      · rename_i hne
        cases h
        refine ⟨by simpa using hne, fun d hd => ?_⟩
        exact (List.mem_takeWhile_imp hd)

theorem Str.firstMatch_some {α : Type} (f : List Char → Option α) :
    ∀ (cs : List Char) (r : α), Str.firstMatch f cs = some r → ∃ suffix, f suffix = some r
  | [], r, h => ⟨[], h⟩
  | c :: cs, r, h => by
    unfold Str.firstMatch at h
    split at h
    · rename_i r' hr'
      cases h
      exact ⟨c :: cs, hr'⟩
    · exact Str.firstMatch_some f cs r h

/-! ## Lemmas: sorting -/

theorem orderedInsert_congr {α : Type} (r s : α → α → Prop) [DecidableRel r] [DecidableRel s]
    (a : α) : ∀ l : List α, (∀ b ∈ l, r a b ↔ s a b) →
      List.orderedInsert r a l = List.orderedInsert s a l
  | [], _ => rfl
  | b :: l, h => by
    have hb := h b (List.mem_cons_self b l)
    have ih := orderedInsert_congr r s a l (fun x hx => h x (List.mem_cons_of_mem b hx))
    by_cases hr : r a b
    · simp [List.orderedInsert, hr, hb.mp hr]
    · have hs : ¬ s a b := fun hs => hr (hb.mpr hs)
      simp [List.orderedInsert, hr, hs, ih]

theorem insertionSort_congr {α : Type} (r s : α → α → Prop) [DecidableRel r] [DecidableRel s] :
    ∀ l : List α, (∀ a ∈ l, ∀ b ∈ l, r a b ↔ s a b) →
      List.insertionSort r l = List.insertionSort s l
  | [], _ => rfl
  | a :: l, h => by
    have ih := insertionSort_congr r s l
      (fun x hx y hy => h x (List.mem_cons_of_mem a hx) y (List.mem_cons_of_mem a hy))
    simp only [List.insertionSort]
    rw [ih]
    apply orderedInsert_congr
    intro b hb
    have hb' : b ∈ l := (List.mem_insertionSort s).mp hb
    exact h a (List.mem_cons_self a l) b (List.mem_cons_of_mem a hb')

/-- When the comparator is `key b - key a` on the elements of the list,
`sort` is the insertion sort by descending key. -/
theorem arraySort_eq_descBy {α : Type} (cmp : α → α → Option ℚ) (key : α → ℚ) (l : List α)
    (h : ∀ a ∈ l, ∀ b ∈ l, cmp a b = some (key b - key a)) :
    arraySort cmp l = List.insertionSort (descBy key) l := by
  unfold arraySort
  apply insertionSort_congr
  intro a ha b hb
  simp only [notAfter, h a ha b hb, isPositive, descBy, decide_eq_false_iff_not, not_lt,
    sub_nonpos]

/-- Insertion sort by descending key keeps, for every key value, the elements
with that key in their original order. -/
theorem insertionSort_descBy_stable {α : Type} (key : α → ℚ) (l : List α) (q : ℚ) :
    (List.insertionSort (descBy key) l).filter (fun a => decide (key a = q)) =
      l.filter (fun a => decide (key a = q)) := by
  have hsub : List.Sublist (l.filter (fun a => decide (key a = q)))
      (List.insertionSort (descBy key) l) := by
    apply List.sublist_insertionSort
    · rw [List.pairwise_iff_forall_sublist]
      intro a b hab
      have ha : a ∈ l.filter (fun a => decide (key a = q)) := hab.subset (by simp)
      have hb : b ∈ l.filter (fun a => decide (key a = q)) := hab.subset (by simp)
      simp only [List.mem_filter, decide_eq_true_eq] at ha hb
      simp [descBy, ha.2, hb.2]
    · exact List.filter_sublist l
  have hsub' : List.Sublist (l.filter (fun a => decide (key a = q)))
      ((List.insertionSort (descBy key) l).filter (fun a => decide (key a = q))) := by
    have := hsub.filter (fun a => decide (key a = q))
    simpa using this
  have hlen : ((List.insertionSort (descBy key) l).filter (fun a => decide (key a = q))).length
      = (l.filter (fun a => decide (key a = q))).length :=
    ((List.perm_insertionSort (descBy key) l).filter _).length_eq
  exact (hsub'.eq_of_length hlen.symm).symm

/-! ## Lemmas: running the Evaluate pipeline -/

theorem evaluationPrompt_injective (p p' j : String)
    (h : evaluationPrompt p j = evaluationPrompt p' j) : p = p' := by
  unfold evaluationPrompt at h
  have hd := congrArg String.data h
  simp only [String.data_append, List.append_cancel_right_eq, List.append_cancel_left_eq] at hd
  exact String.ext hd

/-- The response of the pipeline once the per-candidate evaluations are
known. -/
theorem evaluatePOST_of_evaluations (rt : Runtime) (fetchJob : JVal → JobFetch)
    (evaluator : String → String → Except String JVal) (b jobId : JVal)
    (candidates : List Obj) (evals : List Evaluation)
    (hjob : JVal.getProp b "jobId" = .ok jobId) (htruthy : JVal.truthy jobId = true)
    (hne : candidates ≠ [])
    (hevals : promiseAll (candidates.map
      (evaluateCandidate rt evaluator (jobText rt (resolveJob (fetchJob jobId))))) = .ok evals) :
    evaluatePOST rt (.ok candidates) fetchJob evaluator (.ok b) =
      .ok (arraySort (compareEvaluations rt) evals) none := by
  unfold evaluatePOST
  have hlen : ¬ candidates.length = 0 := fun h => hne (List.length_eq_zero.mp h)
  simp only [hjob, htruthy, Bool.not_true, Bool.false_eq_true, if_false, hlen, hevals]

/-- With the real Evaluator and a model that answers `text`, a candidate's
evaluation is the one computed from `parseEvaluation rt text`. -/
theorem evaluateCandidate_of_response (rt : Runtime) (model : String → ModelOutcome)
    (jobTxt text : String) (c : Obj)
    (hm : model (evaluationPrompt (candidateProfile rt c) jobTxt) = .text text) :
    evaluateCandidate rt (aiEvaluator rt model) jobTxt c =
      evaluateCandidate rt (fun _ _ => .ok (parseEvaluation rt text)) jobTxt c := by
  unfold evaluateCandidate evaluateTry aiEvaluator generateAIEvaluation
  simp only [hm]

theorem mixedModel_A : mixedModel (promptFor sampleCandidateA) = .text responseFair :=
  if_pos rfl

set_option maxRecDepth 100000 in
theorem mixedModel_B : mixedModel (promptFor sampleCandidateB) = .text responseHigh := by
  unfold mixedModel
  rw [if_neg, if_pos rfl]
  intro h
  have := evaluationPrompt_injective _ _ _ h
  revert this
  with_unfolding_all decide

set_option maxRecDepth 100000 in
theorem mixedModel_C : mixedModel (promptFor sampleCandidateC) = .text responseGood := by
  unfold mixedModel
  rw [if_neg, if_neg]
  · intro h
    have := evaluationPrompt_injective _ _ _ h
    revert this
    with_unfolding_all decide
  · intro h
    have := evaluationPrompt_injective _ _ _ h
    revert this
    with_unfolding_all decide

/-- A list of at least two scores, one of which converts to `NaN`, is not in
descending order. -/
theorem not_scoresDescending_of_nan (rt : Runtime) :
    ∀ l : List JVal, 2 ≤ l.length → (∃ x ∈ l, JVal.toNumber rt x = none) →
      ¬ ScoresDescending rt l
  | [], h, _ => by simp at h
  | [_], h, _ => by simp at h
  | a :: b :: rest, _, ⟨x, hx, hnan⟩ => by
    unfold ScoresDescending scoresDescending
    intro hd
    simp only [Bool.and_eq_true] at hd
    obtain ⟨hab, hrest⟩ := hd
    cases ha : JVal.toNumber rt a with
    | none => simp [ha, jsGe] at hab
    | some qa =>
      cases hb : JVal.toNumber rt b with
      | none => simp [ha, hb, jsGe] at hab
      | some qb =>
        have hxrest : x ∈ rest := by
          rcases List.mem_cons.mp hx with h | h
          · rw [h, ha] at hnan
            cases hnan
          · rcases List.mem_cons.mp h with h' | h'
            · rw [h', hb] at hnan
              cases hnan
            · exact h'
        have hlen : 2 ≤ (b :: rest).length := by
          cases rest with
          | nil => simp at hxrest
          | cons c cs => simp
        exact not_scoresDescending_of_nan rt (b :: rest) hlen
          ⟨x, List.mem_cons_of_mem b hxrest, hnan⟩ hrest

theorem numericModel_A : numericModel (promptFor sampleCandidateA) = .text responseFair :=
  if_pos rfl

set_option maxRecDepth 100000 in
theorem numericModel_B : numericModel (promptFor sampleCandidateB) = .text responseGood := by
  unfold numericModel
  rw [if_neg]
  intro h
  have := evaluationPrompt_injective _ _ _ h
  revert this
  with_unfolding_all decide

set_option maxRecDepth 100000 in
theorem numericModel_C : numericModel (promptFor sampleCandidateC) = .text responseGood := by
  unfold numericModel
  rw [if_neg]
  intro h
  have := evaluationPrompt_injective _ _ _ h
  revert this
  with_unfolding_all decide

/-- A list of numeric scores sorted by descending value has every adjacent
pair in order. -/
theorem scoresDescending_of_pairwise {α : Type} (rt : Runtime) (f : α → JVal) :
    ∀ l : List α, (∀ e ∈ l, (f e).isNum = true) →
      l.Pairwise (fun a b => scoreValue (f b) ≤ scoreValue (f a)) →
      ScoresDescending rt (l.map f)
  | [], _, _ => rfl
  | [_], _, _ => rfl
  | a :: b :: rest, hnum, hp => by
    have ha := hnum a (by simp)
    have hb := hnum b (by simp)
    have hab : scoreValue (f b) ≤ scoreValue (f a) := (List.pairwise_cons.mp hp).1 b (by simp)
    have ih := scoresDescending_of_pairwise rt f (b :: rest)
      (fun e he => hnum e (List.mem_cons_of_mem a he)) (List.pairwise_cons.mp hp).2
    unfold ScoresDescending at ih ⊢
    simp only [List.map] at ih ⊢
    unfold scoresDescending
    rw [ih, Bool.and_true]
    cases hfa : f a <;> simp [hfa, JVal.isNum] at ha
    cases hfb : f b <;> simp [hfb, JVal.isNum] at hb
    simp only [hfa, hfb, scoreValue] at hab
    simp [JVal.toNumber, jsGe, hab]

/-- On evaluations with numeric scores the comparator is the difference of the
score values. -/
theorem compareEvaluations_numeric (rt : Runtime) (a b : Evaluation)
    (ha : a.score.isNum = true) (hb : b.score.isNum = true) :
    compareEvaluations rt a b = some (scoreValue b.score - scoreValue a.score) := by
  unfold compareEvaluations
  cases hfa : a.score <;> simp [hfa, JVal.isNum] at ha
  cases hfb : b.score <;> simp [hfb, JVal.isNum] at hb
  simp [JVal.toNumber, jsSub, scoreValue]

/-! ## Lemmas: objects -/

theorem JVal.lookup_replaceProp_same (k : String) (v : JVal) :
    ∀ o : Obj, JVal.hasKey k o = true → JVal.lookup k (JVal.replaceProp k v o) = v
  | [], h => by simp [JVal.hasKey] at h
  | (k', v') :: rest, h => by
    by_cases hk : k' = k
    · simp [JVal.replaceProp, JVal.lookup, hk]
    · simp only [JVal.hasKey, hk, if_false] at h
      simp [JVal.replaceProp, JVal.lookup, hk, JVal.lookup_replaceProp_same k v rest h]

theorem JVal.lookup_replaceProp_other (k k₂ : String) (v : JVal) (hne : k₂ ≠ k) :
    ∀ o : Obj, JVal.lookup k₂ (JVal.replaceProp k v o) = JVal.lookup k₂ o
  | [] => rfl
  | (k', v') :: rest => by
    have hne' : ¬ k = k₂ := fun h => hne h.symm
    by_cases hk : k' = k
    · subst hk
      simp [JVal.replaceProp, JVal.lookup, hne']
    · by_cases hk2 : k' = k₂
      · subst hk2
        simp [JVal.replaceProp, JVal.lookup, hk]
      · simp [JVal.replaceProp, JVal.lookup, hk, hk2,
          JVal.lookup_replaceProp_other k k₂ v hne rest]

theorem JVal.lookup_append_new (k : String) (v : JVal) :
    ∀ o : Obj, JVal.hasKey k o = false → JVal.lookup k (o ++ [(k, v)]) = v
  | [], _ => by simp [JVal.lookup]
  | (k', v') :: rest, h => by
    by_cases hk : k' = k
    · simp [JVal.hasKey, hk] at h
    · simp only [JVal.hasKey, hk, if_false] at h
      simp [JVal.lookup, hk, JVal.lookup_append_new k v rest h]

theorem JVal.lookup_append_other (k k₂ : String) (v : JVal) (hne : k₂ ≠ k) :
    ∀ o : Obj, JVal.lookup k₂ (o ++ [(k, v)]) = JVal.lookup k₂ o
  | [] => by
    have hne' : ¬ k = k₂ := fun h => hne h.symm
    simp [JVal.lookup, hne']
  | (k', v') :: rest => by
    by_cases hk2 : k' = k₂
    · simp [JVal.lookup, hk2]
    · simp [JVal.lookup, hk2, JVal.lookup_append_other k k₂ v hne rest]

/-- Reading back the property that `{ ...o, k: v }` sets. -/
theorem JVal.lookup_setProp_same (o : Obj) (k : String) (v : JVal) :
    JVal.lookup k (JVal.setProp o k v) = v := by
  unfold JVal.setProp
  cases h : JVal.hasKey k o
  · simp [JVal.lookup_append_new k v o h]
  · simp [JVal.lookup_replaceProp_same k v o h]

/-- The object `{ ...o, k: v }` agrees with `o` on every other property. -/
theorem JVal.lookup_setProp_other (o : Obj) (k k₂ : String) (v : JVal) (hne : k₂ ≠ k) :
    JVal.lookup k₂ (JVal.setProp o k v) = JVal.lookup k₂ o := by
  unfold JVal.setProp
  cases h : JVal.hasKey k o
  · simp [JVal.lookup_append_other k k₂ v hne o]
  · simp [JVal.lookup_replaceProp_other k k₂ v hne o]

theorem lookup_score_withScore (c : Obj) (s e : JVal) :
    JVal.lookup "score" (withScore c s e) = s := by
  unfold withScore
  rw [JVal.lookup_setProp_other _ _ _ _ (by decide), JVal.lookup_setProp_same]

theorem lookup_explanation_withScore (c : Obj) (s e : JVal) :
    JVal.lookup "explanation" (withScore c s e) = e := by
  unfold withScore
  rw [JVal.lookup_setProp_same]

theorem lookup_other_withScore (c : Obj) (s e : JVal) (k : String) (hs : k ≠ "score")
    (he : k ≠ "explanation") : JVal.lookup k (withScore c s e) = JVal.lookup k c := by
  unfold withScore
  rw [JVal.lookup_setProp_other _ _ _ _ he, JVal.lookup_setProp_other _ _ _ _ hs]

/-! ## Lemmas: the Reranker -/

theorem getProp_of_nonNull (r : JVal) (k : String) (h : r ≠ .null ∧ r ≠ .undefined) :
    JVal.getProp r k = .ok (entryProp r k) := by
  cases r <;> simp_all [JVal.getProp, entryProp]

/-- Without `null` entries, `find` does not throw and returns the first entry
with the wanted id. -/
theorem findRanking_of_nonNull (id : JVal) :
    ∀ rankings : List JVal, NonNullEntries rankings →
      findRanking id rankings = .ok ((firstRanking id rankings).getD .undefined)
  | [], _ => rfl
  | r :: rest, h => by
    have hr := h r (List.mem_cons_self r rest)
    have ih := findRanking_of_nonNull id rest
      (fun x hx => h x (List.mem_cons_of_mem r hx))
    unfold findRanking firstRanking
    simp only [getProp_of_nonNull r "id" hr, bind, Except.bind, pure, Except.pure,
      List.find?_cons]
    cases hm : JVal.strictEq (entryProp r "id") id
    · simpa [firstRanking] using ih
    · simp

/-- An entry whose id is strictly equal to a defined id is an object. -/
theorem isObj_of_strictEq_id (r id : JVal) (hid : id ≠ .undefined)
    (h : JVal.strictEq (entryProp r "id") id = true) : ∃ props, r = .obj props := by
  cases r with
  | obj props => exact ⟨props, rfl⟩
  | undefined => cases id <;> simp_all [entryProp, JVal.getProp, JVal.strictEq]
  | null => cases id <;> simp_all [entryProp, JVal.getProp, JVal.strictEq]
  | bool b => cases id <;> simp_all [entryProp, JVal.getProp, JVal.strictEq]
  | num q => cases id <;> simp_all [entryProp, JVal.getProp, JVal.strictEq]
  | str s =>
    cases id <;> simp_all [entryProp, JVal.getProp, JVal.strictEq]
  | arr items =>
    cases id <;> simp_all [entryProp, JVal.getProp, JVal.strictEq]

/-- The merge rule for one candidate that has an id, over rankings without
`null` entries. -/
theorem mergeCandidate_eq_rankedRow (rankings : List JVal) (c : Obj)
    (hnn : NonNullEntries rankings) (hid : JVal.lookup "id" c ≠ .undefined) :
    mergeCandidate rankings c = .ok (rankedRow rankings c) := by
  unfold mergeCandidate rankedRow
  rw [findRanking_of_nonNull _ rankings hnn]
  simp only [bind, Except.bind, pure, Except.pure]
  cases hf : firstRanking (JVal.lookup "id" c) rankings with
  | none => simp [JVal.truthy, unrankedRow]
  | some r =>
    have hmem : r ∈ rankings := List.mem_of_find?_eq_some hf
    have hmatch : JVal.strictEq (entryProp r "id") (JVal.lookup "id" c) = true := by
      have := List.find?_some hf
      simpa using this
    obtain ⟨props, hr⟩ := isObj_of_strictEq_id r _ hid hmatch
    subst hr
    simp [JVal.truthy, JVal.getProp, entryProp]

/-- Without `null` entries the merge of one candidate does not throw, and its
row is the candidate with a score and an explanation set. -/
theorem mergeCandidate_ok (rankings : List JVal) (c : Obj) (hnn : NonNullEntries rankings) :
    ∃ s e, mergeCandidate rankings c = .ok (withScore c s e) := by
  unfold mergeCandidate
  rw [findRanking_of_nonNull _ rankings hnn]
  simp only [bind, Except.bind, pure, Except.pure]
  cases hf : firstRanking (JVal.lookup "id" c) rankings with
  | none => exact ⟨.num 0.1, .str "Not specifically ranked by AI", by simp [JVal.truthy]⟩
  | some r =>
    have hmem : r ∈ rankings := List.mem_of_find?_eq_some hf
    have hr := hnn r hmem
    simp only [Option.getD_some, getProp_of_nonNull r _ hr]
    cases JVal.truthy r
    · exact ⟨.num 0.1, .str "Not specifically ranked by AI", by simp⟩
    · exact ⟨entryProp r "score", entryProp r "explanation", by simp⟩

/-- Without `null` entries the merge loop does not throw and produces one row
per candidate, in candidate order. -/
theorem mergeRankings_ok (rankings : List JVal) (hnn : NonNullEntries rankings) :
    ∀ candidates : List Obj, ∃ rows, mergeRankings rankings candidates = .ok rows ∧
      List.Forall₂ (fun c row => ∃ s e, row = withScore c s e) candidates rows
  | [] => ⟨[], rfl, List.Forall₂.nil⟩
  | c :: cs => by
    obtain ⟨s, e, hc⟩ := mergeCandidate_ok rankings c hnn
    obtain ⟨rows, hrows, hall⟩ := mergeRankings_ok rankings hnn cs
    refine ⟨withScore c s e :: rows, ?_, List.Forall₂.cons ⟨s, e, rfl⟩ hall⟩
    simp [mergeRankings, hc, hrows, bind, Except.bind, pure, Except.pure]

/-- Over candidates that all have an id and rankings without `null` entries,
the merge loop produces the prescribed row of every candidate. -/
theorem mergeRankings_eq_map (rankings : List JVal) (hnn : NonNullEntries rankings) :
    ∀ candidates : List Obj, (∀ c ∈ candidates, JVal.lookup "id" c ≠ .undefined) →
      mergeRankings rankings candidates = .ok (candidates.map (rankedRow rankings))
  | [], _ => rfl
  | c :: cs, hid => by
    have hc := mergeCandidate_eq_rankedRow rankings c hnn (hid c (List.mem_cons_self c cs))
    have hcs := mergeRankings_eq_map rankings hnn cs
      (fun x hx => hid x (List.mem_cons_of_mem c hx))
    simp [mergeRankings, hc, hcs, bind, Except.bind, pure, Except.pure]

/-- The Reranker on a response that was parsed to a rankings array. -/
theorem rerank_of_parsed (rt : Runtime) (model : String → ModelOutcome) (candidates : List Obj)
    (requirements limit : JVal) (rankings : List JVal) (hne : candidates ≠ [])
    (hp : ParsedRankings rt model candidates requirements rankings) :
    rerankWithGemini rt model candidates requirements limit =
      match mergeRankings rankings candidates with
      | .ok rows => sliceTo rt (arraySort (compareRows rt) rows) limit
      | .error _ => sliceTo rt candidates limit := by
  obtain ⟨prompt, text, jsonText, parsed, hprompt, hmodel, hslice, hparse, hrank⟩ := hp
  have hlen : ¬ candidates.length = 0 := fun h => hne (List.length_eq_zero.mp h)
  unfold rerankWithGemini
  simp only [hlen, if_false, hprompt, hmodel, rankFromText, hslice, hparse, rankParsed, hrank]
  cases mergeRankings rankings candidates <;> rfl

/-- The call `slice(0, limit)` with a natural number `limit` keeps the first
`limit` elements. -/
theorem sliceTo_nat {α : Type} (rt : Runtime) (xs : List α) (k : ℕ) :
    sliceTo rt xs (.num (k : ℚ)) = xs.take k := by
  unfold sliceTo
  simp only [JVal.toNumber, toIntegerOrInfinity]
  have hnn : ¬ ((k : ℚ) < 0) := not_lt.mpr (Nat.cast_nonneg k)
  simp only [hnn, if_false]
  have hfloor : Int.floor ((k : ℚ)) = (k : ℤ) := by
    have : ((k : ℚ)) = ((k : ℤ) : ℚ) := by simp
    rw [this, Int.floor_intCast]
  rw [hfloor]
  unfold relativeEnd
  have hk : ¬ ((k : ℤ) < 0) := not_lt.mpr (Int.ofNat_nonneg k)
  simp only [hk, if_false, Int.toNat_ofNat]
  exact List.take_eq_take.mpr (by simp)

theorem exists_ok_of_toBool {α : Type} (x : Except String α) (h : x.toBool = true) :
    ∃ a, x = .ok a := by
  cases x with
  | ok a => exact ⟨a, rfl⟩
  | error m => simp [Except.toBool] at h

set_option maxRecDepth 100000 in
/-- The sample response is parsed to `sampleRankings` for candidates 10 and
11. -/
theorem parsedRankings_sample :
    ParsedRankings refRuntime (constantModel responseSampleRankings)
      [sampleCandidateA, sampleCandidateB] (.str "React") sampleRankings := by
  obtain ⟨prompt, hprompt⟩ := exists_ok_of_toBool
    (rerankPrompt refRuntime [sampleCandidateA, sampleCandidateB] (.str "React"))
    (by with_unfolding_all decide)
  exact ⟨prompt, responseSampleRankings, responseSampleRankings,
    .obj [("rankings", .arr sampleRankings)], hprompt, rfl, by with_unfolding_all decide,
    by with_unfolding_all decide, by with_unfolding_all rfl⟩

/-- On rows with numeric scores the comparator is the difference of the score
values. -/
theorem compareRows_numeric (rt : Runtime) (a b : Obj)
    (ha : (JVal.lookup "score" a).isNum = true) (hb : (JVal.lookup "score" b).isNum = true) :
    compareRows rt a b =
      some (scoreValue (JVal.lookup "score" b) - scoreValue (JVal.lookup "score" a)) := by
  unfold compareRows
  cases hfa : JVal.lookup "score" a <;> simp [hfa, JVal.isNum] at ha
  cases hfb : JVal.lookup "score" b <;> simp [hfb, JVal.isNum] at hb
  simp [JVal.toNumber, jsSub, scoreValue]

theorem JVal.hasKey_replaceProp (k k₂ : String) (v : JVal) :
    ∀ o : Obj, JVal.hasKey k₂ (JVal.replaceProp k v o) = JVal.hasKey k₂ o
  | [] => rfl
  | (k', v') :: rest => by
    by_cases hk : k' = k
    · simp [JVal.replaceProp, JVal.hasKey, hk]
    · by_cases hk2 : k' = k₂
      · subst hk2
        simp [JVal.replaceProp, JVal.hasKey, hk]
      · simp [JVal.replaceProp, JVal.hasKey, hk, hk2, JVal.hasKey_replaceProp k k₂ v rest]

theorem JVal.hasKey_append (k₂ : String) (p : String × JVal) :
    ∀ o : Obj, JVal.hasKey k₂ (o ++ [p]) = (JVal.hasKey k₂ o || decide (p.1 = k₂))
  | [] => by
    cases p with
    | mk k v => by_cases h : k = k₂ <;> simp [JVal.hasKey, h]
  | (k', v') :: rest => by
    by_cases hk2 : k' = k₂
    · simp [JVal.hasKey, hk2]
    · simp [JVal.hasKey, hk2, JVal.hasKey_append k₂ p rest]

/-- The object `{ ...o, k: v }` has the property `k`. -/
theorem JVal.hasKey_setProp_same (o : Obj) (k : String) (v : JVal) :
    JVal.hasKey k (JVal.setProp o k v) = true := by
  unfold JVal.setProp
  cases h : JVal.hasKey k o
  · simp [JVal.hasKey_append]
  · simp [JVal.hasKey_replaceProp, h]

/-- The object `{ ...o, k: v }` keeps the properties of `o`. -/
theorem JVal.hasKey_setProp_of_hasKey (o : Obj) (k k₂ : String) (v : JVal)
    (h₂ : JVal.hasKey k₂ o = true) : JVal.hasKey k₂ (JVal.setProp o k v) = true := by
  unfold JVal.setProp
  cases h : JVal.hasKey k o
  · simp [JVal.hasKey_append, h₂]
  · simp [JVal.hasKey_replaceProp, h₂]

theorem hasKey_score_withScore (c : Obj) (s e : JVal) :
    JVal.hasKey "score" (withScore c s e) = true := by
  unfold withScore
  exact JVal.hasKey_setProp_of_hasKey _ _ _ _ (JVal.hasKey_setProp_same c "score" s)

/-- When `find` does not throw, it returns the first entry with the wanted
id. -/
theorem findRanking_eq_of_ok (id : JVal) :
    ∀ (rankings : List JVal) (v : JVal), findRanking id rankings = .ok v →
      v = (firstRanking id rankings).getD .undefined
  | [], v, h => by
    simp only [findRanking] at h
    cases h
    rfl
  | r :: rest, v, h => by
    unfold findRanking at h
    simp only [bind, Except.bind, pure, Except.pure] at h
    cases hg : JVal.getProp r "id" with
    | error m => simp [hg] at h
    | ok rid =>
      have hrid : entryProp r "id" = rid := by simp [entryProp, hg]
      simp only [hg] at h
      unfold firstRanking
      simp only [List.find?_cons, hrid]
      cases hm : JVal.strictEq rid id
      · simp only [hm, Bool.false_eq_true, if_false] at h
        exact findRanking_eq_of_ok id rest v h
      · simp only [hm, if_true] at h
        cases h
        rfl

/-- When the merge of a candidate does not throw, its row is the candidate
with a score and an explanation set; the score is 0.1 when no entry has the
candidate's id, and otherwise 0.1 or the score of an entry. -/
theorem mergeCandidate_row (rankings : List JVal) (c row : Obj)
    (h : mergeCandidate rankings c = .ok row) :
    ∃ s e, row = withScore c s e ∧
      (firstRanking (JVal.lookup "id" c) rankings = none → s = .num 0.1) ∧
      (s = .num 0.1 ∨ ∃ r ∈ rankings, JVal.getProp r "score" = .ok s) := by
  unfold mergeCandidate at h
  simp only [bind, Except.bind, pure, Except.pure] at h
  cases hf : findRanking (JVal.lookup "id" c) rankings with
  | error m => simp [hf] at h
  | ok ranking =>
    have hr := findRanking_eq_of_ok _ rankings ranking hf
    simp only [hf] at h
    cases ht : JVal.truthy ranking
    · simp only [ht, Bool.false_eq_true, if_false] at h
      cases h
      exact ⟨_, _, rfl, fun _ => rfl, Or.inl rfl⟩
    · simp only [ht, if_true] at h
      cases hs : JVal.getProp ranking "score" with
      | error m => simp [hs] at h
      | ok s =>
        cases he : JVal.getProp ranking "explanation" with
        | error m => simp [hs, he] at h
        | ok e =>
          simp only [hs, he] at h
          cases h
          refine ⟨s, e, rfl, ?_, Or.inr ⟨ranking, ?_, hs⟩⟩
          · intro hnone
            rw [hnone] at hr
            simp only [Option.getD_none] at hr
            rw [hr] at ht
            simp [JVal.truthy] at ht
          · cases hfr : firstRanking (JVal.lookup "id" c) rankings with
            | none =>
              rw [hfr] at hr
              simp only [Option.getD_none] at hr
              rw [hr] at ht
              simp [JVal.truthy] at ht
            | some r' =>
              rw [hfr] at hr
              simp only [Option.getD_some] at hr
              rw [hr]
              exact List.mem_of_find?_eq_some hfr

/-- When the merge loop does not throw, its rows are the candidates, in order,
each with a score and an explanation set. -/
theorem mergeRankings_rows (rankings : List JVal) :
    ∀ (candidates rows : List Obj), mergeRankings rankings candidates = .ok rows →
      List.Forall₂ (fun c row => ∃ s e, row = withScore c s e ∧
        (firstRanking (JVal.lookup "id" c) rankings = none → s = .num 0.1) ∧
        (s = .num 0.1 ∨ ∃ r ∈ rankings, JVal.getProp r "score" = .ok s)) candidates rows
  | [], rows, h => by
    simp only [mergeRankings] at h
    cases h
    exact List.Forall₂.nil
  | c :: cs, rows, h => by
    unfold mergeRankings at h
    simp only [bind, Except.bind, pure, Except.pure] at h
    cases hc : mergeCandidate rankings c with
    | error m => simp [hc] at h
    | ok row =>
      cases hcs : mergeRankings rankings cs with
      | error m => simp [hc, hcs] at h
      | ok rest =>
        simp only [hc, hcs] at h
        cases h
        exact List.Forall₂.cons (mergeCandidate_row rankings c row hc)
          (mergeRankings_rows rankings cs rest hcs)

theorem mem_of_mem_sliceTo {α : Type} (rt : Runtime) (xs : List α) (limit : JVal) (x : α)
    (h : x ∈ sliceTo rt xs limit) : x ∈ xs := by
  unfold sliceTo at h
  cases limit <;> first | exact h | exact List.mem_of_mem_take h

theorem forall₂_exists_left {α β : Type} {R : α → β → Prop} {l₁ : List α} {l₂ : List β}
    (h : List.Forall₂ R l₁ l₂) : ∀ y ∈ l₂, ∃ x ∈ l₁, R x y := by
  induction h with
  | nil =>
    intro y hy
    simp at hy
  | cons hab _ ih =>
    intro y hy
    rcases List.mem_cons.mp hy with hy' | hy'
    · subst hy'
      exact ⟨_, List.mem_cons_self _ _, hab⟩
    · obtain ⟨x, hx, hR⟩ := ih y hy'
      exact ⟨x, List.mem_cons_of_mem _ hx, hR⟩

theorem sliceTo_nil {α : Type} (rt : Runtime) (limit : JVal) :
    sliceTo rt ([] : List α) limit = [] := by
  unfold sliceTo
  cases limit <;> simp

/-- The two ways a Reranker invocation ends: with the input candidates cut to
`limit`, or with the sorted merged rows cut to `limit`. -/
theorem rerank_cases (rt : Runtime) (model : String → ModelOutcome)
    (candidates : List Obj) (requirements limit : JVal) :
    rerankWithGemini rt model candidates requirements limit = sliceTo rt candidates limit ∨
    ∃ rankings rows,
      ParsedRankings rt model candidates requirements rankings ∧
      mergeRankings rankings candidates = .ok rows ∧
      rerankWithGemini rt model candidates requirements limit =
        sliceTo rt (arraySort (compareRows rt) rows) limit := by
  by_cases hne : candidates = []
  · left
    subst hne
    simp [rerankWithGemini, sliceTo_nil]
  · have hlen : ¬ candidates.length = 0 := fun h => hne (List.length_eq_zero.mp h)
    cases hprompt : rerankPrompt rt candidates requirements with
    | error m =>
      left
      simp [rerankWithGemini, hlen, hprompt]
    | ok prompt =>
      cases hmodel : model prompt with
      | raised m =>
        left
        simp [rerankWithGemini, hlen, hprompt, hmodel]
      | text text =>
        cases hslice : jsonSlice text with
        | none =>
          left
          simp [rerankWithGemini, hlen, hprompt, hmodel, rankFromText, hslice]
        | some jsonText =>
          cases hparse : rt.jsonParse jsonText with
          | none =>
            left
            simp [rerankWithGemini, hlen, hprompt, hmodel, rankFromText, hslice, hparse]
          | some parsed =>
            by_cases hrank : ∃ rankings, JVal.getProp parsed "rankings" = .ok (.arr rankings)
            · obtain ⟨rankings, hrank⟩ := hrank
              have hp : ParsedRankings rt model candidates requirements rankings :=
                ⟨prompt, text, jsonText, parsed, hprompt, hmodel, hslice, hparse, hrank⟩
              have hout := rerank_of_parsed rt model candidates requirements limit rankings hne hp
              cases hmerge : mergeRankings rankings candidates with
              | error m =>
                left
                rw [hout, hmerge]
              | ok rows =>
                right
                exact ⟨rankings, rows, hp, hmerge, by rw [hout, hmerge]⟩
            · left
              have hrp : rankParsed rt candidates parsed = none := by
                unfold rankParsed
                split
                · rename_i rankings heq
                  exact absurd ⟨rankings, heq⟩ hrank
                · rfl
              simp [rerankWithGemini, hlen, hprompt, hmodel, rankFromText, hslice, hparse, hrp]

/-- Every row the Reranker returns is one of its input candidates, as it came
in or with a score and an explanation set. -/
theorem rerank_rows_from_candidates (rt : Runtime) (model : String → ModelOutcome)
    (candidates : List Obj) (requirements limit : JVal) :
    ∀ row ∈ rerankWithGemini rt model candidates requirements limit,
      ∃ c ∈ candidates, row = c ∨ ∃ s e, row = withScore c s e := by
  intro row hrow
  rcases rerank_cases rt model candidates requirements limit with h | ⟨rankings, rows, _, hm, h⟩
  · rw [h] at hrow
    exact ⟨row, mem_of_mem_sliceTo rt _ limit row hrow, Or.inl rfl⟩
  · rw [h] at hrow
    have hmem : row ∈ rows :=
      (List.perm_insertionSort _ rows).mem_iff.mp (mem_of_mem_sliceTo rt _ limit row hrow)
    obtain ⟨c, hc, s, e, hrow_eq, _⟩ :=
      forall₂_exists_left (mergeRankings_rows rankings candidates rows hm) row hmem
    exact ⟨c, hc, Or.inr ⟨s, e, hrow_eq⟩⟩

/-- With a natural number `limit`, the Reranker returns at most `limit`
rows. -/
theorem rerank_length_le (rt : Runtime) (model : String → ModelOutcome)
    (candidates : List Obj) (requirements : JVal) (k : ℕ) :
    (rerankWithGemini rt model candidates requirements (.num (k : ℚ))).length ≤ k := by
  rcases rerank_cases rt model candidates requirements (.num (k : ℚ)) with h | ⟨_, _, _, _, h⟩
  · rw [h, sliceTo_nat]
    exact List.length_take_le k _
  · rw [h, sliceTo_nat]
    exact List.length_take_le k _

/-! ## Lemmas: the Search pipeline -/

/-- The Search handler on a request that passes both validations: the vector
tier when the index answers with matches, the fallback tier otherwise. -/
theorem searchPOST_of_valid (rt : Runtime) (fetchJob : JVal → JobFetch)
    (allCandidates : List Obj) (provider : JVal → EmbedOutcome) (random : Nat → ℚ)
    (index : QueryArgs → IndexOutcome) (model : String → ModelOutcome) (props : Obj)
    (hvalid : PassesValidation props)
    (htext : JVal.truthy (searchTextOf rt fetchJob props) = true) :
    searchPOST rt fetchJob allCandidates provider random index model (.ok (.obj props)) =
      match index (searchQuery rt provider random (searchTextOf rt fetchJob props)
          (requestLimit (JVal.lookup "limit" props))) with
      | .result (m :: ms) =>
        .ok (rerankWithGemini rt model ((m :: ms).filterMap (resolveMatch allCandidates))
          (requirementsOf rt fetchJob props) (requestLimit (JVal.lookup "limit" props)))
          "vector-and-gemini"
      | _ =>
        .ok (rerankWithGemini rt model (fallbackCandidates allCandidates)
          (requirementsOf rt fetchJob props) (requestLimit (JVal.lookup "limit" props)))
          "gemini-only" := by
  have hv : (!(JVal.truthy (JVal.lookup "query" props)) &&
      !(JVal.truthy (JVal.lookup "jobId" props))) = false := by
    rcases hvalid with h | h <;> simp [h]
  unfold searchTextOf at htext
  unfold searchPOST
  simp only [JVal.getProp, hv, Bool.false_eq_true, if_false, htext, Bool.not_true,
    searchTextOf, requirementsOf]
  cases index (searchQuery rt provider random
      (resolveSearchText rt fetchJob (JVal.lookup "query" props) (JVal.lookup "jobId" props)).1
      (requestLimit (JVal.lookup "limit" props))) with
  | raised m => rfl
  | result ms =>
    cases ms with
    | nil => simp
    | cons m ms => simp

/-- Every result collected by `Promise.all` is the result of one of the
promises. -/
theorem promiseAll_map_mem {α β : Type} (f : α → Except String β) :
    ∀ (xs : List α) (ys : List β), promiseAll (xs.map f) = .ok ys →
      ∀ y ∈ ys, ∃ x ∈ xs, f x = .ok y
  | [], ys, h, y, hy => by
    simp only [List.map, promiseAll] at h
    cases h
    simp at hy
  | x :: xs, ys, h, y, hy => by
    rw [List.map_cons] at h
    cases hx : f x with
    | error m =>
      rw [hx] at h
      simp [promiseAll] at h
    | ok a =>
      rw [hx] at h
      cases hrest : promiseAll (xs.map f) with
      | error m => simp [promiseAll, hrest] at h
      | ok rest =>
        simp only [promiseAll, hrest, Except.ok.injEq] at h
        subst h
        rcases List.mem_cons.mp hy with hy' | hy'
        · subst hy'
          exact ⟨x, List.mem_cons_self x xs, hx⟩
        · obtain ⟨x', hx', hfx'⟩ := promiseAll_map_mem f xs rest hrest y hy'
          exact ⟨x', List.mem_cons_of_mem x hx', hfx'⟩

/-- When every candidate has an id, `Promise.all` collects one evaluation per
candidate. -/
theorem evaluations_exist (rt : Runtime) (evaluator : String → String → Except String JVal)
    (jobTxt : String) (candidates : List Obj) (hid : ∀ c ∈ candidates, HasId c) :
    ∃ evals, promiseAll (candidates.map (evaluateCandidate rt evaluator jobTxt)) = .ok evals := by
  obtain ⟨ys, hys, _⟩ := promiseAll_map_ok (evaluateCandidate rt evaluator jobTxt)
    Evaluation.candidateId (idString rt) candidates
    (fun c hc => evaluateCandidate_ok rt evaluator jobTxt c (hid c hc))
  exact ⟨ys, hys⟩

/-! ## Lemmas: the brace-delimited part of a response -/

theorem Str.findFirst_append_of_not_mem (c : Char) (rest : List Char) :
    ∀ pre : List Char, c ∉ pre → Str.findFirst c (pre ++ c :: rest) = some pre.length
  | [], _ => by simp [Str.findFirst]
  | x :: pre, h => by
    have hx : ¬ x = c := fun e => h (e ▸ List.mem_cons_self x pre)
    have hpre : c ∉ pre := fun e => h (List.mem_cons_of_mem x e)
    simp [Str.findFirst, hx, Str.findFirst_append_of_not_mem c rest pre hpre]

theorem Str.findLast_eq_none (c : Char) :
    ∀ post : List Char, c ∉ post → Str.findLast c post = none
  | [], _ => rfl
  | x :: post, h => by
    have hx : ¬ x = c := fun e => h (e ▸ List.mem_cons_self x post)
    have hpost : c ∉ post := fun e => h (List.mem_cons_of_mem x e)
    simp [Str.findLast, hx, Str.findLast_eq_none c post hpost]

theorem Str.findLast_append_of_not_mem (c : Char) (post : List Char) (hpost : c ∉ post) :
    ∀ xs : List Char, Str.findLast c (xs ++ c :: post) = some xs.length
  | [] => by simp [Str.findLast, Str.findLast_eq_none c post hpost]
  | x :: xs => by
    simp [Str.findLast, Str.findLast_append_of_not_mem c post hpost xs]

theorem Str.findFirst_some (c : Char) :
    ∀ (l : List Char) (i : Nat), Str.findFirst c l = some i →
      ∃ pre rest, l = pre ++ c :: rest ∧ c ∉ pre ∧ pre.length = i
  | [], i, h => by simp [Str.findFirst] at h
  | x :: l, i, h => by
    unfold Str.findFirst at h
    by_cases hx : x = c
    · simp only [hx, if_true, Option.some.injEq] at h
      exact ⟨[], l, by simp [hx], by simp, by simpa using h⟩
    · simp only [hx, if_false, Option.map_eq_some'] at h
      obtain ⟨j, hj, hij⟩ := h
      obtain ⟨pre, rest, hl, hpre, hlen⟩ := Str.findFirst_some c l j hj
      refine ⟨x :: pre, rest, by simp [hl], ?_, by simp [hlen, hij]⟩
      intro hmem
      rcases List.mem_cons.mp hmem with e | e
      · exact hx e.symm
      · exact hpre e

theorem Str.findLast_some (c : Char) :
    ∀ (l : List Char) (j : Nat), Str.findLast c l = some j →
      ∃ xs post, l = xs ++ c :: post ∧ c ∉ post ∧ xs.length = j
  | [], j, h => by simp [Str.findLast] at h
  | x :: l, j, h => by
    unfold Str.findLast at h
    cases hl : Str.findLast c l with
    | some i =>
      simp only [hl, Option.some.injEq] at h
      obtain ⟨xs, post, hxs, hpost, hlen⟩ := Str.findLast_some c l i hl
      exact ⟨x :: xs, post, by simp [hxs], hpost, by simp [hlen, h]⟩
    | none =>
      simp only [hl] at h
      by_cases hx : x = c
      · simp only [hx, if_true, Option.some.injEq] at h
        refine ⟨[], l, by simp [hx], ?_, by simpa using h⟩
        intro hmem
        obtain ⟨pre, rest, hlr, _, _⟩ : ∃ pre rest, l = pre ++ c :: rest ∧ True ∧ True := by
          obtain ⟨s, t, hst⟩ := List.append_of_mem hmem
          exact ⟨s, t, hst, trivial, trivial⟩
        have : Str.findLast c l ≠ none := by
          rw [hlr]
          clear hlr hl hmem
          induction pre with
          | nil =>
            simp only [List.nil_append, Str.findLast]
            cases Str.findLast c rest <;> simp
          | cons y ys ih =>
            simp only [List.cons_append, Str.findLast]
            cases hq : Str.findLast c (ys ++ c :: rest) with
            | none => exact absurd hq ih
            | some k => simp
        exact this hl
      · simp [hx] at h

theorem Str.length_eq_data_length (text : String) : text.length = text.data.length := by
  cases text
  rfl

/-- On a text `pre ++ "{" ++ mid ++ "}" ++ post` without `{` in `pre` and
without `}` in `post`, the text handed to `JSON.parse` is `"{" ++ mid ++ "}"`. -/
theorem jsonSlice_of_braceSpan (text span : String) (h : BraceSpan text span) :
    jsonSlice text = some span := by
  obtain ⟨pre, mid, post, htext, hpre, hpost, hspan⟩ := h
  have hfirst : Str.indexOf text (Char.ofNat 123) = (pre.length : Int) := by
    unfold Str.indexOf
    rw [htext, Str.findFirst_append_of_not_mem _ _ pre hpre]
  have hlast : Str.lastIndexOf text (Char.ofNat 125) = ((pre.length + 1 + mid.length : ℕ) : Int) := by
    unfold Str.lastIndexOf
    have : text.data = (pre ++ Char.ofNat 123 :: mid) ++ Char.ofNat 125 :: post := by
      rw [htext]
      simp
    rw [this, Str.findLast_append_of_not_mem _ post hpost]
    simp only [List.length_append, List.length_cons]
    congr 1
    omega
  have hlen : text.length = pre.length + 1 + mid.length + 1 + post.length := by
    rw [Str.length_eq_data_length, htext]
    simp
    omega
  unfold jsonSlice
  simp only [hfirst, hlast]
  have hcond : ((pre.length : Int) ≥ 0 ∧
      ((pre.length + 1 + mid.length : ℕ) : Int) + 1 > (pre.length : Int)) := by
    constructor <;> omega
  rw [if_pos hcond]
  congr 1
  rw [hspan]
  unfold Str.substring Str.clampIndex
  have h1 : min (Int.toNat (pre.length : Int)) text.length = pre.length := by
    rw [Int.toNat_ofNat, hlen]
    omega
  have h2 : min (Int.toNat (((pre.length + 1 + mid.length : ℕ) : Int) + 1)) text.length =
      pre.length + 1 + mid.length + 1 := by
    have : Int.toNat (((pre.length + 1 + mid.length : ℕ) : Int) + 1) =
        pre.length + 1 + mid.length + 1 := by omega
    rw [this, hlen]
    omega
  simp only [h1, h2]
  have hmin : min pre.length (pre.length + 1 + mid.length + 1) = pre.length := by omega
  have hmax : max pre.length (pre.length + 1 + mid.length + 1) - pre.length =
      mid.length + 2 := by omega
  rw [hmin, hmax, htext]
  congr 1
  rw [List.drop_left]
  have : Char.ofNat 123 :: (mid ++ Char.ofNat 125 :: post) =
      (Char.ofNat 123 :: (mid ++ [Char.ofNat 125])) ++ post := by simp
  rw [this]
  have hl : mid.length + 2 = (Char.ofNat 123 :: (mid ++ [Char.ofNat 125])).length := by simp
  rw [hl, List.take_left]

/-- Conversely, the text handed to `JSON.parse` is the part of the response
from its first `{` through its last `}`. -/
theorem braceSpan_of_jsonSlice (text span : String) (h : jsonSlice text = some span) :
    BraceSpan text span := by
  unfold jsonSlice at h
  simp only at h
  split at h
  · rename_i hcond
    cases hf : Str.findFirst (Char.ofNat 123) text.data with
    | none => simp [Str.indexOf, hf] at hcond
    | some i =>
      cases hl : Str.findLast (Char.ofNat 125) text.data with
      | none =>
        simp only [Str.indexOf, hf, Str.lastIndexOf, hl] at hcond
        omega
      | some j =>
        simp only [Str.indexOf, hf, Str.lastIndexOf, hl] at hcond
        obtain ⟨pre, rest, hpre_eq, hpre, hprelen⟩ := Str.findFirst_some _ _ _ hf
        obtain ⟨xs, post, hxs_eq, hpost, hxslen⟩ := Str.findLast_some _ _ _ hl
        have hij : i ≤ j := by omega
        have hboth : pre ++ Char.ofNat 123 :: rest = xs ++ Char.ofNat 125 :: post := by
          rw [← hpre_eq, ← hxs_eq]
        have hne : i ≠ j := by
          intro e
          have hinj := List.append_inj hboth (by omega)
          have hc := (List.cons.inj hinj.2).1
          revert hc
          decide
        have hlt : pre.length < xs.length := by omega
        obtain ⟨mid, hmid⟩ : ∃ mid, xs = pre ++ Char.ofNat 123 :: mid := by
          rcases List.append_eq_append_iff.mp hboth with ⟨a, ha1, ha2⟩ | ⟨a, ha1, ha2⟩
          · cases a with
            | nil =>
              simp only [List.append_nil] at ha1
              rw [ha1] at hlt
              omega
            | cons y ys =>
              simp only [List.cons_append, List.cons.injEq] at ha2
              exact ⟨ys, by rw [ha1, ← ha2.1]⟩
          · exfalso
            have := congrArg List.length ha1
            simp only [List.length_append] at this
            omega
        have hdecomp : text.data =
            pre ++ Char.ofNat 123 :: (mid ++ Char.ofNat 125 :: post) := by
          rw [hxs_eq, hmid]
          simp
        have hbs : BraceSpan text (String.mk (Char.ofNat 123 :: (mid ++ [Char.ofNat 125]))) :=
          ⟨pre, mid, post, hdecomp, hpre, hpost, rfl⟩
        have hslice := jsonSlice_of_braceSpan text _ hbs
        unfold jsonSlice at hslice
        simp only [Str.indexOf, hf, Str.lastIndexOf, hl, hcond, and_self, if_true] at hslice h
        rw [h] at hslice
        cases hslice
        exact hbs
  · cases h

theorem Str.findFirst_append_le (c : Char) (rest : List Char) :
    ∀ pre : List Char, ∃ i, Str.findFirst c (pre ++ c :: rest) = some i ∧ i ≤ pre.length
  | [] => ⟨0, by simp [Str.findFirst], le_refl 0⟩
  | x :: pre => by
    obtain ⟨i, hi, hle⟩ := Str.findFirst_append_le c rest pre
    by_cases hx : x = c
    · exact ⟨0, by simp [Str.findFirst, hx], Nat.zero_le _⟩
    · exact ⟨i + 1, by simp [Str.findFirst, hx, hi], by simp [hle]⟩

theorem Str.findLast_append_ge (c : Char) (post : List Char) :
    ∀ xs : List Char, ∃ j, Str.findLast c (xs ++ c :: post) = some j ∧ xs.length ≤ j
  | [] => by
    cases h : Str.findLast c post with
    | none => exact ⟨0, by simp [Str.findLast, h], le_refl 0⟩
    | some k => exact ⟨k + 1, by simp [Str.findLast, h], Nat.zero_le _⟩
  | x :: xs => by
    obtain ⟨j, hj, hle⟩ := Str.findLast_append_ge c post xs
    exact ⟨j + 1, by simp [Str.findLast, hj], by simp [hle]⟩

/-- A response has a part handed to `JSON.parse` exactly when a `{` occurs in
it before a `}`. -/
theorem jsonSlice_isSome_iff (text : String) :
    (∃ span, jsonSlice text = some span) ↔ HasBraceSpan text := by
  constructor
  · rintro ⟨span, h⟩
    obtain ⟨pre, mid, post, htext, _, _, _⟩ := braceSpan_of_jsonSlice text span h
    exact ⟨pre, mid, post, htext⟩
  · rintro ⟨pre, mid, post, htext⟩
    obtain ⟨i, hi, hile⟩ := Str.findFirst_append_le (Char.ofNat 123)
      (mid ++ Char.ofNat 125 :: post) pre
    obtain ⟨j, hj, hjge⟩ := Str.findLast_append_ge (Char.ofNat 125) post
      (pre ++ Char.ofNat 123 :: mid)
    have htext' : text.data = (pre ++ Char.ofNat 123 :: mid) ++ Char.ofNat 125 :: post := by
      rw [htext]
      simp
    rw [← htext] at hi
    rw [← htext'] at hj
    simp only [List.length_append, List.length_cons] at hjge
    have hcond : (Str.indexOf text (Char.ofNat 123) ≥ 0 ∧
        Str.lastIndexOf text (Char.ofNat 125) + 1 > Str.indexOf text (Char.ofNat 123)) := by
      simp only [Str.indexOf, hi, Str.lastIndexOf, hj]
      constructor <;> omega
    exact ⟨_, by
      unfold jsonSlice
      simp only
      rw [if_pos hcond]⟩

/-- A response has no part handed to `JSON.parse` exactly when no `{` occurs
in it before a `}`. -/
theorem jsonSlice_eq_none_iff (text : String) :
    jsonSlice text = none ↔ ¬ HasBraceSpan text := by
  rw [← jsonSlice_isSome_iff]
  cases jsonSlice text <;> simp

/-- The text handed to `JSON.parse` begins with `{`. -/
theorem jsonSlice_head (text span : String) (h : jsonSlice text = some span) :
    span.data.head? = some (Char.ofNat 123) := by
  obtain ⟨pre, mid, post, _, _, _, hspan⟩ := braceSpan_of_jsonSlice text span h
  rw [hspan]
  rfl

/-- The JSON reader of the reference runtime maps a text that begins with `{`
to an object whenever it accepts it. -/
theorem refRuntime_parsesBraceTextToObject : ParsesBraceTextToObject refRuntime := by
  intro text v hhead hparse
  cases hd : text.data with
  | nil => simp [hd] at hhead
  | cons c rest =>
    simp only [hd, List.head?_cons, Option.some.injEq] at hhead
    subst hhead
    have hws : Json.skipWs (Char.ofNat 123 :: rest) = Char.ofNat 123 :: rest := by
      simp [Json.skipWs, List.dropWhile, Json.isWs]
    simp only [refRuntime, Json.parse, hd, hws] at hparse
    unfold Json.readValue at hparse
    have h123 : ((Char.ofNat 123).toNat == 123) = true := by decide
    simp only [h123, if_true] at hparse
    split at hparse
    · rename_i v' rest' heq
      split at heq
      · cases heq
      · split at heq
        · cases heq
          split at hparse
          · cases hparse
            exact ⟨_, rfl⟩
          · cases hparse
        · split at heq
          · cases heq
            split at hparse
            · cases hparse
              exact ⟨_, rfl⟩
            · cases hparse
          · cases heq
    · cases hparse

/-! ## The score pattern, characterised on the text -/

theorem Str.stripPrefixCI_append :
    ∀ (pat label rest : List Char), label.map Str.canon = pat.map Str.canon →
      Str.stripPrefixCI pat (label ++ rest) = some rest
  | [], label, rest, h => by
    have : label = [] := by simpa using h
    subst this
    rfl
  | p :: ps, [], rest, h => by simp at h
  | p :: ps, c :: cs, rest, h => by
    simp only [List.map_cons, List.cons.injEq] at h
    simp only [List.cons_append, Str.stripPrefixCI, h.1, if_true]
    exact Str.stripPrefixCI_append ps cs rest h.2

theorem Str.stripPrefixCI_some :
    ∀ (pat cs rest : List Char), Str.stripPrefixCI pat cs = some rest →
      ∃ label, cs = label ++ rest ∧ label.map Str.canon = pat.map Str.canon
  | [], cs, rest, h => by
    simp only [Str.stripPrefixCI, Option.some.injEq] at h
    exact ⟨[], by simp [h], rfl⟩
  | p :: ps, [], rest, h => by simp [Str.stripPrefixCI] at h
  | p :: ps, c :: cs, rest, h => by
    simp only [Str.stripPrefixCI] at h
    split at h
    · rename_i hpc
      obtain ⟨label, hcs, hl⟩ := Str.stripPrefixCI_some ps cs rest h
      exact ⟨c :: label, by simp [hcs], by simp [hl, hpc]⟩
    · cases h

theorem Str.isDigit_not_sep (c : Char) (h : Str.isDigit c = true) : Str.isSep c = false := by
  have hws := Str.isDigit_not_whiteSpace c h
  simp only [Str.isDigit, Bool.and_eq_true, decide_eq_true_eq] at h
  have h34 : (Char.ofNat 34).toNat = 34 := by decide
  have h58 : (Char.ofNat 58).toNat = 58 := by decide
  simp only [Str.isSep, hws, Bool.or_false, Bool.or_eq_false_iff, beq_eq_false_iff_ne, ne_eq]
  constructor <;>
  · intro hc
    have := congrArg Char.toNat hc
    omega

theorem Str.takeWhile_append_stop {p : Char → Bool} :
    ∀ (l r : List Char), (∀ c ∈ l, p c = true) → (∀ c, r.head? = some c → p c = false) →
      (l ++ r).takeWhile p = l
  | [], [], _, _ => rfl
  | [], c :: r, _, hr => by
    simp only [List.nil_append, List.takeWhile_cons, hr c rfl]
    rfl
  | c :: l, r, hl, hr => by
    simp only [List.cons_append, List.takeWhile_cons, hl c (List.mem_cons_self c l), if_true]
    rw [Str.takeWhile_append_stop l r (fun x hx => hl x (List.mem_cons_of_mem c hx)) hr]

theorem Str.dropWhile_append_stop {p : Char → Bool} :
    ∀ (l r : List Char), (∀ c ∈ l, p c = true) → (∀ c, r.head? = some c → p c = false) →
      (l ++ r).dropWhile p = r
  | [], [], _, _ => rfl
  | [], c :: r, _, hr => by
    simp only [List.nil_append, List.dropWhile_cons, hr c rfl]
    rfl
  | c :: l, r, hl, hr => by
    simp only [List.cons_append, List.dropWhile_cons, hl c (List.mem_cons_self c l), if_true]
    exact Str.dropWhile_append_stop l r (fun x hx => hl x (List.mem_cons_of_mem c hx)) hr

theorem Str.head_dropWhile_not {p : Char → Bool} :
    ∀ (l : List Char) (c : Char), (l.dropWhile p).head? = some c → p c = false
  | [], c, h => by simp at h
  | d :: l, c, h => by
    simp only [List.dropWhile_cons] at h
    split at h
    · exact Str.head_dropWhile_not l c h
    · rename_i hd
      simp only [List.head?_cons, Option.some.injEq] at h
      subst h
      simpa using hd

theorem Str.scoreAt_of_label (label seps digits rest : List Char)
    (hlabel : SpellsIgnoringCase "score" label)
    (hseps : seps ≠ []) (hsep : ∀ c ∈ seps, Str.isSep c = true)
    (hdigits : digits ≠ []) (hdigit : ∀ d ∈ digits, Str.isDigit d = true)
    (hrest : ∀ c, rest.head? = some c → Str.isDigit c = false) :
    Str.scoreAt (label ++ (seps ++ (digits ++ rest))) = some digits := by
  have hhead : ∀ c, (digits ++ rest).head? = some c → Str.isSep c = false := by
    intro c hc
    cases digits with
    | nil => exact absurd rfl hdigits
    | cons d ds =>
      simp only [List.cons_append, List.head?_cons, Option.some.injEq] at hc
      subst hc
      exact Str.isDigit_not_sep d (hdigit d (List.mem_cons_self d ds))
  unfold Str.scoreAt
  rw [Str.stripPrefixCI_append "score".data label _ hlabel]
  simp only [Str.takeWhile_append_stop seps _ hsep hhead,
    Str.dropWhile_append_stop seps _ hsep hhead,
    Str.takeWhile_append_stop digits rest hdigit hrest]
  cases seps with
  | nil => exact absurd rfl hseps
  | cons s ss =>
    cases digits with
    | nil => exact absurd rfl hdigits
    | cons d ds => simp

theorem Str.scoreAt_some (cs ds : List Char) (h : Str.scoreAt cs = some ds) :
    ∃ label seps rest : List Char,
      cs = label ++ (seps ++ (ds ++ rest)) ∧ SpellsIgnoringCase "score" label ∧
      seps ≠ [] ∧ (∀ c ∈ seps, Str.isSep c = true) ∧
      ds ≠ [] ∧ (∀ d ∈ ds, Str.isDigit d = true) ∧
      (∀ c, rest.head? = some c → Str.isDigit c = false) := by
  have hds := Str.scoreAt_digits cs ds h
  unfold Str.scoreAt at h
  split at h
  · cases h
  · rename_i rest hstrip
    obtain ⟨label, hcs, hlabel⟩ := Str.stripPrefixCI_some _ _ _ hstrip
    split at h
    · cases h
    · rename_i hne
      simp only at h
      split at h
      · cases h
      · simp only [Option.some.injEq] at h
        refine ⟨label, rest.takeWhile Str.isSep,
          (rest.dropWhile Str.isSep).dropWhile Str.isDigit, ?_, hlabel, ?_, ?_, ?_, hds.2, ?_⟩
        · rw [← h, List.takeWhile_append_dropWhile, List.takeWhile_append_dropWhile]
          exact hcs
        · intro hnil
          exact hne (by simp [hnil])
        · intro c hc
          exact (List.mem_takeWhile_imp hc)
        · intro hnil
          rw [hnil] at hds
          simp at hds
        · intro c hc
          exact Str.head_dropWhile_not _ c hc

theorem Str.firstMatch_of_first {α : Type} (f : List Char → Option α) :
    ∀ (pre s : List Char) (r : α),
      (∀ k, k < pre.length → f ((pre ++ s).drop k) = none) → f s = some r →
      Str.firstMatch f (pre ++ s) = some r
  | [], s, r, _, hs => by
    cases s with
    | nil => simpa [Str.firstMatch] using hs
    | cons c cs => simp [Str.firstMatch, hs]
  | c :: pre, s, r, hpre, hs => by
    have h0 := hpre 0 (by simp)
    simp only [List.drop_zero] at h0
    simp only [List.cons_append] at h0 ⊢
    simp only [Str.firstMatch, h0]
    exact Str.firstMatch_of_first f pre s r
      (fun k hk => by
        have := hpre (k + 1) (by simpa using hk)
        simpa using this) hs

theorem firstMatch_scoreAt_of_firstScoreLabel (text : String) (digits : List Char)
    (h : FirstScoreLabel text digits) :
    Str.firstMatch Str.scoreAt text.data = some digits := by
  obtain ⟨pre, ⟨label, seps, rest, htext, hlabel, hseps, hsep, hdigits, hdigit, hrest⟩, hfirst⟩ := h
  rw [htext]
  apply Str.firstMatch_of_first
  · intro k hk
    cases hsc : Str.scoreAt ((pre ++ (label ++ (seps ++ (digits ++ rest)))).drop k) with
    | none => rfl
    | some ds =>
      obtain ⟨label', seps', rest', hdrop, h1, h2, h3, h4, h5, h6⟩ := Str.scoreAt_some _ _ hsc
      have hle := hfirst (text.data.take k) ds
        ⟨label', seps', rest', by
          rw [← hdrop, ← htext, List.take_append_drop], h1, h2, h3, h4, h5, h6⟩
      have hlen : (text.data.take k).length = k := by
        rw [List.length_take, htext, List.length_append]
        omega
      omega
  · exact Str.scoreAt_of_label label seps digits rest hlabel hseps hsep hdigits hdigit hrest

/-! ## The per-candidate boundary of the Evaluate pipeline -/

theorem promiseAll_map_forall₂ {α β : Type} (f : α → Except String β) :
    ∀ xs : List α, (∀ x ∈ xs, ∃ y, f x = .ok y) →
      ∃ ys, promiseAll (xs.map f) = .ok ys ∧ List.Forall₂ (fun x y => f x = .ok y) xs ys
  | [], _ => ⟨[], rfl, List.Forall₂.nil⟩
  | x :: xs, h => by
    obtain ⟨y, hy⟩ := h x (List.mem_cons_self x xs)
    obtain ⟨ys, hys, hall⟩ := promiseAll_map_forall₂ f xs
      (fun z hz => h z (List.mem_cons_of_mem x hz))
    refine ⟨y :: ys, ?_, List.Forall₂.cons hy hall⟩
    simp [promiseAll, hy, hys]

theorem forall₂_exists_right {α β : Type} {R : α → β → Prop} {l₁ : List α} {l₂ : List β}
    (h : List.Forall₂ R l₁ l₂) : ∀ x ∈ l₁, ∃ y ∈ l₂, R x y := by
  induction h with
  | nil =>
    intro x hx
    simp at hx
  | cons hab _ ih =>
    intro x hx
    rcases List.mem_cons.mp hx with hx' | hx'
    · subst hx'
      exact ⟨_, List.mem_cons_self _ _, hab⟩
    · obtain ⟨y, hy, hR⟩ := ih x hx'
      exact ⟨y, List.mem_cons_of_mem _ hy, hR⟩

/-- When the model call raises, every Evaluation the per-candidate callback
resolves with carries the placeholder of the Evaluator. -/
theorem evaluateCandidate_of_model_failure (rt : Runtime) (model : String → ModelOutcome)
    (jobTxt : String) (c : Obj) (m : String)
    (hmodel : model (evaluationPrompt (candidateProfile rt c) jobTxt) = .raised m)
    (hpreview : resumePreview rt c = .ok ()) (e : Evaluation)
    (he : evaluateCandidate rt (aiEvaluator rt model) jobTxt c = .ok e) :
    e.score = .num 0 ∧
    e.feedback = .str "Error generating evaluation. Please try again later." := by
  have hgen : generateAIEvaluation rt model (candidateProfile rt c) jobTxt =
      modelFailureEvaluation := by
    simp only [generateAIEvaluation, hmodel]
  unfold evaluateCandidate evaluateTry at he
  simp only [hpreview, aiEvaluator, hgen, bind, Except.bind, pure, Except.pure] at he
  cases hid : JVal.toStringMethod rt (JVal.lookup "id" c) with
  | error msg =>
    simp only [hid, evaluateCatch, bind, Except.bind] at he
    cases he
  | ok id =>
    have hs : JVal.getProp modelFailureEvaluation "score" = .ok (.num 0) := rfl
    have hf : JVal.getProp modelFailureEvaluation "feedback" =
        .ok (.str "Error generating evaluation. Please try again later.") := rfl
    have hr : JVal.getProp modelFailureEvaluation "recommendations" =
        .ok (.str "• Unable to provide recommendations at this time") := rfl
    simp only [hid, hs, hf, hr] at he
    injection he with he
    rw [← he]
    exact ⟨by with_unfolding_all rfl, by with_unfolding_all rfl⟩

theorem evaluateCandidate_congr (rt : Runtime)
    (evaluator evaluator' : String → String → Except String JVal) (jobTxt : String) (c : Obj)
    (h : evaluator' (candidateProfile rt c) jobTxt = evaluator (candidateProfile rt c) jobTxt) :
    evaluateCandidate rt evaluator' jobTxt c = evaluateCandidate rt evaluator jobTxt c := by
  unfold evaluateCandidate evaluateTry
  rw [h]

theorem evaluateCandidate_of_try_error (rt : Runtime)
    (evaluator : String → String → Except String JVal) (jobTxt : String) (c : Obj)
    (e : Evaluation) (m : String)
    (htry : evaluateTry rt evaluator jobTxt c = .error m)
    (he : evaluateCandidate rt evaluator jobTxt c = .ok e) :
    e.score = .num 0 ∧ e.feedback = .str ("Error during evaluation: " ++ m) := by
  unfold evaluateCandidate at he
  rw [htry] at he
  simp only [evaluateCatch, bind, Except.bind, pure, Except.pure] at he
  split at he
  · cases he
  · injection he with he
    rw [← he]
    exact ⟨rfl, rfl⟩

theorem isolatedEvaluations_exist (rt : Runtime)
    (evaluator : String → String → Except String JVal) (jobTxt : String)
    (candidates : List Obj) (hid : ∀ c ∈ candidates, HasId c) :
    ∃ evals, promiseAll (candidates.map (evaluateCandidate rt evaluator jobTxt)) = .ok evals ∧
      List.Forall₂ (IsolatedEvaluation rt evaluator jobTxt) candidates evals := by
  obtain ⟨evals, hevals, hall⟩ := promiseAll_map_forall₂
    (fun c => if HasId c then evaluateCandidate rt evaluator jobTxt c else .error "")
    candidates
    (fun x hx => by
      obtain ⟨y, hy, _⟩ := evaluateCandidate_ok rt evaluator jobTxt x (hid x hx)
      exact ⟨y, by simp only [hid x hx, if_true, hy]⟩)
  have hmap : candidates.map
      (fun c => if HasId c then evaluateCandidate rt evaluator jobTxt c else .error "") =
      candidates.map (evaluateCandidate rt evaluator jobTxt) :=
    List.map_congr_left (fun c hc => by simp only [hid c hc, if_true])
  rw [hmap] at hevals
  refine ⟨evals, hevals, hall.imp ?_⟩
  intro c e hce
  by_cases hc : HasId c
  · simp only [hc, if_true] at hce
    obtain ⟨e', he', hid'⟩ := evaluateCandidate_ok rt evaluator jobTxt c hc
    have hee : e' = e := by
      rw [hce] at he'
      injection he' with h
      exact h.symm
    subst hee
    exact ⟨hce, hid', fun m hm => evaluateCandidate_of_try_error rt evaluator jobTxt c e' m hm hce,
      fun evaluator' hag => by rw [evaluateCandidate_congr rt evaluator evaluator' jobTxt c hag, hce]⟩
  · simp only [hc, if_false] at hce
    cases hce

theorem JVal.toStr_str (rt : Runtime) (s : String) : JVal.toStr rt (.str s) = s := by
  simp only [JVal.toStr]

/-! ## Lemmas: the embedding fallback -/

theorem getEmbeddingStep_eq (provider : JVal → EmbedOutcome) (random : Nat → ℚ) (calls : Nat)
    (text : JVal) :
    (getEmbeddingStep provider random calls text).1 =
      .ok (getEmbedding provider (fun i => random (calls + i)) text) := by
  unfold getEmbeddingStep getEmbeddingTry getEmbedding
  cases provider text <;> rfl

theorem fallbackEmbedding_eq_iff (random : Nat → ℚ) (c₁ c₂ : Nat) :
    fallbackEmbedding random c₁ = fallbackEmbedding random c₂ ↔
      ∀ i, i < 1536 → random (c₁ + i) = random (c₂ + i) := by
  unfold fallbackEmbedding
  rw [JVal.arr.injEq, List.map_inj_left]
  constructor
  · intro h i hi
    have := h i (List.mem_range.mpr hi)
    rw [JVal.num.injEq] at this
    linarith
  · intro h i hi
    rw [h i (List.mem_range.mp hi)]

/-! ## Lemmas: the vector tier of Search -/

theorem strictEq_num_iff (v : JVal) (n : ℚ) :
    JVal.strictEq v (.num n) = true ↔ v = .num n := by
  cases v <;> simp [JVal.strictEq]

theorem find_withId_eq_some (store : List Obj) (n : ℚ) (c : Obj) :
    store.find? (fun c => JVal.strictEq (JVal.lookup "id" c) (.num n)) = some c ↔
      FirstWithId store n c := by
  rw [List.find?_eq_some]
  unfold FirstWithId
  constructor
  · rintro ⟨hc, before, after, hstore, hbefore⟩
    refine ⟨before, after, hstore, (strictEq_num_iff _ n).mp hc, ?_⟩
    intro c' hc' hid
    have := hbefore c' hc'
    rw [(strictEq_num_iff _ n).mpr hid] at this
    simp at this
  · rintro ⟨before, after, hstore, hid, hbefore⟩
    refine ⟨(strictEq_num_iff _ n).mpr hid, before, after, hstore, ?_⟩
    intro c' hc'
    have hne := hbefore c' hc'
    cases hs : JVal.strictEq (JVal.lookup "id" c') (.num n) with
    | false => rfl
    | true => exact absurd ((strictEq_num_iff _ n).mp hs) hne

theorem find_withId_eq_none (store : List Obj) (n : ℚ) :
    store.find? (fun c => JVal.strictEq (JVal.lookup "id" c) (.num n)) = none ↔
      ∀ c ∈ store, JVal.lookup "id" c ≠ .num n := by
  rw [List.find?_eq_none]
  constructor
  · intro h c hc hid
    exact h c hc ((strictEq_num_iff _ n).mpr hid)
  · intro h c hc hs
    exact h c hc ((strictEq_num_iff _ n).mp hs)

theorem resolveMatch_eq_some (store : List Obj) (m : IndexMatch) (row : Obj) :
    resolveMatch store m = some row ↔
      ∃ n c, decodedId m = some n ∧ FirstWithId store n c ∧
        row = JVal.setProp c "vectorScore" m.score := by
  unfold resolveMatch decodedId
  cases hdec : Str.parseInt (Str.replaceWithEmpty m.id "candidate_") with
  | none => simp
  | some n =>
    simp only
    cases hfind : store.find? (fun c => JVal.strictEq (JVal.lookup "id" c) (.num n)) with
    | none =>
      constructor
      · intro h
        cases h
      · rintro ⟨n', c, hn, hfirst, _⟩
        have hn' : n = n' := Option.some.inj hn
        subst hn'
        rw [← find_withId_eq_some, hfind] at hfirst
        cases hfirst
    | some c =>
      simp only [Option.some.injEq]
      constructor
      · intro h
        exact ⟨n, c, rfl, (find_withId_eq_some store n c).mp hfind, h.symm⟩
      · rintro ⟨n', c', hn, hfirst, hrow⟩
        have hn' : n = n' := hn
        subst hn'
        rw [← find_withId_eq_some, hfind] at hfirst
        rw [hrow, Option.some.inj hfirst]

theorem resolveMatch_eq_none (store : List Obj) (m : IndexMatch) :
    resolveMatch store m = none ↔ Unresolved store m := by
  unfold resolveMatch Unresolved decodedId
  cases hdec : Str.parseInt (Str.replaceWithEmpty m.id "candidate_") with
  | none => simp
  | some n =>
    simp only [Option.some.injEq]
    cases hfind : store.find? (fun c => JVal.strictEq (JVal.lookup "id" c) (.num n)) with
    | none =>
      simp only [true_iff]
      intro n' hn
      subst hn
      exact (find_withId_eq_none store n).mp hfind
    | some c =>
      constructor
      · intro h
        cases h
      · intro h
        have := (find_withId_eq_none store n).mpr (h n rfl)
        rw [hfind] at this
        cases this

theorem resolvedRows_filterMap (store : List Obj) :
    ∀ ms : List IndexMatch, ResolvedRows store ms (ms.filterMap (resolveMatch store))
  | [] => ResolvedRows.nil
  | m :: ms => by
    cases h : resolveMatch store m with
    | none =>
      rw [List.filterMap_cons_none h]
      exact ResolvedRows.dropped ((resolveMatch_eq_none store m).mp h)
        (resolvedRows_filterMap store ms)
    | some row =>
      rw [List.filterMap_cons_some h]
      obtain ⟨n, c, hn, hfirst, hrow⟩ := (resolveMatch_eq_some store m row).mp h
      rw [hrow]
      exact ResolvedRows.resolved n c hn hfirst (resolvedRows_filterMap store ms)

theorem resolvedRows_unique (store : List Obj) (ms : List IndexMatch) (rows : List Obj)
    (h : ResolvedRows store ms rows) : rows = ms.filterMap (resolveMatch store) := by
  induction h with
  | nil => rfl
  | @resolved m ms rows n c hn hfirst _ ih =>
    have : resolveMatch store m = some (JVal.setProp c "vectorScore" m.score) :=
      (resolveMatch_eq_some store m _).mpr ⟨n, c, hn, hfirst, rfl⟩
    rw [List.filterMap_cons_some this, ih]
  | @dropped m ms rows hun _ ih =>
    rw [List.filterMap_cons_none ((resolveMatch_eq_none store m).mpr hun), ih]

theorem mem_filterMap_resolveMatch (store : List Obj) (ms : List IndexMatch) (row : Obj)
    (h : row ∈ ms.filterMap (resolveMatch store)) :
    ∃ c ∈ store, ∃ m ∈ ms, row = JVal.setProp c "vectorScore" m.score := by
  obtain ⟨m, hm, hres⟩ := List.mem_filterMap.mp h
  obtain ⟨n, c, _, ⟨before, after, hstore, _, _⟩, hrow⟩ := (resolveMatch_eq_some store m row).mp hres
  exact ⟨c, by rw [hstore]; simp, m, hm, hrow⟩

theorem searchQuery_eq_vectorQuery (rt : Runtime) (fetchJob : JVal → JobFetch)
    (provider : JVal → EmbedOutcome) (random : Nat → ℚ) (props : Obj) (l : ℚ)
    (hlimit : JVal.toNumber rt (requestLimit (JVal.lookup "limit" props)) = some l) :
    searchQuery rt provider random (searchTextOf rt fetchJob props)
        (requestLimit (JVal.lookup "limit" props)) =
      vectorQuery rt fetchJob provider random props l := by
  unfold searchQuery vectorQuery
  rw [hlimit]
  simp only [jsMul, QueryArgs.mk.injEq, true_and, and_true, Option.some.injEq]
  rw [mul_comm]

theorem searchPOST_vector_tier (rt : Runtime) (fetchJob : JVal → JobFetch)
    (allCandidates : List Obj) (provider : JVal → EmbedOutcome) (random : Nat → ℚ)
    (index : QueryArgs → IndexOutcome) (model : String → ModelOutcome) (props : Obj)
    (ms : List IndexMatch)
    (hvalid : PassesValidation props)
    (htext : JVal.truthy (searchTextOf rt fetchJob props) = true)
    (hindex : index (searchQuery rt provider random (searchTextOf rt fetchJob props)
      (requestLimit (JVal.lookup "limit" props))) = .result ms)
    (hms : ms ≠ []) :
    searchPOST rt fetchJob allCandidates provider random index model (.ok (.obj props)) =
      .ok (rerankWithGemini rt model (ms.filterMap (resolveMatch allCandidates))
        (requirementsOf rt fetchJob props) (requestLimit (JVal.lookup "limit" props)))
        "vector-and-gemini" := by
  rw [searchPOST_of_valid rt fetchJob allCandidates provider random index model props hvalid
    htext, hindex]
  cases ms with
  | nil => exact absurd rfl hms
  | cons m ms => rfl

theorem searchPOST_fallback_tier (rt : Runtime) (fetchJob : JVal → JobFetch)
    (allCandidates : List Obj) (provider : JVal → EmbedOutcome) (random : Nat → ℚ)
    (index : QueryArgs → IndexOutcome) (model : String → ModelOutcome) (props : Obj)
    (hvalid : PassesValidation props)
    (htext : JVal.truthy (searchTextOf rt fetchJob props) = true)
    (hindex : (∃ m, index (searchQuery rt provider random (searchTextOf rt fetchJob props)
        (requestLimit (JVal.lookup "limit" props))) = .raised m) ∨
      index (searchQuery rt provider random (searchTextOf rt fetchJob props)
        (requestLimit (JVal.lookup "limit" props))) = .result []) :
    searchPOST rt fetchJob allCandidates provider random index model (.ok (.obj props)) =
      .ok (rerankWithGemini rt model (fallbackCandidates allCandidates)
        (requirementsOf rt fetchJob props) (requestLimit (JVal.lookup "limit" props)))
        "gemini-only" := by
  rw [searchPOST_of_valid rt fetchJob allCandidates provider random index model props hvalid
    htext]
  rcases hindex with ⟨m, h⟩ | h <;> rw [h]

theorem JVal.orElse_empty (v : JVal) : JVal.orElse (.str "") v = v := by
  simp [JVal.orElse, JVal.truthy]

/-! ## Lemmas: the external id of a candidate -/

theorem Str.digitChar_spec (k : Nat) (hk : k < 10) :
    Str.isDigit (Nat.digitChar k) = true ∧ (Nat.digitChar k).toNat - 48 = k := by
  interval_cases k <;> exact ⟨by decide, by decide⟩

theorem Str.digitsValue_append (ds : List Char) (d : Char) :
    Str.digitsValue (ds ++ [d]) = 10 * Str.digitsValue ds + (d.toNat - 48) := by
  simp [Str.digitsValue, List.foldl_append]

theorem Str.toDigitsCore_spec :
    ∀ (fuel n : Nat) (acc : List Char), n < fuel →
      ∃ ds, Nat.toDigitsCore 10 fuel n acc = ds ++ acc ∧ ds ≠ [] ∧
        (∀ d ∈ ds, Str.isDigit d = true) ∧ Str.digitsValue ds = n
  | 0, n, acc, h => absurd h (Nat.not_lt_zero n)
  | fuel + 1, n, acc, h => by
    have hd := Str.digitChar_spec (n % 10) (Nat.mod_lt n (by norm_num))
    simp only [Nat.toDigitsCore]
    split
    · rename_i hzero
      refine ⟨[Nat.digitChar (n % 10)], rfl, by simp, ?_, ?_⟩
      · intro d hmem
        rw [List.mem_singleton.mp hmem]
        exact hd.1
      · have hsmall : n < 10 := by omega
        simp only [Str.digitsValue, List.foldl_cons, List.foldl_nil, hd.2]
        omega
    · rename_i hpos
      have hlt : n / 10 < fuel := by omega
      obtain ⟨ds, heq, _, hall, hval⟩ :=
        Str.toDigitsCore_spec fuel (n / 10) (Nat.digitChar (n % 10) :: acc) hlt
      refine ⟨ds ++ [Nat.digitChar (n % 10)], by rw [heq]; simp, by simp, ?_, ?_⟩
      · intro d hmem
        rcases List.mem_append.mp hmem with h1 | h1
        · exact hall d h1
        · rw [List.mem_singleton.mp h1]
          exact hd.1
      · rw [Str.digitsValue_append, hval, hd.2]
        omega

theorem Str.toDigits_spec (n : Nat) :
    (Nat.toDigits 10 n).isEmpty = false ∧ (∀ d ∈ Nat.toDigits 10 n, Str.isDigit d = true) ∧
      Str.digitsValue (Nat.toDigits 10 n) = n := by
  obtain ⟨ds, heq, hne, hall, hval⟩ := Str.toDigitsCore_spec (n + 1) n [] (Nat.lt_succ_self n)
  have heq' : Nat.toDigits 10 n = ds := by
    unfold Nat.toDigits
    rw [heq, List.append_nil]
  rw [heq']
  refine ⟨?_, hall, hval⟩
  cases ds with
  | nil => exact absurd rfl hne
  | cons d ds => rfl

theorem Str.stripPrefix_append :
    ∀ (pat rest : List Char), Str.stripPrefix pat (pat ++ rest) = some rest
  | [], rest => by
    cases rest <;> rfl
  | p :: ps, rest => by
    simp only [List.cons_append, Str.stripPrefix, if_true]
    exact Str.stripPrefix_append ps rest

theorem Str.replaceWithEmpty_prefix (s : String) :
    Str.replaceWithEmpty ("candidate_" ++ s) "candidate_" = s := by
  unfold Str.replaceWithEmpty
  have hdata : ("candidate_" ++ s).data = "candidate_".data ++ s.data := String.data_append _ _
  rw [hdata]
  have hcons : "candidate_".data ++ s.data =
      Char.ofNat 99 :: ("andidate_".data ++ s.data) := rfl
  have hstrip := Str.stripPrefix_append "candidate_".data s.data
  rw [hcons] at hstrip ⊢
  simp only [Str.removeFirst, hstrip]

theorem decode_candidate_id (k : Nat) :
    Str.parseInt (Str.replaceWithEmpty ("candidate_" ++ Json.natDigits k) "candidate_") =
      some (k : ℚ) := by
  rw [Str.replaceWithEmpty_prefix]
  obtain ⟨hne, hall, hval⟩ := Str.toDigits_spec k
  unfold Json.natDigits
  rw [Str.parseInt_digits _ hne hall, hval]

theorem refRuntime_prints_decimal (k : Nat) :
    refRuntime.numberToString (k : ℚ) = Json.natDigits k := by
  show Json.numberToString (k : ℚ) = Json.natDigits k
  unfold Json.numberToString
  have habs : |(k : ℚ)| = (k : ℚ) := abs_of_nonneg (Nat.cast_nonneg k)
  have hfloor : Int.floor (k : ℚ) = (k : ℤ) := by
    have : ((k : ℚ)) = ((k : ℤ) : ℚ) := by simp
    rw [this, Int.floor_intCast]
  have hneg : ¬ ((k : ℚ) < 0) := not_lt.mpr (Nat.cast_nonneg k)
  simp only [habs, hfloor, Int.toNat_ofNat, sub_self, hneg, if_false]
  simp [Json.fracDigits]

theorem exponentRuntime_prints_decimal (k : Nat) (hk : k < 10 ^ 21) :
    exponentRuntime.numberToString (k : ℚ) = Json.natDigits k := by
  show (if (10 : ℚ) ^ 21 ≤ (k : ℚ) ∧ (k : ℚ).den = 1 then
      Json.exponentDigits (k : ℚ).num.toNat else Json.numberToString (k : ℚ)) = _
  have hlt : ¬ ((10 : ℚ) ^ 21 ≤ (k : ℚ)) := by
    rw [not_le]
    exact_mod_cast hk
  rw [if_neg (fun h => hlt h.1)]
  exact refRuntime_prints_decimal k

/-! ## Lemmas: arrays by reference -/

theorem ArrayStore.read_alloc_old (h : ArrayStore) (xs : List Obj) (ref : Nat)
    (href : ref < h.length) :
    ArrayStore.read (ArrayStore.alloc h xs).1 ref = ArrayStore.read h ref := by
  simp only [ArrayStore.read, ArrayStore.alloc, List.getD_eq_getElem?_getD]
  rw [List.getElem?_append_left href]

theorem ArrayStore.read_alloc_new (h : ArrayStore) (xs : List Obj) :
    ArrayStore.read (ArrayStore.alloc h xs).1 (ArrayStore.alloc h xs).2 = xs := by
  simp [ArrayStore.read, ArrayStore.alloc, List.getD_eq_getElem?_getD]

theorem ArrayStore.length_alloc (h : ArrayStore) (xs : List Obj) :
    (ArrayStore.alloc h xs).1.length = h.length + 1 := by
  simp [ArrayStore.alloc]

theorem ArrayStore.read_write_same (h : ArrayStore) (xs : List Obj) (ref : Nat)
    (href : ref < h.length) :
    ArrayStore.read (ArrayStore.write h ref xs) ref = xs := by
  simp [ArrayStore.read, ArrayStore.write, List.getD_eq_getElem?_getD, href]

theorem ArrayStore.read_write_other (h : ArrayStore) (xs : List Obj) (ref ref' : Nat)
    (hne : ref' ≠ ref) :
    ArrayStore.read (ArrayStore.write h ref xs) ref' = ArrayStore.read h ref' := by
  simp only [ArrayStore.read, ArrayStore.write, List.getD_eq_getElem?_getD]
  rw [List.getElem?_set_ne (Ne.symm hne)]

theorem ArrayStore.length_write (h : ArrayStore) (xs : List Obj) (ref : Nat) :
    (ArrayStore.write h ref xs).length = h.length := by
  simp [ArrayStore.write]

theorem pushRows_spec (rankings : List JVal) (ranked : Nat) :
    ∀ (cs : List Obj) (h : ArrayStore), ranked < h.length →
      (pushRows rankings ranked cs h).1.length = h.length ∧
      (∀ ref, ref ≠ ranked →
        ArrayStore.read (pushRows rankings ranked cs h).1 ref = ArrayStore.read h ref) ∧
      (∀ rows, mergeRankings rankings cs = .ok rows →
        (pushRows rankings ranked cs h).2 = true ∧
        ArrayStore.read (pushRows rankings ranked cs h).1 ranked =
          ArrayStore.read h ranked ++ rows) ∧
      (∀ m, mergeRankings rankings cs = .error m →
        (pushRows rankings ranked cs h).2 = false)
  | [], h, _ => by
    refine ⟨rfl, fun _ _ => rfl, ?_, ?_⟩
    · intro rows hrows
      simp only [mergeRankings, Except.ok.injEq] at hrows
      subst hrows
      exact ⟨rfl, by simp [pushRows]⟩
    · intro m hm
      simp [mergeRankings] at hm
  | c :: cs, h, href => by
    cases hmerge : mergeCandidate rankings c with
    | error m' =>
      have hp : pushRows rankings ranked (c :: cs) h = (h, false) := by
        simp only [pushRows, hmerge]
      rw [hp]
      refine ⟨rfl, fun _ _ => rfl, ?_, fun _ _ => rfl⟩
      intro rows hrows
      simp [mergeRankings, hmerge, bind, Except.bind] at hrows
    | ok row =>
      have hp : pushRows rankings ranked (c :: cs) h = pushRows rankings ranked cs
          (ArrayStore.write h ranked (ArrayStore.read h ranked ++ [row])) := by
        simp only [pushRows, hmerge]
      rw [hp]
      have href' : ranked <
          (ArrayStore.write h ranked (ArrayStore.read h ranked ++ [row])).length := by
        rw [ArrayStore.length_write]
        exact href
      obtain ⟨hlen, hother, hok, herr⟩ := pushRows_spec rankings ranked cs
        (ArrayStore.write h ranked (ArrayStore.read h ranked ++ [row])) href'
      refine ⟨by rw [hlen, ArrayStore.length_write], ?_, ?_, ?_⟩
      · intro ref hne
        rw [hother ref hne, ArrayStore.read_write_other _ _ _ _ hne]
      · intro rows hrows
        simp only [mergeRankings, hmerge, bind, Except.bind] at hrows
        cases hrest : mergeRankings rankings cs with
        | error m =>
          rw [hrest] at hrows
          cases hrows
        | ok rows' =>
          rw [hrest] at hrows
          simp only [pure, Except.pure, Except.ok.injEq] at hrows
          subst hrows
          obtain ⟨hflag, hread⟩ := hok rows' hrest
          refine ⟨hflag, ?_⟩
          rw [hread, ArrayStore.read_write_same _ _ _ href]
          simp
      · intro m hm
        simp only [mergeRankings, hmerge, bind, Except.bind] at hm
        cases hrest : mergeRankings rankings cs with
        | error m'' => exact herr m'' hrest
        | ok rows' =>
          rw [hrest] at hm
          cases hm

theorem returnSlice_spec (rt : Runtime) (h : ArrayStore) (candidates : Nat) (limit : JVal) :
    (∀ ref, ref < h.length →
      ArrayStore.read (returnSlice rt h candidates limit).1 ref = ArrayStore.read h ref) ∧
    ArrayStore.read (returnSlice rt h candidates limit).1 (returnSlice rt h candidates limit).2 =
      sliceTo rt (ArrayStore.read h candidates) limit ∧
    (returnSlice rt h candidates limit).2 = h.length :=
  ⟨fun ref href => ArrayStore.read_alloc_old h _ ref href, ArrayStore.read_alloc_new h _, rfl⟩

/-- The Reranker on references computes the rows of `rerankWithGemini` into a
new array and leaves every array that existed before the call as it was. -/
theorem rerankWithGeminiRef_spec (rt : Runtime) (model : String → ModelOutcome)
    (h : ArrayStore) (candidates : Nat) (requirements limit : JVal)
    (href : candidates < h.length) :
    (∀ ref, ref < h.length →
      ArrayStore.read (rerankWithGeminiRef rt model h candidates requirements limit).1 ref =
        ArrayStore.read h ref) ∧
    ArrayStore.read (rerankWithGeminiRef rt model h candidates requirements limit).1
        (rerankWithGeminiRef rt model h candidates requirements limit).2 =
      rerankWithGemini rt model (ArrayStore.read h candidates) requirements limit ∧
    h.length ≤ (rerankWithGeminiRef rt model h candidates requirements limit).2 := by
  have hslice := returnSlice_spec rt h candidates limit
  unfold rerankWithGeminiRef rerankWithGemini
  split
  · exact ⟨fun ref hr => ArrayStore.read_alloc_old h _ ref hr, ArrayStore.read_alloc_new h _,
      Nat.le_refl _⟩
  · cases rerankPrompt rt (ArrayStore.read h candidates) requirements with
    | error m => exact ⟨hslice.1, hslice.2.1, Nat.le_of_eq hslice.2.2.symm⟩
    | ok prompt =>
      simp only
      cases model prompt with
      | raised m => exact ⟨hslice.1, hslice.2.1, Nat.le_of_eq hslice.2.2.symm⟩
      | text text =>
        simp only [rankFromText]
        cases jsonSlice text with
        | none => exact ⟨hslice.1, hslice.2.1, Nat.le_of_eq hslice.2.2.symm⟩
        | some jsonText =>
          simp only
          cases rt.jsonParse jsonText with
          | none => exact ⟨hslice.1, hslice.2.1, Nat.le_of_eq hslice.2.2.symm⟩
          | some parsed =>
            simp only [rankParsed]
            split
            · rename_i rankings hrank
              have hfresh_len : (ArrayStore.alloc h []).2 < (ArrayStore.alloc h []).1.length := by
                rw [ArrayStore.length_alloc]
                exact Nat.lt_succ_self _
              have hcand : ArrayStore.read (ArrayStore.alloc h []).1 candidates =
                  ArrayStore.read h candidates := ArrayStore.read_alloc_old h [] candidates href
              obtain ⟨hlen, hother, hok, herr⟩ := pushRows_spec rankings (ArrayStore.alloc h []).2
                (ArrayStore.read (ArrayStore.alloc h []).1 candidates) (ArrayStore.alloc h []).1
                hfresh_len
              have hold : ∀ ref, ref < h.length →
                  ArrayStore.read (pushRows rankings (ArrayStore.alloc h []).2
                    (ArrayStore.read (ArrayStore.alloc h []).1 candidates)
                    (ArrayStore.alloc h []).1).1 ref = ArrayStore.read h ref := by
                intro ref hr
                rw [hother ref (Nat.ne_of_lt hr), ArrayStore.read_alloc_old h [] ref hr]
              rw [hcand] at hlen hok herr hold ⊢
              cases hmerge : mergeRankings rankings (ArrayStore.read h candidates) with
              | error m =>
                have hflag := herr m hmerge
                simp only [hflag, Bool.false_eq_true, if_false]
                have hs := returnSlice_spec rt (pushRows rankings (ArrayStore.alloc h []).2
                  (ArrayStore.read h candidates) (ArrayStore.alloc h []).1).1 candidates limit
                rw [hlen, ArrayStore.length_alloc] at hs
                refine ⟨?_, ?_, ?_⟩
                · intro ref hr
                  rw [hs.1 ref (Nat.lt_succ_of_lt hr), hold ref hr]
                · rw [hs.2.1, hold candidates href]
                · rw [hs.2.2]
                  exact Nat.le_succ _
              | ok rows =>
                obtain ⟨hflag, hread⟩ := hok rows hmerge
                rw [ArrayStore.read_alloc_new] at hread
                simp only [hflag, if_true]
                have hlt : (ArrayStore.alloc h []).2 <
                    (pushRows rankings (ArrayStore.alloc h []).2
                      (ArrayStore.read h candidates) (ArrayStore.alloc h []).1).1.length := by
                  rw [hlen]
                  exact hfresh_len
                refine ⟨?_, ?_, ?_⟩
                · intro ref hr
                  rw [ArrayStore.read_alloc_old _ _ ref (by
                      rw [ArrayStore.length_write, hlen, ArrayStore.length_alloc]
                      exact Nat.lt_succ_of_lt hr),
                    ArrayStore.read_write_other _ _ (ArrayStore.alloc h []).2 ref
                      (Nat.ne_of_lt hr), hold ref hr]
                · rw [ArrayStore.read_alloc_new, ArrayStore.read_write_same _ _ _ hlt, hread]
                  simp
                · show h.length ≤ (ArrayStore.write _ _ _).length
                  rw [ArrayStore.length_write, hlen, ArrayStore.length_alloc]
                  exact Nat.le_succ _
            · exact ⟨hslice.1, hslice.2.1, Nat.le_of_eq hslice.2.2.symm⟩

/-! ## Lemmas: the double that `parseInt` returns -/

theorem Str.nearestDouble_exact (n : Nat) (h : n ≤ 2 ^ 53) : Str.nearestDouble n = some n := by
  unfold Str.nearestDouble
  rw [if_pos h]

theorem Str.parseIntNumber_digits (ds : List Char) (hne : ds.isEmpty = false)
    (hall : ∀ d ∈ ds, Str.isDigit d = true) :
    Str.parseIntNumber (String.mk ds) =
      match Str.nearestDouble (Str.digitsValue ds) with
      | some d => .finite ((d : ℕ) : ℚ)
      | none => .infinity false := by
  unfold Str.parseIntNumber
  rw [Str.parseInt_digits ds hne hall]
  have hnum : ((Str.digitsValue ds : ℕ) : ℚ).num.natAbs = Str.digitsValue ds := by
    simp
  have hneg : ¬ (((Str.digitsValue ds : ℕ) : ℚ) < 0) := not_lt.mpr (Nat.cast_nonneg _)
  simp only [hnum, hneg, if_false, decide_False]

/-- The score of the regular-expression branch: the double nearest to the
integer spelled by the digits of the first match of the score pattern. -/
theorem regexEvaluation_score (text : String) (ds : List Char) (d : Nat)
    (hmatch : Str.firstMatch Str.scoreAt text.data = some ds)
    (hdouble : Str.nearestDouble (Str.digitsValue ds) = some d) :
    JVal.getProp (regexEvaluation text) "score" = .ok (.num ((d : ℕ) : ℚ)) := by
  obtain ⟨suffix, hsuffix⟩ := Str.firstMatch_some _ _ _ hmatch
  obtain ⟨hne, hall⟩ := Str.scoreAt_digits suffix ds hsuffix
  simp only [regexEvaluation, hmatch, Str.parseIntNumber_digits ds hne hall, hdouble]
  rfl

/-! ## Lemmas: trimming -/

theorem Str.trim_isTrimOf (s : String) : IsTrimOf s (Str.trim s) := by
  have hsplit : s.data =
      s.data.takeWhile Str.isWhiteSpace ++ s.data.dropWhile Str.isWhiteSpace :=
    (List.takeWhile_append_dropWhile Str.isWhiteSpace s.data).symm
  have hrev : (s.data.dropWhile Str.isWhiteSpace).reverse =
      (s.data.dropWhile Str.isWhiteSpace).reverse.takeWhile Str.isWhiteSpace ++
        (s.data.dropWhile Str.isWhiteSpace).reverse.dropWhile Str.isWhiteSpace :=
    (List.takeWhile_append_dropWhile Str.isWhiteSpace _).symm
  have hmid : s.data.dropWhile Str.isWhiteSpace =
      ((s.data.dropWhile Str.isWhiteSpace).reverse.dropWhile Str.isWhiteSpace).reverse ++
        ((s.data.dropWhile Str.isWhiteSpace).reverse.takeWhile Str.isWhiteSpace).reverse := by
    rw [← List.reverse_append, ← hrev, List.reverse_reverse]
  refine ⟨s.data.takeWhile Str.isWhiteSpace,
    ((s.data.dropWhile Str.isWhiteSpace).reverse.takeWhile Str.isWhiteSpace).reverse,
    ?_, ?_, ?_, ?_, ?_⟩
  · show s.data = _ ++ (((s.data.dropWhile Str.isWhiteSpace).reverse.dropWhile
        Str.isWhiteSpace).reverse ++ _)
    rw [← hmid]
    exact hsplit
  · intro c hc
    exact List.mem_takeWhile_imp hc
  · intro c hc
    exact List.mem_takeWhile_imp (List.mem_reverse.mp hc)
  · intro c hc
    have hc' : (((s.data.dropWhile Str.isWhiteSpace).reverse.dropWhile
        Str.isWhiteSpace).reverse).head? = some c := hc
    have hhead : (s.data.dropWhile Str.isWhiteSpace).head? = some c := by
      rw [hmid]
      cases ht : ((s.data.dropWhile Str.isWhiteSpace).reverse.dropWhile
          Str.isWhiteSpace).reverse with
      | nil =>
        rw [ht] at hc'
        cases hc'
      | cons x xs =>
        rw [ht] at hc'
        simpa using hc'
    exact Str.head_dropWhile_not _ c hhead
  · intro c hc
    have hc' : (((s.data.dropWhile Str.isWhiteSpace).reverse.dropWhile
        Str.isWhiteSpace).reverse).getLast? = some c := hc
    rw [List.getLast?_reverse] at hc'
    exact Str.head_dropWhile_not _ c hc'

theorem Str.trim_unique (full t : String) (h : IsTrimOf full t) : t = Str.trim full := by
  obtain ⟨lead, trail, hfull, hlead, htrail, hhead, hlast⟩ := h
  have hdata : (Str.trim full).data = t.data := by
    show ((full.data.dropWhile Str.isWhiteSpace).reverse.dropWhile Str.isWhiteSpace).reverse =
      t.data
    rw [hfull]
    cases ht : t.data with
    | nil =>
      have hall : ∀ c ∈ lead ++ ([] ++ trail), Str.isWhiteSpace c = true := by
        intro c hc
        rcases List.mem_append.mp hc with h1 | h1
        · exact hlead c h1
        · exact htrail c (by simpa using h1)
      rw [List.dropWhile_eq_nil_iff.mpr hall]
      rfl
    | cons x xs =>
      rw [ht] at hhead hlast
      have hstop : ∀ c, ((x :: xs) ++ trail).head? = some c → Str.isWhiteSpace c = false := by
        intro c hc
        exact hhead c (by simpa using hc)
      rw [Str.dropWhile_append_stop lead ((x :: xs) ++ trail) hlead hstop, List.reverse_append]
      have hstop' : ∀ c, (x :: xs).reverse.head? = some c → Str.isWhiteSpace c = false := by
        intro c hc
        rw [List.head?_reverse] at hc
        exact hlast c hc
      rw [Str.dropWhile_append_stop trail.reverse (x :: xs).reverse
        (fun c hc => htrail c (List.mem_reverse.mp hc)) hstop', List.reverse_reverse]
  cases t with
  | mk td =>
    cases htr : Str.trim full with
    | mk fd =>
      rw [htr] at hdata
      simp only at hdata
      rw [hdata]

/-! ## Lemmas: the second guard of the Search handler -/

theorem searchPOST_without_text (rt : Runtime) (fetchJob : JVal → JobFetch)
    (allCandidates : List Obj) (provider : JVal → EmbedOutcome) (random : Nat → ℚ)
    (index : QueryArgs → IndexOutcome) (model : String → ModelOutcome) (props : Obj)
    (hvalid : PassesValidation props)
    (htext : JVal.truthy (searchTextOf rt fetchJob props) = false) :
    searchPOST rt fetchJob allCandidates provider random index model (.ok (.obj props)) =
      .badRequest "No valid search text available" := by
  have hv : (!(JVal.truthy (JVal.lookup "query" props)) &&
      !(JVal.truthy (JVal.lookup "jobId" props))) = false := by
    rcases hvalid with h | h <;> simp [h]
  unfold searchTextOf at htext
  unfold searchPOST
  simp only [JVal.getProp, hv, Bool.false_eq_true, if_false, htext, Bool.not_false, if_true]

theorem searchTextOf_falsy_iff (rt : Runtime) (fetchJob : JVal → JobFetch) (props : Obj)
    (hvalid : PassesValidation props) :
    JVal.truthy (searchTextOf rt fetchJob props) = false ↔
      JVal.truthy (JVal.lookup "jobId" props) = true ∧
        (((∀ job, fetchJob (JVal.lookup "jobId" props) ≠ .ok job) ∧
            JVal.truthy (JVal.lookup "query" props) = false) ∨
          ∃ job, fetchJob (JVal.lookup "jobId" props) = .ok job ∧
            Str.trim (JVal.toStr rt (JVal.lookup "requirements" job) ++ " "
              ++ JVal.toStr rt (JVal.orElse (JVal.lookup "query" props) (.str ""))) = "") := by
  unfold searchTextOf resolveSearchText
  cases hid : JVal.truthy (JVal.lookup "jobId" props) with
  | false =>
    have hq : JVal.truthy (JVal.lookup "query" props) = true := by
      rcases hvalid with h | h
      · exact h
      · rw [hid] at h
        cases h
    simp [hq]
  | true =>
    simp only [if_true, true_and]
    cases hf : fetchJob (JVal.lookup "jobId" props) with
    | ok job =>
      simp only [JVal.truthy, decide_eq_false_iff_not, ne_eq, not_not]
      constructor
      · intro h
        exact Or.inr ⟨job, rfl, h⟩
      · rintro (⟨hno, _⟩ | ⟨job', hjob', h⟩)
        · exact absurd rfl (hno job)
        · cases hjob'
          exact h
    | raised m =>
      simp only
      constructor
      · intro h
        exact Or.inl ⟨fun job hjob => (by cases hjob), h⟩
      · rintro (⟨_, h⟩ | ⟨job', hjob', _⟩)
        · exact h
        · cases hjob'
    | notOk status =>
      simp only
      constructor
      · intro h
        exact Or.inl ⟨fun job hjob => (by cases hjob), h⟩
      · rintro (⟨_, h⟩ | ⟨job', hjob', _⟩)
        · exact h
        · cases hjob'
    | badJson m =>
      simp only
      constructor
      · intro h
        exact Or.inl ⟨fun job hjob => (by cases hjob), h⟩
      · rintro (⟨_, h⟩ | ⟨job', hjob', _⟩)
        · exact h
        · cases hjob'
/-! ## Claims -/

/-- C1. Evaluate returns one Evaluation per candidate: when the request carries
a job id and every candidate of the fetched list has an id, then for every
evaluator (returning any value, or throwing) the response is a success whose
evaluations list has the length of the candidate list and whose candidate ids
are, up to order, exactly the candidates' ids rendered as strings; for an empty
candidate list the evaluations list is empty. -/
theorem evaluate_one_evaluation_per_candidate (rt : Runtime) (fetchJob : JVal → JobFetch)
    (evaluator : String → String → Except String JVal) (b jobId : JVal)
    (candidates : List Obj)
    (hjob : JVal.getProp b "jobId" = .ok jobId) (htruthy : JVal.truthy jobId = true)
    (hid : ∀ c ∈ candidates, HasId c) :
    ∃ evs msg,
      evaluatePOST rt (.ok candidates) fetchJob evaluator (.ok b) = .ok evs msg ∧
      evs.length = candidates.length ∧
      (evs.map Evaluation.candidateId).Perm (candidates.map (idString rt)) ∧
      (candidates = [] → evs = []) := by
  unfold evaluatePOST
  simp only [hjob, htruthy, Bool.not_true, Bool.false_eq_true, if_false]
  by_cases hlen : candidates.length = 0
  · have hnil : candidates = [] := List.length_eq_zero.mp hlen
    subst hnil
    exact ⟨[], some "No candidates found in the system", by simp, rfl, by simp, fun _ => rfl⟩
  · obtain ⟨ys, hys, hmap⟩ := promiseAll_map_ok
      (evaluateCandidate rt evaluator (jobText rt (resolveJob (fetchJob jobId))))
      Evaluation.candidateId (idString rt) candidates
      (fun c hc => evaluateCandidate_ok rt evaluator _ c (hid c hc))
    have hperm : (arraySort (compareEvaluations rt) ys).Perm ys :=
      List.perm_insertionSort _ ys
    refine ⟨arraySort (compareEvaluations rt) ys, none, ?_, ?_, ?_, ?_⟩
    · simp only [hlen, if_false, hys]
    · rw [hperm.length_eq, ← List.length_map ys Evaluation.candidateId, hmap, List.length_map]
    · rw [← hmap]
      exact hperm.map _
    · intro hnil
      exact absurd (by simp [hnil]) hlen

/-- C1, instance: two candidates with ids 10 and 11, a job lookup answering
404 and an evaluator that throws. -/
theorem evaluate_one_evaluation_per_candidate_witness :
    ∃ evs msg,
      evaluatePOST refRuntime (.ok [sampleCandidateA, sampleCandidateB]) jobNotFound
          (fun _ _ => .error "quota") (.ok sampleEvaluateBody) = .ok evs msg ∧
      evs.length = [sampleCandidateA, sampleCandidateB].length ∧
      (evs.map Evaluation.candidateId).Perm
        ([sampleCandidateA, sampleCandidateB].map (idString refRuntime)) ∧
      ([sampleCandidateA, sampleCandidateB] = [] → evs = []) :=
  evaluate_one_evaluation_per_candidate refRuntime jobNotFound (fun _ _ => .error "quota")
    sampleEvaluateBody (.num 1) [sampleCandidateA, sampleCandidateB]
    (by with_unfolding_all rfl) (by with_unfolding_all decide)
    (by with_unfolding_all decide)

/-- C2 (as stated, refuted). A well-formed response with `"score": 150` makes
the Evaluator return score 150, and the Evaluate pipeline passes it on
unchanged: no score is clamped into 0..100. -/
theorem evaluator_score_can_exceed_100 :
    JVal.getProp (generateAIEvaluation refRuntime (constantModel responseScore150)
      "profile" "job") "score" = .ok (.num 150) ∧
    ¬ ((150 : ℚ) ≤ 100) ∧
    evaluatePOST refRuntime (.ok [sampleCandidateA]) jobNotFound
        (aiEvaluator refRuntime (constantModel responseScore150)) (.ok sampleEvaluateBody) =
      .ok [{ candidateId := "10", candidateName := .str "Ann", similarity := "N/A",
             score := .num 150, feedback := .str "Outstanding",
             recommendations := .str "None" }] none := by
  refine ⟨?_, ?_, ?_⟩
  · with_unfolding_all decide
  · with_unfolding_all decide
  · with_unfolding_all decide

/-- C2 (amended). The score returned by the Evaluator is a number in 0..100
unless the response text supplies it (the parsed JSON value is returned as it
stands; the digits after a `score` label are returned as `parseInt` reads
them, that is as the double nearest to the integer they spell, which is that
integer up to `2 ^ 53`), and the Evaluate pipeline stores
`evaluation.score || 0` without any range check. -/
theorem evaluator_score_in_range_unless_supplied (rt : Runtime)
    (model : String → ModelOutcome) (profile job : String) :
    ((∃ q, JVal.getProp (generateAIEvaluation rt model profile job) "score" = .ok (.num q) ∧
        0 ≤ q ∧ q ≤ 100) ∨
      (∃ text, model (evaluationPrompt profile job) = .text text ∧
        ScoreFromResponse rt text (generateAIEvaluation rt model profile job))) ∧
    (∀ (jobTxt : String) (c : Obj) (e : Evaluation),
      evaluateTry rt (aiEvaluator rt model) jobTxt c = .ok e →
      ∃ s, JVal.getProp (generateAIEvaluation rt model (candidateProfile rt c) jobTxt) "score"
          = .ok s ∧ e.score = JVal.orElse s (.num 0)) := by
  constructor
  · unfold generateAIEvaluation
    cases hm : model (evaluationPrompt profile job) with
    | raised m =>
      left
      exact ⟨0, rfl, le_refl 0, by norm_num⟩
    | text text =>
      simp only
      unfold parseEvaluation
      cases hs : jsonSlice text with
      | some jsonText =>
        simp only
        cases hp : rt.jsonParse jsonText with
        | some v =>
          right
          exact ⟨text, rfl, Or.inl ⟨jsonText, hs, hp⟩⟩
        | none =>
          left
          exact ⟨60, rfl, by norm_num, by norm_num⟩
      | none =>
        simp only
        cases hsc : Str.firstMatch Str.scoreAt text.data with
        | none =>
          left
          refine ⟨65, ?_, by norm_num, by norm_num⟩
          simp [regexEvaluation, hsc, evaluationObject, JVal.getProp, JVal.lookup]
        | some ds =>
          right
          exact ⟨text, rfl, Or.inr ⟨hs, ds, hsc,
            fun d hd => regexEvaluation_score text ds d hsc hd⟩⟩
  · intro jobTxt c e he
    unfold evaluateTry at he
    simp only [bind, Except.bind, pure, Except.pure, aiEvaluator] at he
    split at he
    · cases he
    · split at he
      · cases he
      · split at he
        · cases he
        · rename_i s hs
          split at he
          · cases he
          · split at he
            · cases he
            · cases he
              exact ⟨s, hs, rfl⟩

set_option maxRecDepth 100000 in
/-- C3 (as stated, refuted). Three candidates whose model responses carry the
scores 50, `"high"` and 70: the Evaluate pipeline answers them in the order
50, `"high"`, 70, which is not descending; and no arrangement of these three
scores is descending, so no sort could meet the claim. -/
theorem evaluate_output_not_descending :
    responseScores (evaluatePOST refRuntime
        (.ok [sampleCandidateA, sampleCandidateB, sampleCandidateC]) jobNotFound
        (aiEvaluator refRuntime mixedModel) (.ok sampleEvaluateBody)) =
      [.num 50, .str "high", .num 70] ∧
    ¬ ScoresDescending refRuntime [.num 50, .str "high", .num 70] ∧
    ∀ l : List JVal, l.Perm [.num 50, .str "high", .num 70] →
      ¬ ScoresDescending refRuntime l := by
  refine ⟨?_, ?_, ?_⟩
  · have hA := evaluateCandidate_of_response refRuntime mixedModel fallbackJobText responseFair
      sampleCandidateA mixedModel_A
    have hB := evaluateCandidate_of_response refRuntime mixedModel fallbackJobText responseHigh
      sampleCandidateB mixedModel_B
    have hC := evaluateCandidate_of_response refRuntime mixedModel fallbackJobText responseGood
      sampleCandidateC mixedModel_C
    rw [evaluatePOST_of_evaluations refRuntime jobNotFound (aiEvaluator refRuntime mixedModel)
      sampleEvaluateBody (.num 1) [sampleCandidateA, sampleCandidateB, sampleCandidateC]
      [{ candidateId := "10", candidateName := .str "Ann", similarity := "N/A",
         score := .num 50, feedback := .str "Fair",
         recommendations := .str "No recommendations available" },
       { candidateId := "11", candidateName := .str "Bob", similarity := "N/A",
         score := .str "high", feedback := .str "Strong",
         recommendations := .str "No recommendations available" },
       { candidateId := "12", candidateName := .str "Cy", similarity := "N/A",
         score := .num 70, feedback := .str "Good",
         recommendations := .str "No recommendations available" }]
      (by with_unfolding_all rfl) (by with_unfolding_all decide) (by simp)
      (by
        show promiseAll (List.map (evaluateCandidate refRuntime (aiEvaluator refRuntime mixedModel)
          fallbackJobText) [sampleCandidateA, sampleCandidateB, sampleCandidateC]) = _
        simp only [List.map, hA, hB, hC]
        with_unfolding_all decide)]
    with_unfolding_all decide
  · with_unfolding_all decide
  · intro l hl
    apply not_scoresDescending_of_nan refRuntime l
    · rw [hl.length_eq]
      simp
    · exact ⟨.str "high", hl.mem_iff.mpr (by simp), by with_unfolding_all decide⟩

/-- C3 (amended). When every candidate has an id and every per-candidate
Evaluation has a numeric score, the Evaluate pipeline answers with the
per-candidate Evaluations rearranged in descending order of score (any earlier
score is at least any later one, in particular every adjacent pair), and for
every score value the Evaluations with that score keep the order of the
candidate list. -/
theorem evaluate_sorted_stable_when_numeric (rt : Runtime) (fetchJob : JVal → JobFetch)
    (evaluator : String → String → Except String JVal) (b jobId : JVal)
    (candidates : List Obj)
    (hjob : JVal.getProp b "jobId" = .ok jobId) (htruthy : JVal.truthy jobId = true)
    (hne : candidates ≠ []) (hid : ∀ c ∈ candidates, HasId c)
    (hnum : ∀ c ∈ candidates, ∀ e,
      evaluateCandidate rt evaluator (jobText rt (resolveJob (fetchJob jobId))) c = .ok e →
        e.score.isNum = true) :
    ∃ evals out,
      promiseAll (candidates.map
        (evaluateCandidate rt evaluator (jobText rt (resolveJob (fetchJob jobId))))) =
          .ok evals ∧
      evaluatePOST rt (.ok candidates) fetchJob evaluator (.ok b) = .ok out none ∧
      out.Perm evals ∧
      out.Pairwise (fun x y => scoreValue y.score ≤ scoreValue x.score) ∧
      ScoresDescending rt (out.map Evaluation.score) ∧
      ∀ q : ℚ, out.filter (fun e => decide (scoreValue e.score = q)) =
        evals.filter (fun e => decide (scoreValue e.score = q)) := by
  obtain ⟨evals, hevals⟩ := evaluations_exist rt evaluator
    (jobText rt (resolveJob (fetchJob jobId))) candidates hid
  have hnum' : ∀ e ∈ evals, e.score.isNum = true := by
    intro e he
    obtain ⟨c, hc, hce⟩ := promiseAll_map_mem _ candidates evals hevals e he
    exact hnum c hc e hce
  have hsort : arraySort (compareEvaluations rt) evals =
      List.insertionSort (descBy (fun e : Evaluation => scoreValue e.score)) evals :=
    arraySort_eq_descBy _ _ evals
      (fun x hx y hy => compareEvaluations_numeric rt x y (hnum' x hx) (hnum' y hy))
  have hperm : (List.insertionSort (descBy (fun e : Evaluation => scoreValue e.score)) evals).Perm
      evals := List.perm_insertionSort _ evals
  have hsorted : (List.insertionSort (descBy (fun e : Evaluation => scoreValue e.score))
      evals).Pairwise (fun x y => scoreValue y.score ≤ scoreValue x.score) :=
    List.sorted_insertionSort (descBy (fun e : Evaluation => scoreValue e.score)) evals
  refine ⟨evals, _, hevals, evaluatePOST_of_evaluations rt fetchJob evaluator b jobId candidates
    evals hjob htruthy hne hevals, ?_, ?_, ?_, ?_⟩
  · rw [hsort]
    exact hperm
  · rw [hsort]
    exact hsorted
  · rw [hsort]
    exact scoresDescending_of_pairwise rt Evaluation.score _
      (fun e he => hnum' e (hperm.mem_iff.mp he)) hsorted
  · intro q
    rw [hsort]
    exact insertionSort_descBy_stable (fun e : Evaluation => scoreValue e.score) evals q

set_option maxRecDepth 100000 in
/-- C3 (amended), instance: three candidates scored 50, 70 and 70. -/
theorem evaluate_sorted_stable_when_numeric_witness :
    ∃ evals out,
      promiseAll ([sampleCandidateA, sampleCandidateB, sampleCandidateC].map
        (evaluateCandidate refRuntime (aiEvaluator refRuntime numericModel)
          (jobText refRuntime (resolveJob (jobNotFound (.num 1)))))) = .ok evals ∧
      evaluatePOST refRuntime (.ok [sampleCandidateA, sampleCandidateB, sampleCandidateC])
          jobNotFound (aiEvaluator refRuntime numericModel) (.ok sampleEvaluateBody) =
        .ok out none ∧
      out.Perm evals ∧
      out.Pairwise (fun x y => scoreValue y.score ≤ scoreValue x.score) ∧
      ScoresDescending refRuntime (out.map Evaluation.score) ∧
      ∀ q : ℚ, out.filter (fun e => decide (scoreValue e.score = q)) =
        evals.filter (fun e => decide (scoreValue e.score = q)) :=
  evaluate_sorted_stable_when_numeric refRuntime jobNotFound (aiEvaluator refRuntime numericModel)
    sampleEvaluateBody (.num 1) [sampleCandidateA, sampleCandidateB, sampleCandidateC]
    (by with_unfolding_all rfl) (by with_unfolding_all decide) (by simp)
    (by with_unfolding_all decide)
    (by
      intro c hc e he
      have hnumeric : ∀ x ∈ numericEvaluations, x.score.isNum = true := by
        with_unfolding_all decide
      have hmem : e ∈ numericEvaluations := by
        change evaluateCandidate refRuntime (aiEvaluator refRuntime numericModel)
          fallbackJobText c = .ok e at he
        simp only [List.mem_cons, List.mem_singleton, List.not_mem_nil, or_false] at hc
        have hA := evaluateCandidate_of_response refRuntime numericModel fallbackJobText
          responseFair sampleCandidateA numericModel_A
        have hB := evaluateCandidate_of_response refRuntime numericModel fallbackJobText
          responseGood sampleCandidateB numericModel_B
        have hC := evaluateCandidate_of_response refRuntime numericModel fallbackJobText
          responseGood sampleCandidateC numericModel_C
        rcases hc with h | h | h
        · rw [h, hA] at he
          have : e = numericEvaluations.get ⟨0, by with_unfolding_all decide⟩ :=
            Except.ok.inj (he.symm.trans (by with_unfolding_all decide))
          rw [this]
          exact List.get_mem _ _ _
        · rw [h, hB] at he
          have : e = numericEvaluations.get ⟨1, by with_unfolding_all decide⟩ :=
            Except.ok.inj (he.symm.trans (by with_unfolding_all decide))
          rw [this]
          exact List.get_mem _ _ _
        · rw [h, hC] at he
          have : e = numericEvaluations.get ⟨2, by with_unfolding_all decide⟩ :=
            Except.ok.inj (he.symm.trans (by with_unfolding_all decide))
          rw [this]
          exact List.get_mem _ _ _
      exact hnumeric e hmem)

set_option maxRecDepth 100000 in
/-- C4 (as stated, refuted). The response `{"rankings": [null]}` parses to an
object with a rankings array, yet the merge loop throws while reading `r.id`
on the `null` entry: no merged list is built, and the Reranker returns the
input candidate as it came in. -/
theorem merge_raises_on_null_entry :
    (refRuntime.jsonParse responseNullRanking).map (fun p => JVal.getProp p "rankings") =
      some (.ok (.arr [.null])) ∧
    mergeRankings [.null] [sampleCandidateA] =
      .error "Cannot read properties of null (reading id)" ∧
    rerankWithGemini refRuntime (constantModel responseNullRanking) [sampleCandidateA]
      (.str "React") (.num 10) = [sampleCandidateA] := by
  refine ⟨?_, ?_, ?_⟩
  · with_unfolding_all decide
  · with_unfolding_all decide
  · with_unfolding_all decide

/-- C4 (amended). For every candidate list and every parsed response whose
rankings array has no `null` entry, the merge loop builds a list with exactly
one row per input candidate, row `i` being candidate `i` with a score and an
explanation set, whatever ids the entries carry; the Reranker goes on with this
list, sorted. -/
theorem merge_one_row_per_candidate (rt : Runtime) (rankings : List JVal)
    (candidates : List Obj) (parsed : JVal)
    (hparsed : JVal.getProp parsed "rankings" = .ok (.arr rankings))
    (hnn : NonNullEntries rankings) :
    ∃ rows,
      mergeRankings rankings candidates = .ok rows ∧
      rows.length = candidates.length ∧
      List.Forall₂ (fun c row => ∃ s e, row = withScore c s e) candidates rows ∧
      rankParsed rt candidates parsed = some (arraySort (compareRows rt) rows) := by
  obtain ⟨rows, hrows, hall⟩ := mergeRankings_ok rankings hnn candidates
  refine ⟨rows, hrows, hall.length_eq.symm, hall, ?_⟩
  unfold rankParsed
  simp only [hparsed, hrows]

/-- C4 (amended), instance: candidates 10 and 11 against rankings that rank 11
twice, invent an id 99 and omit 10. -/
theorem merge_one_row_per_candidate_witness :
    ∃ rows,
      mergeRankings sampleRankings [sampleCandidateA, sampleCandidateB] = .ok rows ∧
      rows.length = [sampleCandidateA, sampleCandidateB].length ∧
      List.Forall₂ (fun c row => ∃ s e, row = withScore c s e)
        [sampleCandidateA, sampleCandidateB] rows ∧
      rankParsed refRuntime [sampleCandidateA, sampleCandidateB]
          (.obj [("rankings", .arr sampleRankings)]) =
        some (arraySort (compareRows refRuntime) rows) :=
  merge_one_row_per_candidate refRuntime sampleRankings [sampleCandidateA, sampleCandidateB]
    (.obj [("rankings", .arr sampleRankings)]) (by with_unfolding_all rfl)
    (by with_unfolding_all decide)

set_option maxRecDepth 100000 in
/-- C5 (as stated, refuted). The rankings array `[null, {id: 10, score: 0.9,
explanation: "fit"}]` contains an entry whose id is strictly equal to the id of
candidate 10, yet the Reranker's row for that candidate carries neither that
score nor that explanation: the loop throws on the `null` entry and the
candidate is returned as it came in.  And for a candidate without an id, the
entry `0` has an id (`undefined`) strictly equal to the candidate's, yet the
row gets the default score. -/
theorem merge_rule_fails_on_null_entry :
    (refRuntime.jsonParse responseNullThenRanked).map (fun p => JVal.getProp p "rankings") =
      some (.ok (.arr [.null, rankingFor10])) ∧
    JVal.strictEq (entryProp rankingFor10 "id") (JVal.lookup "id" sampleCandidateA) = true ∧
    (rerankWithGemini refRuntime (constantModel responseNullThenRanked) [sampleCandidateA]
      (.str "React") (.num 10)).map (JVal.lookup "score") = [.undefined] ∧
    JVal.strictEq (entryProp (.num 0) "id") (JVal.lookup "id" candidateWithoutId) = true ∧
    mergeCandidate [.num 0] candidateWithoutId = .ok (unrankedRow candidateWithoutId) := by
  refine ⟨?_, ?_, ?_, ?_, ?_⟩
  · with_unfolding_all decide
  · with_unfolding_all decide
  · with_unfolding_all decide
  · with_unfolding_all decide
  · with_unfolding_all decide

/-- C5 (amended). Merge rule: for every input candidate that has an id and
every rankings array without `null` entries, if the array contains an entry
whose id is strictly equal to the candidate's id, the row carries the score and
the explanation of the first such entry; otherwise its score is exactly 0.1 and
its explanation is "Not specifically ranked by AI".  The other candidates and
the other entries play no part. -/
theorem merge_rule (rankings : List JVal) (c : Obj) (hnn : NonNullEntries rankings)
    (hid : JVal.lookup "id" c ≠ .undefined) :
    ∃ row,
      mergeCandidate rankings c = .ok row ∧
      (∀ r, firstRanking (JVal.lookup "id" c) rankings = some r →
        JVal.lookup "score" row = entryProp r "score" ∧
        JVal.lookup "explanation" row = entryProp r "explanation") ∧
      (firstRanking (JVal.lookup "id" c) rankings = none →
        JVal.lookup "score" row = .num 0.1 ∧
        JVal.lookup "explanation" row = .str "Not specifically ranked by AI") ∧
      (firstRanking (JVal.lookup "id" c) rankings = none ↔
        ∀ r ∈ rankings, JVal.strictEq (entryProp r "id") (JVal.lookup "id" c) = false) := by
  refine ⟨rankedRow rankings c, mergeCandidate_eq_rankedRow rankings c hnn hid, ?_, ?_, ?_⟩
  · intro r hr
    simp only [rankedRow, hr, lookup_score_withScore, lookup_explanation_withScore, and_self]
  · intro hnone
    simp only [rankedRow, hnone, unrankedRow, lookup_score_withScore,
      lookup_explanation_withScore, and_self]
  · unfold firstRanking
    simp [List.find?_eq_none]

/-- C5 (amended), instance: candidate 11 is ranked (first entry: score 0.9),
against rankings that repeat it and invent an id. -/
theorem merge_rule_witness :
    ∃ row,
      mergeCandidate sampleRankings sampleCandidateB = .ok row ∧
      (∀ r, firstRanking (JVal.lookup "id" sampleCandidateB) sampleRankings = some r →
        JVal.lookup "score" row = entryProp r "score" ∧
        JVal.lookup "explanation" row = entryProp r "explanation") ∧
      (firstRanking (JVal.lookup "id" sampleCandidateB) sampleRankings = none →
        JVal.lookup "score" row = .num 0.1 ∧
        JVal.lookup "explanation" row = .str "Not specifically ranked by AI") ∧
      (firstRanking (JVal.lookup "id" sampleCandidateB) sampleRankings = none ↔
        ∀ r ∈ sampleRankings,
          JVal.strictEq (entryProp r "id") (JVal.lookup "id" sampleCandidateB) = false) :=
  merge_rule sampleRankings sampleCandidateB (by with_unfolding_all decide)
    (by with_unfolding_all decide)

/-- C6. Ordering and truncation: when the response of a Reranker invocation
was parsed to a rankings array whose entries all have a numeric score, and
`limit` is a natural number, the merge succeeds and the output is the first
`min(limit, n)` rows of the merged list sorted in descending order of score;
hence it is in descending order, has at most `limit` rows, and every omitted
row's score is at most every returned row's score. -/
theorem rerank_sorted_and_truncated (rt : Runtime) (model : String → ModelOutcome)
    (candidates : List Obj) (requirements : JVal) (rankings : List JVal) (k : ℕ)
    (hne : candidates ≠ [])
    (hp : ParsedRankings rt model candidates requirements rankings)
    (hscores : ∀ r ∈ rankings, ∃ q, JVal.getProp r "score" = .ok (.num q)) :
    ∃ rows sorted : List Obj,
      mergeRankings rankings candidates = .ok rows ∧
      rows.length = candidates.length ∧
      sorted.Perm rows ∧
      sorted.Pairwise (fun x y =>
        scoreValue (JVal.lookup "score" y) ≤ scoreValue (JVal.lookup "score" x)) ∧
      rerankWithGemini rt model candidates requirements (.num (k : ℚ)) =
        sorted.take (min k candidates.length) ∧
      (rerankWithGemini rt model candidates requirements (.num (k : ℚ))).length ≤ k ∧
      ScoresDescending rt
        ((rerankWithGemini rt model candidates requirements (.num (k : ℚ))).map
          (JVal.lookup "score")) ∧
      ∀ omitted ∈ sorted.drop k,
        ∀ returned ∈ rerankWithGemini rt model candidates requirements (.num (k : ℚ)),
          scoreValue (JVal.lookup "score" omitted) ≤ scoreValue (JVal.lookup "score" returned) := by
  have hnn : NonNullEntries rankings := by
    intro r hr
    obtain ⟨q, hq⟩ := hscores r hr
    constructor <;>
    · intro h
      rw [h] at hq
      simp [JVal.getProp] at hq
  obtain ⟨rows, hmerge, hshape⟩ := mergeRankings_ok rankings hnn candidates
  have hnum : ∀ row ∈ rows, (JVal.lookup "score" row).isNum = true := by
    intro row hrow
    obtain ⟨c, _, s, e, hrow_eq, _, hs⟩ :=
      forall₂_exists_left (mergeRankings_rows rankings candidates rows hmerge) row hrow
    rw [hrow_eq, lookup_score_withScore]
    rcases hs with hs | ⟨r, hr, hrs⟩
    · rw [hs]
      rfl
    · obtain ⟨q, hq⟩ := hscores r hr
      rw [hq] at hrs
      cases hrs
      rfl
  have hout : rerankWithGemini rt model candidates requirements (.num (k : ℚ)) =
      (arraySort (compareRows rt) rows).take k := by
    rw [rerank_of_parsed rt model candidates requirements _ rankings hne hp, hmerge]
    exact sliceTo_nat rt _ k
  have hsort : arraySort (compareRows rt) rows =
      List.insertionSort (descBy (fun r : Obj => scoreValue (JVal.lookup "score" r))) rows :=
    arraySort_eq_descBy _ _ rows
      (fun x hx y hy => compareRows_numeric rt x y (hnum x hx) (hnum y hy))
  have hperm : (List.insertionSort (descBy (fun r : Obj => scoreValue (JVal.lookup "score" r)))
      rows).Perm rows := List.perm_insertionSort _ rows
  have hsorted : (List.insertionSort (descBy (fun r : Obj => scoreValue (JVal.lookup "score" r)))
      rows).Pairwise (fun x y =>
        scoreValue (JVal.lookup "score" y) ≤ scoreValue (JVal.lookup "score" x)) :=
    List.sorted_insertionSort (descBy (fun r : Obj => scoreValue (JVal.lookup "score" r))) rows
  rw [hout, hsort]
  refine ⟨rows, _, hmerge, hshape.length_eq.symm, hperm, hsorted, ?_, ?_, ?_, ?_⟩
  · exact List.take_eq_take.mpr (by simp [hperm.length_eq, hshape.length_eq])
  · exact List.length_take_le k _
  · exact scoresDescending_of_pairwise rt (JVal.lookup "score") _
      (fun e he => hnum e (hperm.mem_iff.mp (List.mem_of_mem_take he)))
      (hsorted.sublist (List.take_sublist k _))
  · intro omitted ho returned hr
    exact List.Sorted.rel_of_mem_take_of_mem_drop hsorted hr ho

/-- C6, instance: candidates 10 and 11 under the sample rankings with
`limit = 1`. -/
theorem rerank_sorted_and_truncated_witness :
    ∃ rows sorted : List Obj,
      mergeRankings sampleRankings [sampleCandidateA, sampleCandidateB] = .ok rows ∧
      rows.length = [sampleCandidateA, sampleCandidateB].length ∧
      sorted.Perm rows ∧
      sorted.Pairwise (fun x y =>
        scoreValue (JVal.lookup "score" y) ≤ scoreValue (JVal.lookup "score" x)) ∧
      rerankWithGemini refRuntime (constantModel responseSampleRankings)
          [sampleCandidateA, sampleCandidateB] (.str "React") (.num ((1 : ℕ) : ℚ)) =
        sorted.take (min 1 [sampleCandidateA, sampleCandidateB].length) ∧
      (rerankWithGemini refRuntime (constantModel responseSampleRankings)
          [sampleCandidateA, sampleCandidateB] (.str "React") (.num ((1 : ℕ) : ℚ))).length ≤ 1 ∧
      ScoresDescending refRuntime
        ((rerankWithGemini refRuntime (constantModel responseSampleRankings)
          [sampleCandidateA, sampleCandidateB] (.str "React") (.num ((1 : ℕ) : ℚ))).map
          (JVal.lookup "score")) ∧
      ∀ omitted ∈ sorted.drop 1,
        ∀ returned ∈ rerankWithGemini refRuntime (constantModel responseSampleRankings)
            [sampleCandidateA, sampleCandidateB] (.str "React") (.num ((1 : ℕ) : ℚ)),
          scoreValue (JVal.lookup "score" omitted) ≤ scoreValue (JVal.lookup "score" returned) :=
  rerank_sorted_and_truncated refRuntime (constantModel responseSampleRankings)
    [sampleCandidateA, sampleCandidateB] (.str "React") sampleRankings 1
    (by simp) parsedRankings_sample
    (by
      intro r hr
      simp only [sampleRankings, List.mem_cons, List.mem_singleton, List.not_mem_nil,
        or_false] at hr
      rcases hr with h | h | h
      · exact ⟨0.9, by rw [h]; rfl⟩
      · exact ⟨0.5, by rw [h]; rfl⟩
      · exact ⟨0.2, by rw [h]; rfl⟩)

set_option maxRecDepth 100000 in
/-- C7 (as stated, refuted). A response that gives candidate 10 the score 5
makes the Reranker return a row whose score is 5, outside 0..1: scores are not
clamped. -/
theorem rerank_score_can_exceed_one :
    (rerankWithGemini refRuntime (constantModel responseScore5) [sampleCandidateA]
      (.str "React") (.num 10)).map (JVal.lookup "score") = [.num 5] ∧
    ¬ ((5 : ℚ) ≤ 1) := by
  refine ⟨?_, ?_⟩
  · with_unfolding_all decide
  · with_unfolding_all decide

/-- C7 (amended). When the response of a Reranker invocation was parsed and
every entry of the rankings array has a numeric score in 0..1, each output
row's score is a number in 0..1: it is 0.1 for an unranked candidate and
otherwise the score of an entry, passed on unchecked. -/
theorem rerank_scores_within_unit_interval (rt : Runtime) (model : String → ModelOutcome)
    (candidates : List Obj) (requirements limit : JVal) (rankings : List JVal)
    (hne : candidates ≠ [])
    (hp : ParsedRankings rt model candidates requirements rankings)
    (hscores : ∀ r ∈ rankings, ∃ q, JVal.getProp r "score" = .ok (.num q) ∧ 0 ≤ q ∧ q ≤ 1) :
    ScoresWithinUnitInterval (rerankWithGemini rt model candidates requirements limit) := by
  have hnn : NonNullEntries rankings := by
    intro r hr
    obtain ⟨q, hq, _⟩ := hscores r hr
    constructor <;>
    · intro h
      rw [h] at hq
      simp [JVal.getProp] at hq
  obtain ⟨rows, hrows, _⟩ := mergeRankings_ok rankings hnn candidates
  have hall := mergeRankings_rows rankings candidates rows hrows
  intro row hrow
  rw [rerank_of_parsed rt model candidates requirements limit rankings hne hp, hrows] at hrow
  have hmem : row ∈ rows :=
    (List.perm_insertionSort _ rows).mem_iff.mp (mem_of_mem_sliceTo rt _ limit row hrow)
  obtain ⟨c, _, s, e, hrow_eq, _, hs⟩ := forall₂_exists_left hall row hmem
  rw [hrow_eq, lookup_score_withScore]
  rcases hs with hs | ⟨r, hr, hrs⟩
  · exact ⟨0.1, hs, by norm_num, by norm_num⟩
  · obtain ⟨q, hq, h0, h1⟩ := hscores r hr
    rw [hq] at hrs
    cases hrs
    exact ⟨q, rfl, h0, h1⟩

/-- C7 (amended), instance: candidates 10 and 11 under the sample rankings,
whose scores are 0.9, 0.5 and 0.2. -/
theorem rerank_scores_within_unit_interval_witness :
    ScoresWithinUnitInterval (rerankWithGemini refRuntime (constantModel responseSampleRankings)
      [sampleCandidateA, sampleCandidateB] (.str "React") (.num 10)) :=
  rerank_scores_within_unit_interval refRuntime (constantModel responseSampleRankings)
    [sampleCandidateA, sampleCandidateB] (.str "React") (.num 10) sampleRankings (by simp)
    parsedRankings_sample
    (by
      intro r hr
      simp only [sampleRankings, List.mem_cons, List.mem_singleton, List.not_mem_nil,
        or_false] at hr
      rcases hr with h | h | h
      · exact ⟨0.9, by rw [h]; rfl, by norm_num, by norm_num⟩
      · exact ⟨0.5, by rw [h]; rfl, by norm_num, by norm_num⟩
      · exact ⟨0.2, by rw [h]; rfl, by norm_num, by norm_num⟩)

set_option maxRecDepth 100000 in
/-- C8 (as stated, refuted). A search for "react" over two stored candidates,
with an index that finds nothing and a model whose call raises, answers with
the two candidates as they are stored: the rows have no `score` property.  The
same holds when the model's output has no JSON, has JSON that does not parse,
or lacks a rankings array. -/
theorem search_rows_without_score :
    searchPOST refRuntime jobNotFound [sampleCandidateA, sampleCandidateB] failingProvider
        constantRandom emptyIndex failingModel (.ok sampleSearchBody) =
      .ok [sampleCandidateA, sampleCandidateB] "gemini-only" ∧
    [sampleCandidateA, sampleCandidateB].map (JVal.hasKey "score") = [false, false] ∧
    [sampleCandidateA, sampleCandidateB].map (JVal.lookup "score") =
      [.undefined, .undefined] ∧
    rerankWithGemini refRuntime (constantModel "I cannot rank these candidates.")
      [sampleCandidateA] (.str "React") (.num 10) = [sampleCandidateA] ∧
    rerankWithGemini refRuntime (constantModel "\x7brankings: none\x7d")
      [sampleCandidateA] (.str "React") (.num 10) = [sampleCandidateA] ∧
    rerankWithGemini refRuntime (constantModel "\x7b\"ranking\": []\x7d")
      [sampleCandidateA] (.str "React") (.num 10) = [sampleCandidateA] := by
  refine ⟨?_, ?_, ?_, ?_, ?_, ?_⟩
  · with_unfolding_all decide
  · with_unfolding_all decide
  · with_unfolding_all decide
  · with_unfolding_all decide
  · with_unfolding_all decide
  · with_unfolding_all decide


/-- C8 (amended). For every Reranker invocation, either the output is the
input candidate list cut to `limit`, every row being a candidate as it came in
(this is what happens when the model call fails, its output has no JSON, the
JSON does not parse, it lacks a rankings array, or the merge throws), or the
response was parsed and merged, and then every row carries a `score` property,
which is exactly 0.1 for a candidate that no entry of the rankings array
matches. -/
theorem rerank_rows_scored_or_untouched (rt : Runtime) (model : String → ModelOutcome)
    (candidates : List Obj) (requirements limit : JVal) :
    rerankWithGemini rt model candidates requirements limit = sliceTo rt candidates limit ∨
    ∃ rankings rows,
      ParsedRankings rt model candidates requirements rankings ∧
      mergeRankings rankings candidates = .ok rows ∧
      rerankWithGemini rt model candidates requirements limit =
        sliceTo rt (arraySort (compareRows rt) rows) limit ∧
      List.Forall₂ (fun c row => JVal.hasKey "score" row = true ∧
        (firstRanking (JVal.lookup "id" c) rankings = none →
          JVal.lookup "score" row = .num 0.1)) candidates rows := by
  rcases rerank_cases rt model candidates requirements limit with
    h | ⟨rankings, rows, hp, hmerge, hout⟩
  · exact Or.inl h
  · right
    refine ⟨rankings, rows, hp, hmerge, hout, ?_⟩
    refine (mergeRankings_rows rankings candidates rows hmerge).imp ?_
    rintro c row ⟨s, e, hrow, hnone, _⟩
    subst hrow
    exact ⟨hasKey_score_withScore c s e, fun h => by rw [lookup_score_withScore, hnone h]⟩

set_option maxRecDepth 100000 in
/-- C9 (as stated, refuted). A request `{ jobId: 1 }` passes the validation (a
job id is present), but when the job lookup answers 404 there is no search text
and the response is the error "No valid search text available" with status
400; the same happens when the job is found and its requirements are empty. -/
theorem search_rejects_without_search_text :
    PassesValidation [("jobId", .num 1)] ∧
    searchPOST refRuntime jobNotFound [sampleCandidateA, sampleCandidateB] failingProvider
        constantRandom failingIndex failingModel (.ok jobOnlySearchBody) =
      .badRequest "No valid search text available" ∧
    searchPOST refRuntime jobWithoutRequirements [sampleCandidateA, sampleCandidateB]
        failingProvider constantRandom failingIndex failingModel (.ok jobOnlySearchBody) =
      .badRequest "No valid search text available" := by
  refine ⟨?_, ?_, ?_⟩
  · with_unfolding_all decide
  · with_unfolding_all decide
  · with_unfolding_all decide

/-- C9 (amended). For every request that passes the validation (a query or a
job id is present), and for every behaviour of the job lookup, the embedding
provider, the vector index and the model: when the effective search text is
not empty the response is a success carrying a results list and a search
method, and when it is empty the response is the error
"No valid search text available" with status 400; the search text is empty
exactly when a job id is given and either the job is not fetched and the query
is absent (or falsy), or the job is fetched and its requirements, a space and
the query trim to the empty string. -/
theorem search_response_by_search_text (rt : Runtime) (fetchJob : JVal → JobFetch)
    (allCandidates : List Obj) (provider : JVal → EmbedOutcome) (random : Nat → ℚ)
    (index : QueryArgs → IndexOutcome) (model : String → ModelOutcome) (props : Obj)
    (hvalid : PassesValidation props) :
    (JVal.truthy (searchTextOf rt fetchJob props) = true →
      ∃ results method,
        searchPOST rt fetchJob allCandidates provider random index model (.ok (.obj props)) =
          .ok results method ∧
        (method = "vector-and-gemini" ∨ method = "gemini-only")) ∧
    (JVal.truthy (searchTextOf rt fetchJob props) = false →
      searchPOST rt fetchJob allCandidates provider random index model (.ok (.obj props)) =
        .badRequest "No valid search text available") ∧
    (JVal.truthy (searchTextOf rt fetchJob props) = false ↔
      JVal.truthy (JVal.lookup "jobId" props) = true ∧
        (((∀ job, fetchJob (JVal.lookup "jobId" props) ≠ .ok job) ∧
            JVal.truthy (JVal.lookup "query" props) = false) ∨
          ∃ job, fetchJob (JVal.lookup "jobId" props) = .ok job ∧
            Str.trim (JVal.toStr rt (JVal.lookup "requirements" job) ++ " "
              ++ JVal.toStr rt (JVal.orElse (JVal.lookup "query" props) (.str ""))) =
              "")) := by
  refine ⟨?_, ?_, searchTextOf_falsy_iff rt fetchJob props hvalid⟩
  · intro htext
    rw [searchPOST_of_valid rt fetchJob allCandidates provider random index model props hvalid
      htext]
    cases index (searchQuery rt provider random (searchTextOf rt fetchJob props)
        (requestLimit (JVal.lookup "limit" props))) with
    | raised m => exact ⟨_, _, rfl, Or.inr rfl⟩
    | result ms =>
      cases ms with
      | nil => exact ⟨_, _, rfl, Or.inr rfl⟩
      | cons m ms => exact ⟨_, _, rfl, Or.inl rfl⟩
  · intro htext
    exact searchPOST_without_text rt fetchJob allCandidates provider random index model props
      hvalid htext

set_option maxRecDepth 100000 in
/-- C9 (amended), instances: the request `{ query: "react" }` with a job lookup
answering 404 and a provider, an index and a model that all raise is answered
with a success; the request `{ query: " ", jobId: 1 }`, whose job is found with
empty requirements, is left without search text and rejected. -/
theorem search_response_by_search_text_witness :
    (∃ results method,
      searchPOST refRuntime jobNotFound [sampleCandidateA, sampleCandidateB] failingProvider
          constantRandom failingIndex failingModel (.ok (.obj [("query", .str "react")])) =
        .ok results method ∧
      (method = "vector-and-gemini" ∨ method = "gemini-only")) ∧
    searchPOST refRuntime jobWithoutRequirements [sampleCandidateA, sampleCandidateB]
        failingProvider constantRandom failingIndex failingModel
        (.ok (.obj [("query", .str " "), ("jobId", .num 1)])) =
      .badRequest "No valid search text available" :=
  ⟨(search_response_by_search_text refRuntime jobNotFound [sampleCandidateA, sampleCandidateB]
      failingProvider constantRandom failingIndex failingModel [("query", .str "react")]
      (by with_unfolding_all decide)).1 (by with_unfolding_all decide),
    (search_response_by_search_text refRuntime jobWithoutRequirements
      [sampleCandidateA, sampleCandidateB] failingProvider constantRandom failingIndex
      failingModel [("query", .str " "), ("jobId", .num 1)]
      (by with_unfolding_all decide)).2.1 (by with_unfolding_all decide)⟩

/-- C10. Fallback tier: for a request that passes both validations, whenever
the vector index query raises or returns zero matches, the results are exactly
the Reranker's output on the first `min(n, 15)` candidates of the store's list,
in store order, with the requirements text `jobRequirements || query`; the
method is "gemini-only"; every result row is one of the first 15 stored
candidates (as stored, or with a score and an explanation set); and for a
natural number `limit` at most `limit` results are returned. -/
theorem search_fallback_tier (rt : Runtime) (fetchJob : JVal → JobFetch)
    (allCandidates : List Obj) (provider : JVal → EmbedOutcome) (random : Nat → ℚ)
    (index : QueryArgs → IndexOutcome) (model : String → ModelOutcome) (props : Obj)
    (hvalid : PassesValidation props)
    (htext : JVal.truthy (searchTextOf rt fetchJob props) = true)
    (hindex : (∃ m, index (searchQuery rt provider random (searchTextOf rt fetchJob props)
          (requestLimit (JVal.lookup "limit" props))) = .raised m) ∨
        index (searchQuery rt provider random (searchTextOf rt fetchJob props)
          (requestLimit (JVal.lookup "limit" props))) = .result []) :
    searchPOST rt fetchJob allCandidates provider random index model (.ok (.obj props)) =
      .ok (rerankWithGemini rt model (allCandidates.take (min allCandidates.length 15))
          (requirementsOf rt fetchJob props) (requestLimit (JVal.lookup "limit" props)))
        "gemini-only" ∧
    RowsFrom (allCandidates.take 15)
      (rerankWithGemini rt model (allCandidates.take (min allCandidates.length 15))
        (requirementsOf rt fetchJob props) (requestLimit (JVal.lookup "limit" props))) ∧
    (∀ k : ℕ, requestLimit (JVal.lookup "limit" props) = .num (k : ℚ) →
      (rerankWithGemini rt model (allCandidates.take (min allCandidates.length 15))
        (requirementsOf rt fetchJob props)
        (requestLimit (JVal.lookup "limit" props))).length ≤ k) := by
  refine ⟨?_, ?_, ?_⟩
  · rw [searchPOST_of_valid rt fetchJob allCandidates provider random index model props hvalid
      htext]
    rcases hindex with ⟨m, h⟩ | h <;> rw [h] <;> rfl
  · have htake : allCandidates.take (min allCandidates.length 15) = allCandidates.take 15 :=
      List.take_eq_take.mpr (by simp [Nat.min_comm])
    rw [htake]
    exact rerank_rows_from_candidates rt model _ _ _
  · intro k hk
    rw [hk]
    exact rerank_length_le rt model _ _ k

/-- C10, instance: the request `{ query: "react" }` against an index whose
queries raise. -/
theorem search_fallback_tier_witness :
    searchPOST refRuntime jobNotFound [sampleCandidateA, sampleCandidateB] failingProvider
        constantRandom failingIndex (constantModel responseSampleRankings)
        (.ok (.obj [("query", .str "react")])) =
      .ok (rerankWithGemini refRuntime (constantModel responseSampleRankings)
          ([sampleCandidateA, sampleCandidateB].take
            (min [sampleCandidateA, sampleCandidateB].length 15))
          (requirementsOf refRuntime jobNotFound [("query", .str "react")])
          (requestLimit (JVal.lookup "limit" [("query", .str "react")])))
        "gemini-only" ∧
    RowsFrom ([sampleCandidateA, sampleCandidateB].take 15)
      (rerankWithGemini refRuntime (constantModel responseSampleRankings)
        ([sampleCandidateA, sampleCandidateB].take
          (min [sampleCandidateA, sampleCandidateB].length 15))
        (requirementsOf refRuntime jobNotFound [("query", .str "react")])
        (requestLimit (JVal.lookup "limit" [("query", .str "react")]))) ∧
    (∀ k : ℕ, requestLimit (JVal.lookup "limit" [("query", .str "react")]) = .num (k : ℚ) →
      (rerankWithGemini refRuntime (constantModel responseSampleRankings)
        ([sampleCandidateA, sampleCandidateB].take
          (min [sampleCandidateA, sampleCandidateB].length 15))
        (requirementsOf refRuntime jobNotFound [("query", .str "react")])
        (requestLimit (JVal.lookup "limit" [("query", .str "react")]))).length ≤ k) :=
  search_fallback_tier refRuntime jobNotFound [sampleCandidateA, sampleCandidateB]
    failingProvider constantRandom failingIndex (constantModel responseSampleRankings)
    [("query", .str "react")] (by with_unfolding_all decide) (by with_unfolding_all decide)
    (Or.inl ⟨"index unreachable", rfl⟩)

/-- C12. The Evaluator never raises: for every runtime, every pair of input
texts and every behaviour of the model call (an exception, or any response
text), the call of `generateAIEvaluation` resolves with a value, the one
computed by `generateAIEvaluation`, instead of rejecting; and with a
`JSON.parse` that maps brace-initial texts to objects, as JSON demands and as
the reference runtime does, that value is an object. -/
theorem evaluator_never_raises (rt : Runtime) (model : String → ModelOutcome)
    (profile job : String) :
    generateAIEvaluationOutcome rt model profile job =
      .ok (generateAIEvaluation rt model profile job) ∧
    (ParsesBraceTextToObject rt →
      ∃ props, generateAIEvaluation rt model profile job = .obj props) ∧
    (∃ props, generateAIEvaluation refRuntime model profile job = .obj props) := by
  have hobj : ∀ rt' : Runtime, ParsesBraceTextToObject rt' →
      ∃ props, generateAIEvaluation rt' model profile job = .obj props := by
    intro rt' hrt
    unfold generateAIEvaluation
    cases model (evaluationPrompt profile job) with
    | raised m => exact ⟨_, rfl⟩
    | text text =>
      simp only
      unfold parseEvaluation
      cases hs : jsonSlice text with
      | none => exact ⟨_, rfl⟩
      | some jsonText =>
        simp only
        cases hp : rt'.jsonParse jsonText with
        | none => exact ⟨_, rfl⟩
        | some v => exact hrt jsonText v (jsonSlice_head text jsonText hs) hp
  refine ⟨?_, hobj rt, hobj refRuntime refRuntime_parsesBraceTextToObject⟩
  · unfold generateAIEvaluationOutcome evaluationOuterTry generateAIEvaluation
    cases model (evaluationPrompt profile job) with
    | raised m => rfl
    | text text =>
      simp only
      unfold evaluationInnerTry parseEvaluation
      cases jsonSlice text with
      | none => rfl
      | some jsonText =>
        simp only
        cases rt.jsonParse jsonText <;> rfl

/-- C13. Unparseable JSON: when the response text has a `{` before its last
`}` and the substring from the first `{` through the last `}` is rejected by
`JSON.parse`, the Evaluator does not raise and returns score exactly 60 with
the canned feedback and recommendations of the inner `catch`. -/
theorem evaluator_on_unparseable_json (rt : Runtime) (model : String → ModelOutcome)
    (profile job text span : String)
    (hmodel : model (evaluationPrompt profile job) = .text text)
    (hspan : BraceSpan text span) (hparse : rt.jsonParse span = none) :
    generateAIEvaluationOutcome rt model profile job = .ok parseFailureEvaluation ∧
    generateAIEvaluation rt model profile job = parseFailureEvaluation ∧
    JVal.getProp parseFailureEvaluation "score" = .ok (.num 60) ∧
    JVal.getProp parseFailureEvaluation "feedback" = .ok (.str "The candidate shows some relevant skills for the position. Their background includes experience that could be valuable, though there may be some gaps in specific technical requirements. Further discussion recommended to assess cultural fit and technical depth.") ∧
    JVal.getProp parseFailureEvaluation "recommendations" = .ok (.str "• Focus on strengthening core technical skills required for the position\n• Consider gaining more hands-on project experience\n• Highlight relevant achievements more prominently") := by
  have hslice := jsonSlice_of_braceSpan text span hspan
  refine ⟨?_, ?_, rfl, rfl, rfl⟩
  · simp only [generateAIEvaluationOutcome, evaluationOuterTry, hmodel, evaluationInnerTry,
      hslice, hparse]
  · simp only [generateAIEvaluation, hmodel, parseEvaluation, hslice, hparse]

/-- C13, instance: the response `{score: 85}`, whose brace-delimited part is
the whole text and is not valid JSON. -/
theorem evaluator_on_unparseable_json_witness :
    generateAIEvaluationOutcome refRuntime (constantModel responseUnquotedScore) "profile" "job" =
      .ok parseFailureEvaluation ∧
    generateAIEvaluation refRuntime (constantModel responseUnquotedScore) "profile" "job" =
      parseFailureEvaluation ∧
    JVal.getProp parseFailureEvaluation "score" = .ok (.num 60) ∧
    JVal.getProp parseFailureEvaluation "feedback" = .ok (.str "The candidate shows some relevant skills for the position. Their background includes experience that could be valuable, though there may be some gaps in specific technical requirements. Further discussion recommended to assess cultural fit and technical depth.") ∧
    JVal.getProp parseFailureEvaluation "recommendations" = .ok (.str "• Focus on strengthening core technical skills required for the position\n• Consider gaining more hands-on project experience\n• Highlight relevant achievements more prominently") :=
  evaluator_on_unparseable_json refRuntime (constantModel responseUnquotedScore) "profile" "job"
    responseUnquotedScore responseUnquotedScore rfl
    ⟨[], "score: 85".data, [], by with_unfolding_all decide, by simp, by simp,
      by with_unfolding_all decide⟩
    (by with_unfolding_all decide)

/-- C14, counterexample to the claim as written: the response `{score: 85}`
has a brace-delimited part that strict JSON parsing rejects and a `score`
label followed by the integer 85, yet the returned score is 60: the inner
`catch` returns its fixed result and the regular expressions are not run. -/
theorem evaluator_skips_regex_on_unparseable_json :
    jsonSlice responseUnquotedScore = some responseUnquotedScore ∧
    refRuntime.jsonParse responseUnquotedScore = none ∧
    ScoreLabelAt responseUnquotedScore "\x7b".data "85".data ∧
    Str.firstMatch Str.scoreAt responseUnquotedScore.data = some "85".data ∧
    JVal.getProp (generateAIEvaluation refRuntime (constantModel responseUnquotedScore)
      "profile" "job") "score" = .ok (.num 60) := by
  refine ⟨by with_unfolding_all decide, by with_unfolding_all decide, ?_,
    by with_unfolding_all decide, by with_unfolding_all decide⟩
  exact ⟨"score".data, ": ".data, "\x7d".data, by with_unfolding_all decide, rfl, by simp, by with_unfolding_all decide, by simp,
    by with_unfolding_all decide, by with_unfolding_all decide⟩

/-- C14, amended: for every model response without a brace-delimited part (no
`{` before a `}`), the Evaluator extracts its result from the response text by
the regular expressions: when the first `score` label followed by an integer
is followed by the digits `digits`, the returned score is what `parseInt`
gives for them, the double nearest to the integer they spell whenever that is
a finite number, hence that integer itself when it is at most `2 ^ 53`; and
the feedback and recommendations spans are returned, trimmed, when their
patterns match. -/
theorem evaluator_regex_tier (rt : Runtime) (model : String → ModelOutcome)
    (profile job text : String)
    (hmodel : model (evaluationPrompt profile job) = .text text)
    (hno : ¬ HasBraceSpan text) :
    (∀ (digits : List Char) (d : ℕ), FirstScoreLabel text digits →
      Str.nearestDouble (Str.digitsValue digits) = some d →
      JVal.getProp (generateAIEvaluation rt model profile job) "score" =
        .ok (.num ((d : ℕ) : ℚ))) ∧
    (∀ digits, FirstScoreLabel text digits → Str.digitsValue digits ≤ 2 ^ 53 →
      JVal.getProp (generateAIEvaluation rt model profile job) "score" =
        .ok (.num ((Str.digitsValue digits : ℕ) : ℚ))) ∧
    (∀ g, Str.firstMatch Str.feedbackAt text.data = some g →
      JVal.getProp (generateAIEvaluation rt model profile job) "feedback" =
        .ok (.str (Str.trim (String.mk g)))) ∧
    (∀ g, Str.firstMatch Str.recommendationsAt text.data = some g →
      JVal.getProp (generateAIEvaluation rt model profile job) "recommendations" =
        .ok (.str (Str.trim (String.mk g)))) := by
  have hslice := (jsonSlice_eq_none_iff text).mpr hno
  have hgen : generateAIEvaluation rt model profile job = regexEvaluation text := by
    simp only [generateAIEvaluation, hmodel, parseEvaluation, hslice]
  have hscore : ∀ (digits : List Char) (d : ℕ), FirstScoreLabel text digits →
      Str.nearestDouble (Str.digitsValue digits) = some d →
      JVal.getProp (generateAIEvaluation rt model profile job) "score" =
        .ok (.num ((d : ℕ) : ℚ)) := by
    intro digits d hfirst hdouble
    rw [hgen]
    exact regexEvaluation_score text digits d
      (firstMatch_scoreAt_of_firstScoreLabel text digits hfirst) hdouble
  refine ⟨hscore, ?_, ?_, ?_⟩
  · intro digits hfirst hsmall
    exact hscore digits _ hfirst (Str.nearestDouble_exact _ hsmall)
  · intro g hg
    rw [hgen]
    simp only [regexEvaluation, hg]
    rfl
  · intro g hg
    rw [hgen]
    simp only [regexEvaluation, hg]
    rfl

set_option maxRecDepth 100000 in
/-- C14, instances of the amended claim: a response without braces that has
the three labels gets the score 85 and the two spans, trimmed; a response
whose score label is followed by the digits of `2 ^ 53 + 1` gets the nearest
double, `2 ^ 53`. -/
theorem evaluator_regex_tier_witness :
    JVal.getProp (generateAIEvaluation refRuntime (constantModel responseLabelled)
      "profile" "job") "score" = .ok (.num ((Str.digitsValue "85".data : ℕ) : ℚ)) ∧
    Str.digitsValue "85".data = 85 ∧
    JVal.getProp (generateAIEvaluation refRuntime (constantModel responseLabelled)
      "profile" "job") "feedback" = .ok (.str "solid React work") ∧
    JVal.getProp (generateAIEvaluation refRuntime (constantModel responseLabelled)
      "profile" "job") "recommendations" = .ok (.str "learn testing") ∧
    JVal.getProp (generateAIEvaluation refRuntime (constantModel responseLongScore)
      "profile" "job") "score" = .ok (.num ((9007199254740992 : ℕ) : ℚ)) ∧
    Str.digitsValue "9007199254740993".data = 9007199254740993 :=
  ⟨(evaluator_regex_tier refRuntime (constantModel responseLabelled) "profile" "job"
      responseLabelled rfl
      ((jsonSlice_eq_none_iff responseLabelled).mp (by with_unfolding_all decide))).2.1
      "85".data
      ⟨[], ⟨"Score".data, ": ".data,
          "\nFeedback: solid React work\nRecommendations: learn testing".data,
          by with_unfolding_all decide, by
            show _ = _
            with_unfolding_all decide,
          by simp, by with_unfolding_all decide, by simp, by with_unfolding_all decide,
          by with_unfolding_all decide⟩,
        fun _ _ _ => Nat.zero_le _⟩
      (by with_unfolding_all decide),
    by with_unfolding_all decide,
    by with_unfolding_all decide,
    by with_unfolding_all decide,
    (evaluator_regex_tier refRuntime (constantModel responseLongScore) "profile" "job"
      responseLongScore rfl
      ((jsonSlice_eq_none_iff responseLongScore).mp (by with_unfolding_all decide))).1
      "9007199254740993".data 9007199254740992
      ⟨[], ⟨"score".data, ": ".data, [],
          by with_unfolding_all decide, rfl,
          by simp, by with_unfolding_all decide, by simp, by with_unfolding_all decide,
          by simp⟩,
        fun _ _ _ => Nat.zero_le _⟩
      (by decide),
    by decide⟩

/-- C15, counterexample to the claim as written: a response with no braces and
no label, from which neither strict parsing nor any of the three patterns
yields a value, gets score 65, not 60. -/
theorem evaluator_default_score_is_not_60 :
    jsonSlice responseUnlabelled = none ∧
    Str.firstMatch Str.scoreAt responseUnlabelled.data = none ∧
    Str.firstMatch Str.feedbackAt responseUnlabelled.data = none ∧
    Str.firstMatch Str.recommendationsAt responseUnlabelled.data = none ∧
    JVal.getProp (generateAIEvaluation refRuntime (constantModel responseUnlabelled)
      "profile" "job") "score" = .ok (.num 65) := by
  refine ⟨by with_unfolding_all decide, by with_unfolding_all decide,
    by with_unfolding_all decide, by with_unfolding_all decide, by with_unfolding_all decide⟩

/-- C15, amended: for every model response without a brace-delimited part in
which none of the three patterns (score, feedback, recommendations) matches,
the returned score is exactly 65, with the default feedback and
recommendations of the regular-expression branch. -/
theorem evaluator_static_defaults (rt : Runtime) (model : String → ModelOutcome)
    (profile job text : String)
    (hmodel : model (evaluationPrompt profile job) = .text text)
    (hno : ¬ HasBraceSpan text)
    (hscore : Str.firstMatch Str.scoreAt text.data = none)
    (hfeedback : Str.firstMatch Str.feedbackAt text.data = none)
    (hrecommendations : Str.firstMatch Str.recommendationsAt text.data = none) :
    generateAIEvaluation rt model profile job =
      evaluationObject (.num 65) (.str defaultFeedback) (.str defaultRecommendations) ∧
    JVal.getProp (generateAIEvaluation rt model profile job) "score" = .ok (.num 65) ∧
    JVal.getProp (generateAIEvaluation rt model profile job) "feedback" =
      .ok (.str defaultFeedback) ∧
    JVal.getProp (generateAIEvaluation rt model profile job) "recommendations" =
      .ok (.str defaultRecommendations) := by
  have hslice := (jsonSlice_eq_none_iff text).mpr hno
  have hgen : generateAIEvaluation rt model profile job =
      evaluationObject (.num 65) (.str defaultFeedback) (.str defaultRecommendations) := by
    simp only [generateAIEvaluation, hmodel, parseEvaluation, hslice, regexEvaluation, hscore,
      hfeedback, hrecommendations]
  rw [hgen]
  exact ⟨rfl, rfl, rfl, rfl⟩

/-- C15, instance of the amended claim: the response
`I cannot evaluate this candidate.`. -/
theorem evaluator_static_defaults_witness :
    generateAIEvaluation refRuntime (constantModel responseUnlabelled) "profile" "job" =
      evaluationObject (.num 65) (.str defaultFeedback) (.str defaultRecommendations) :=
  (evaluator_static_defaults refRuntime (constantModel responseUnlabelled) "profile" "job"
    responseUnlabelled rfl
    ((jsonSlice_eq_none_iff responseUnlabelled).mp (by with_unfolding_all decide))
    (by with_unfolding_all decide) (by with_unfolding_all decide)
    (by with_unfolding_all decide)).1

/-- C16. Hard-failure placeholder: whenever the model call raises, the
Evaluator returns score exactly 0 with the feedback
`Error generating evaluation. Please try again later.`; and when it raises on
the prompt of a candidate of the Evaluate pipeline, every Evaluation produced
for that candidate has score 0 and that same feedback text, and the response
holds one when the candidates have ids. -/
theorem evaluator_model_failure_placeholder (rt : Runtime) (model : String → ModelOutcome)
    (fetchJob : JVal → JobFetch) (b jobId : JVal) (candidates : List Obj) (c : Obj)
    (m : String)
    (hjob : JVal.getProp b "jobId" = .ok jobId) (htruthy : JVal.truthy jobId = true)
    (hmodel : model (evaluationPrompt (candidateProfile rt c)
      (jobText rt (resolveJob (fetchJob jobId)))) = .raised m)
    (hpreview : resumePreview rt c = .ok ()) :
    (∀ profile job message, model (evaluationPrompt profile job) = .raised message →
      generateAIEvaluation rt model profile job = modelFailureEvaluation) ∧
    JVal.getProp modelFailureEvaluation "score" = .ok (.num 0) ∧
    JVal.getProp modelFailureEvaluation "feedback" =
      .ok (.str "Error generating evaluation. Please try again later.") ∧
    (∀ e, evaluateCandidate rt (aiEvaluator rt model)
        (jobText rt (resolveJob (fetchJob jobId))) c = .ok e →
      e.score = .num 0 ∧
      e.feedback = .str "Error generating evaluation. Please try again later.") ∧
    (c ∈ candidates → (∀ c' ∈ candidates, HasId c') →
      ∃ out msg e,
        evaluatePOST rt (.ok candidates) fetchJob (aiEvaluator rt model) (.ok b) = .ok out msg ∧
        e ∈ out ∧ e.candidateId = idString rt c ∧ e.score = .num 0 ∧
        e.feedback = .str "Error generating evaluation. Please try again later.") := by
  refine ⟨?_, rfl, rfl, ?_, ?_⟩
  · intro profile job message hraise
    simp only [generateAIEvaluation, hraise]
  · intro e he
    exact evaluateCandidate_of_model_failure rt model _ c m hmodel hpreview e he
  · intro hc hid
    have hne : candidates ≠ [] := List.ne_nil_of_mem hc
    obtain ⟨evals, hevals, hall⟩ := promiseAll_map_forall₂
      (evaluateCandidate rt (aiEvaluator rt model) (jobText rt (resolveJob (fetchJob jobId))))
      candidates
      (fun x hx => by
        obtain ⟨y, hy, _⟩ := evaluateCandidate_ok rt (aiEvaluator rt model)
          (jobText rt (resolveJob (fetchJob jobId))) x (hid x hx)
        exact ⟨y, hy⟩)
    obtain ⟨e, he, hce⟩ := forall₂_exists_right hall c hc
    obtain ⟨e', hce', hid'⟩ := evaluateCandidate_ok rt (aiEvaluator rt model)
      (jobText rt (resolveJob (fetchJob jobId))) c (hid c hc)
    have hee : e' = e := by
      rw [hce] at hce'
      injection hce' with h
      exact h.symm
    subst hee
    have hplace := evaluateCandidate_of_model_failure rt model _ c m hmodel hpreview e' hce
    refine ⟨arraySort (compareEvaluations rt) evals, none, e', ?_, ?_, hid', hplace.1, hplace.2⟩
    · exact evaluatePOST_of_evaluations rt fetchJob (aiEvaluator rt model) b jobId candidates
        evals hjob htruthy hne hevals
    · exact (List.perm_insertionSort _ evals).mem_iff.mpr he

/-- C16, instance: two candidates with ids, a job lookup answering 404 and a
model whose every call raises. -/
theorem evaluator_model_failure_placeholder_witness :
    ∃ out msg e,
      evaluatePOST refRuntime (.ok [sampleCandidateA, sampleCandidateB]) jobNotFound
        (aiEvaluator refRuntime failingModel) (.ok sampleEvaluateBody) = .ok out msg ∧
      e ∈ out ∧ e.candidateId = idString refRuntime sampleCandidateA ∧ e.score = .num 0 ∧
      e.feedback = .str "Error generating evaluation. Please try again later." :=
  (evaluator_model_failure_placeholder refRuntime failingModel jobNotFound sampleEvaluateBody
    (.num 1) [sampleCandidateA, sampleCandidateB] sampleCandidateA "quota exceeded"
    (by with_unfolding_all rfl) (by with_unfolding_all decide) rfl
    (by with_unfolding_all decide)).2.2.2.2
    (List.mem_cons_self _ _) (by with_unfolding_all decide)

/-- C17. Reranker on total model failure: whenever the model call on the
Reranker prompt raises, for every non-negative integer limit `k` the Reranker
returns exactly the first `min k n` of the `n` input candidates in their
original order, each row being its input candidate unchanged. -/
theorem rerank_on_model_failure (rt : Runtime) (model : String → ModelOutcome)
    (candidates : List Obj) (requirements : JVal) (k : ℕ)
    (hfail : ∀ prompt, rerankPrompt rt candidates requirements = .ok prompt →
      ∃ m, model prompt = .raised m) :
    rerankWithGemini rt model candidates requirements (.num (k : ℚ)) =
      candidates.take (min k candidates.length) ∧
    (rerankWithGemini rt model candidates requirements (.num (k : ℚ))).length =
      min k candidates.length ∧
    List.IsPrefix (rerankWithGemini rt model candidates requirements (.num (k : ℚ)))
      candidates := by
  have htake : candidates.take (min k candidates.length) = candidates.take k := by
    rw [List.take_eq_take]
    simp
  have hres : rerankWithGemini rt model candidates requirements (.num (k : ℚ)) =
      candidates.take k := by
    unfold rerankWithGemini
    split
    · rename_i hlen
      rw [List.length_eq_zero.mp hlen]
      simp
    · cases hprompt : rerankPrompt rt candidates requirements with
      | error msg => exact sliceTo_nat rt candidates k
      | ok prompt =>
        obtain ⟨m, hm⟩ := hfail prompt hprompt
        simp only [hm]
        exact sliceTo_nat rt candidates k
  rw [hres]
  refine ⟨htake.symm, ?_, List.take_prefix k candidates⟩
  rw [List.length_take]

/-- C17, instance: three candidates, limit 2 and a model whose every call
raises; the first two candidates come back as they are. -/
theorem rerank_on_model_failure_witness :
    rerankWithGemini refRuntime failingModel
        [sampleCandidateA, sampleCandidateB, sampleCandidateC] (.str "React")
        (.num ((2 : ℕ) : ℚ)) =
      [sampleCandidateA, sampleCandidateB] :=
  (rerank_on_model_failure refRuntime failingModel
    [sampleCandidateA, sampleCandidateB, sampleCandidateC] (.str "React") 2
    (fun _ _ => ⟨"quota exceeded", rfl⟩)).1

/-- C11. Evaluate fan-out isolation: for every candidate list of the store
(each candidate has an id, as every record the candidates route writes),
every job lookup and every evaluator (returning any value or raising, for any
subset of the candidates), the response is a success whose evaluations are, up
to order, one Evaluation per candidate: a candidate whose evaluation raises
gets score 0 and the feedback `Error during evaluation: ` followed by the
error message, and every candidate's Evaluation is the one any other evaluator
with the same answer for that candidate would lead to, so it is what it would
be if no other candidate had failed. -/
theorem evaluate_isolates_candidate_failures (rt : Runtime) (fetchJob : JVal → JobFetch)
    (evaluator : String → String → Except String JVal) (b jobId : JVal)
    (candidates : List Obj)
    (hjob : JVal.getProp b "jobId" = .ok jobId) (htruthy : JVal.truthy jobId = true)
    (hid : ∀ c ∈ candidates, HasId c) :
    ∃ evals out msg,
      evaluatePOST rt (.ok candidates) fetchJob evaluator (.ok b) = .ok out msg ∧
      out.Perm evals ∧
      List.Forall₂ (IsolatedEvaluation rt evaluator (jobText rt (resolveJob (fetchJob jobId))))
        candidates evals := by
  obtain ⟨evals, hevals, hall⟩ := isolatedEvaluations_exist rt evaluator
    (jobText rt (resolveJob (fetchJob jobId))) candidates hid
  by_cases hne : candidates = []
  · subst hne
    cases hall
    refine ⟨[], [], some "No candidates found in the system", ?_, List.Perm.refl _,
      List.Forall₂.nil⟩
    simp [evaluatePOST, hjob, htruthy]
  · exact ⟨evals, arraySort (compareEvaluations rt) evals, none,
      evaluatePOST_of_evaluations rt fetchJob evaluator b jobId candidates evals hjob htruthy
        hne hevals,
      List.perm_insertionSort _ evals, hall⟩

/-- C11, instance: the candidates with ids 10 and 11 and an evaluator that
raises for the second only. -/
theorem evaluate_isolates_candidate_failures_witness :
    ∃ evals out msg,
      evaluatePOST refRuntime (.ok [sampleCandidateA, sampleCandidateB]) jobNotFound
        evaluatorFailingForB (.ok sampleEvaluateBody) = .ok out msg ∧
      out.Perm evals ∧
      List.Forall₂
        (IsolatedEvaluation refRuntime evaluatorFailingForB
          (jobText refRuntime (resolveJob (jobNotFound (.num 1)))))
        [sampleCandidateA, sampleCandidateB] evals :=
  evaluate_isolates_candidate_failures refRuntime jobNotFound evaluatorFailingForB
    sampleEvaluateBody (.num 1) [sampleCandidateA, sampleCandidateB]
    (by with_unfolding_all rfl) (by with_unfolding_all decide)
    (by with_unfolding_all decide)

/-- C18. Evaluate with an unavailable job: whenever the job lookup returns a
non-success status or raises (the fetch, or the reading of its JSON body), for
every candidate list of the store (each candidate has an id) the pipeline does
not abort: the job is the placeholder job (title `Unknown Position`,
description `Job details not available`, requirements
`Unknown requirements`), every candidate is evaluated against the text of
that job, and the response is a success with, up to order, one Evaluation per
candidate. -/
theorem evaluate_with_unavailable_job (rt : Runtime) (fetchJob : JVal → JobFetch)
    (evaluator : String → String → Except String JVal) (b jobId : JVal)
    (candidates : List Obj)
    (hjob : JVal.getProp b "jobId" = .ok jobId) (htruthy : JVal.truthy jobId = true)
    (hfail : (∃ status, fetchJob jobId = .notOk status) ∨ (∃ m, fetchJob jobId = .raised m) ∨
      (∃ m, fetchJob jobId = .badJson m))
    (hid : ∀ c ∈ candidates, HasId c) :
    resolveJob (fetchJob jobId) = fallbackJob ∧
    JVal.lookup "title" fallbackJob = .str "Unknown Position" ∧
    JVal.lookup "description" fallbackJob = .str "Job details not available" ∧
    JVal.lookup "requirements" fallbackJob = .str "Unknown requirements" ∧
    jobText rt fallbackJob = "\n      Title: Unknown Position\n      Description: Job details not available\n      Requirements: Unknown requirements\n    " ∧
    ∃ evals out msg,
      evaluatePOST rt (.ok candidates) fetchJob evaluator (.ok b) = .ok out msg ∧
      out.Perm evals ∧ evals.length = candidates.length ∧
      List.Forall₂ (EvaluatedAgainstFallbackJob rt evaluator) candidates evals := by
  have hres : resolveJob (fetchJob jobId) = fallbackJob := by
    rcases hfail with ⟨status, h⟩ | ⟨m, h⟩ | ⟨m, h⟩ <;> rw [h] <;> rfl
  refine ⟨hres, rfl, rfl, rfl, by with_unfolding_all rfl, ?_⟩
  obtain ⟨evals, hevals, hall⟩ := isolatedEvaluations_exist rt evaluator
    (jobText rt fallbackJob) candidates hid
  have hall' : List.Forall₂ (EvaluatedAgainstFallbackJob rt evaluator) candidates evals :=
    hall.imp (fun c e h => ⟨h.1, h.2.1⟩)
  by_cases hne : candidates = []
  · subst hne
    cases hall
    refine ⟨[], [], some "No candidates found in the system", ?_, List.Perm.refl _, rfl,
      List.Forall₂.nil⟩
    simp [evaluatePOST, hjob, htruthy]
  · refine ⟨evals, arraySort (compareEvaluations rt) evals, none, ?_,
      List.perm_insertionSort _ evals, hall'.length_eq.symm, hall'⟩
    apply evaluatePOST_of_evaluations rt fetchJob evaluator b jobId candidates evals hjob
      htruthy hne
    rw [hres]
    exact hevals

/-- C18, instance: the candidates with ids 10 and 11, a job lookup that raises
and an evaluator that throws. -/
theorem evaluate_with_unavailable_job_witness :
    ∃ evals out msg,
      evaluatePOST refRuntime (.ok [sampleCandidateA, sampleCandidateB]) jobUnreachable
        (fun _ _ => .error "quota") (.ok sampleEvaluateBody) = .ok out msg ∧
      out.Perm evals ∧ evals.length = [sampleCandidateA, sampleCandidateB].length ∧
      List.Forall₂ (EvaluatedAgainstFallbackJob refRuntime (fun _ _ => .error "quota"))
        [sampleCandidateA, sampleCandidateB] evals :=
  (evaluate_with_unavailable_job refRuntime jobUnreachable (fun _ _ => .error "quota")
    sampleEvaluateBody (.num 1) [sampleCandidateA, sampleCandidateB]
    (by with_unfolding_all rfl) (by with_unfolding_all decide)
    (Or.inr (Or.inl ⟨"fetch failed", rfl⟩)) (by with_unfolding_all decide)).2.2.2.2.2

/-- C19, counterexample to the claim as written: for the JSON body `null` and
for a body that is not JSON (an empty body, say), in which `jobId` and `query`
are absent, Evaluate and Search answer with the error response 500, not with
the validation error 400: reading the properties of the body raises before
the check. -/
theorem validation_answers_500_without_object_body :
    (∃ details,
      evaluatePOST refRuntime (.ok [sampleCandidateA]) jobNotFound
        (aiEvaluator refRuntime failingModel) (.ok .null) =
      .serverError "Error evaluating candidates" details) ∧
    evaluatePOST refRuntime (.ok [sampleCandidateA]) jobNotFound
        (aiEvaluator refRuntime failingModel) (.error "Unexpected end of JSON input") =
      .serverError "Error evaluating candidates" "Unexpected end of JSON input" ∧
    (∃ details,
      searchPOST refRuntime jobNotFound [sampleCandidateA] failingProvider constantRandom
        failingIndex failingModel (.ok .null) =
      .serverError "Error searching candidates" details) ∧
    searchPOST refRuntime jobNotFound [sampleCandidateA] failingProvider constantRandom
        failingIndex failingModel (.error "Unexpected end of JSON input") =
      .serverError "Error searching candidates" "Unexpected end of JSON input" :=
  ⟨⟨"Cannot read properties of null (reading jobId)", by with_unfolding_all decide⟩,
    by with_unfolding_all decide,
    ⟨"Cannot read properties of null (reading query)", by with_unfolding_all decide⟩,
    by with_unfolding_all decide⟩

/-- C19, amended: for a request whose body is a JSON value other than `null`,
Evaluate answers 400 `Job ID is required` when `jobId` is absent (or falsy),
and Search answers 400 `Either search query or job ID is required` when both
`query` and `jobId` are absent (or falsy); both answers are the same for every
behaviour of the candidate store, job lookup, embedding provider, index and
model, which are not consulted; and a request with a positive integer `jobId`
(Evaluate) or a non-empty `query` (Search) is never rejected by this check. -/
theorem boundary_validation (rt : Runtime) (fetchCandidates : CandidatesFetch)
    (fetchJob : JVal → JobFetch) (evaluator : String → String → Except String JVal)
    (allCandidates : List Obj) (provider : JVal → EmbedOutcome) (random : Nat → ℚ)
    (index : QueryArgs → IndexOutcome) (model : String → ModelOutcome) (b : JVal)
    (hnull : b ≠ .null) (hundefined : b ≠ .undefined) :
    (JVal.truthy (entryProp b "jobId") = false →
      evaluatePOST rt fetchCandidates fetchJob evaluator (.ok b) =
        .badRequest "Job ID is required") ∧
    (JVal.truthy (entryProp b "query") = false → JVal.truthy (entryProp b "jobId") = false →
      searchPOST rt fetchJob allCandidates provider random index model (.ok b) =
        .badRequest "Either search query or job ID is required") ∧
    (∀ n : ℕ, 0 < n → entryProp b "jobId" = .num (n : ℚ) →
      ∀ message, evaluatePOST rt fetchCandidates fetchJob evaluator (.ok b) ≠
        .badRequest message) ∧
    (∀ q : String, q ≠ "" → entryProp b "query" = .str q →
      searchPOST rt fetchJob allCandidates provider random index model (.ok b) ≠
        .badRequest "Either search query or job ID is required") := by
  have hprop : ∀ k, JVal.getProp b k = .ok (entryProp b k) :=
    fun k => getProp_of_nonNull b k ⟨hnull, hundefined⟩
  refine ⟨?_, ?_, ?_, ?_⟩
  · intro hfalsy
    simp only [evaluatePOST, hprop, hfalsy, Bool.not_false, if_true]
  · intro hq hj
    simp only [searchPOST, hprop, hq, hj, Bool.not_false, Bool.and_self, if_true]
  · intro n hn hid message
    have htruthy : JVal.truthy (entryProp b "jobId") = true := by
      rw [hid]
      simp only [JVal.truthy, decide_eq_true_eq]
      exact_mod_cast Nat.pos_iff_ne_zero.mp hn
    simp only [evaluatePOST, hprop, htruthy, Bool.not_true, Bool.false_eq_true, if_false]
    cases fetchCandidates with
    | raised m => simp
    | notOk => simp
    | badJson m => simp
    | ok candidates =>
      simp only
      split
      · simp
      · split <;> simp
  · intro q hq hquery
    have htruthy : JVal.truthy (entryProp b "query") = true := by
      rw [hquery]
      simp only [JVal.truthy, decide_eq_true_eq]
      exact hq
    simp only [searchPOST, hprop, htruthy, Bool.not_true, Bool.false_and, Bool.false_eq_true,
      if_false]
    split
    · simp
    · split
      · simp
      · split <;> simp

/-- C19, instance of the amended claim: the body `{}`, in which `jobId` and
`query` are absent, is rejected by both handlers with status 400. -/
theorem boundary_validation_witness :
    evaluatePOST refRuntime (.ok [sampleCandidateA]) jobNotFound
        (aiEvaluator refRuntime failingModel) (.ok (.obj [])) =
      .badRequest "Job ID is required" ∧
    searchPOST refRuntime jobNotFound [sampleCandidateA] failingProvider constantRandom
        failingIndex failingModel (.ok (.obj [])) =
      .badRequest "Either search query or job ID is required" :=
  have h := boundary_validation refRuntime (.ok [sampleCandidateA]) jobNotFound
    (aiEvaluator refRuntime failingModel) [sampleCandidateA] failingProvider constantRandom
    failingIndex failingModel (.obj []) (by simp) (by simp)
  ⟨h.1 (by with_unfolding_all decide),
    h.2.1 (by with_unfolding_all decide) (by with_unfolding_all decide)⟩

/-- C20. Search text resolution: when a job id is given and the job is
fetched, the search text is the job's requirements, a space and the query
(the empty string when the query is absent or falsy) with the surrounding
white space removed: it is the one string that lies in that text between two
runs of white space and neither starts nor ends with white space; when the job
fetch answers with a non-success status or raises (the fetch, or the reading
of its JSON body), the search text is exactly the raw query. -/
theorem search_text_resolution (rt : Runtime) (fetchJob : JVal → JobFetch)
    (query jobId : JVal) (htruthy : JVal.truthy jobId = true) :
    (∀ job, fetchJob jobId = .ok job →
      ∃ s, (resolveSearchText rt fetchJob query jobId).1 = .str s ∧
        IsTrimOf (JVal.toStr rt (JVal.lookup "requirements" job) ++ " "
          ++ JVal.toStr rt (JVal.orElse query (.str ""))) s ∧
        ∀ s', IsTrimOf (JVal.toStr rt (JVal.lookup "requirements" job) ++ " "
          ++ JVal.toStr rt (JVal.orElse query (.str ""))) s' → s' = s) ∧
    (∀ job r q, fetchJob jobId = .ok job → JVal.lookup "requirements" job = .str r →
      query = .str q →
      ∃ s, (resolveSearchText rt fetchJob query jobId).1 = .str s ∧
        IsTrimOf (r ++ " " ++ q) s) ∧
    (∀ job r, fetchJob jobId = .ok job → JVal.lookup "requirements" job = .str r →
      JVal.truthy query = false →
      ∃ s, (resolveSearchText rt fetchJob query jobId).1 = .str s ∧
        IsTrimOf (r ++ " " ++ "") s) ∧
    ((∃ status, fetchJob jobId = .notOk status) ∨ (∃ m, fetchJob jobId = .raised m) ∨
        (∃ m, fetchJob jobId = .badJson m) →
      (resolveSearchText rt fetchJob query jobId).1 = query) := by
  refine ⟨?_, ?_, ?_, ?_⟩
  · intro job hfetch
    refine ⟨_, ?_, Str.trim_isTrimOf _, fun s' hs' => Str.trim_unique _ s' hs'⟩
    simp only [resolveSearchText, htruthy, if_true, hfetch]
  · intro job r q hfetch hreq hq
    refine ⟨Str.trim (r ++ " " ++ q), ?_, Str.trim_isTrimOf _⟩
    simp only [resolveSearchText, htruthy, if_true, hfetch, hreq, hq]
    by_cases hempty : q = ""
    · subst hempty
      simp only [JVal.orElse, ite_self, JVal.toStr_str]
    · have : JVal.orElse (.str q) (.str "") = .str q := by
        simp [JVal.orElse, JVal.truthy, hempty]
      rw [this]
      simp only [JVal.toStr_str]
  · intro job r hfetch hreq hq
    refine ⟨Str.trim (r ++ " " ++ ""), ?_, Str.trim_isTrimOf _⟩
    simp only [resolveSearchText, htruthy, if_true, hfetch, hreq, JVal.orElse, hq,
      Bool.false_eq_true, if_false, JVal.toStr_str]
  · intro hfail
    rcases hfail with ⟨status, h⟩ | ⟨m, h⟩ | ⟨m, h⟩ <;>
      simp only [resolveSearchText, htruthy, if_true, h]

/-- C20, instances: with the job found and no query, the requirements
`3+ years React` and the space after them give `3+ years React`, the space
trimmed away; with the query ` remote ` the text is `3+ years React  remote`;
with the job lookup answering 404 the search text is the raw query,
untrimmed. -/
theorem search_text_resolution_witness :
    (∃ s, (resolveSearchText refRuntime jobFound .undefined (.num 1)).1 = .str s ∧
      IsTrimOf ("3+ years React" ++ " " ++ "") s) ∧
    (resolveSearchText refRuntime jobFound .undefined (.num 1)).1 = .str "3+ years React" ∧
    (resolveSearchText refRuntime jobFound (.str " remote ") (.num 1)).1 =
      .str "3+ years React  remote" ∧
    (resolveSearchText refRuntime jobNotFound (.str " remote ") (.num 1)).1 =
      .str " remote " :=
  ⟨(search_text_resolution refRuntime jobFound .undefined (.num 1)
      (by with_unfolding_all decide)).2.2.1 _ "3+ years React" rfl rfl
      (by with_unfolding_all decide),
    by with_unfolding_all decide,
    by with_unfolding_all decide,
    (search_text_resolution refRuntime jobNotFound (.str " remote ") (.num 1)
      (by with_unfolding_all decide)).2.2.2 (Or.inl ⟨404, rfl⟩)⟩

/-- C27. Evaluator strict tier: when the response text has a `{` before its
last `}` and the substring from the first `{` through the last `}` parses as
JSON, the Evaluator returns exactly the parsed value; the text before the
first `{` and after the last `}` has no influence, so that two responses with
the same brace-delimited part give the same result. -/
theorem evaluator_strict_tier (rt : Runtime) (model : String → ModelOutcome)
    (profile job text span : String) (v : JVal)
    (hmodel : model (evaluationPrompt profile job) = .text text)
    (hspan : BraceSpan text span) (hparse : rt.jsonParse span = some v) :
    generateAIEvaluation rt model profile job = v ∧
    generateAIEvaluationOutcome rt model profile job = .ok v ∧
    (∀ (model' : String → ModelOutcome) (profile' job' text' : String),
      model' (evaluationPrompt profile' job') = .text text' → BraceSpan text' span →
      generateAIEvaluation rt model' profile' job' = v) := by
  have key : ∀ (model' : String → ModelOutcome) (profile' job' text' : String),
      model' (evaluationPrompt profile' job') = .text text' → BraceSpan text' span →
      generateAIEvaluation rt model' profile' job' = v := by
    intro model' profile' job' text' hm hs
    have hslice := jsonSlice_of_braceSpan text' span hs
    simp only [generateAIEvaluation, hm, parseEvaluation, hslice, hparse]
  refine ⟨key model profile job text hmodel hspan, ?_, key⟩
  have hslice := jsonSlice_of_braceSpan text span hspan
  simp only [generateAIEvaluationOutcome, evaluationOuterTry, hmodel, evaluationInnerTry,
    hslice, hparse]

set_option maxRecDepth 100000 in
/-- C27, instance: a response with a sentence before and after the JSON
object; the result is the parsed object. -/
theorem evaluator_strict_tier_witness :
    generateAIEvaluation refRuntime (constantModel responseWrapped) "profile" "job" =
      .obj [("score", .num 72), ("feedback", .str "Solid")] :=
  (evaluator_strict_tier refRuntime (constantModel responseWrapped) "profile" "job"
    responseWrapped responseWrappedSpan
    (.obj [("score", .num 72), ("feedback", .str "Solid")]) rfl
    ⟨"Here is my evaluation:\n".data, "\"score\": 72, \"feedback\": \"Solid\"".data,
      "\nHope this helps.".data, by with_unfolding_all decide, by with_unfolding_all decide,
      by with_unfolding_all decide, by with_unfolding_all decide⟩
    (by with_unfolding_all decide)).1

/-- C24. Embedding fallback: `getEmbedding` never rejects; whenever the
provider call fails, it resolves with an array of exactly 1536 numbers, each
in `[-1, 1]` (indeed below 1), for every sequence of values in `[0, 1)` that
`Math.random` produces. -/
theorem embedding_fallback (provider : JVal → EmbedOutcome) (random : Nat → ℚ) (calls : Nat)
    (text : JVal) (m : String)
    (hfail : provider text = .raised m)
    (hrandom : ∀ n, 0 ≤ random n ∧ random n < 1) :
    (∀ (provider' : JVal → EmbedOutcome) (text' : JVal),
      ∃ v, (getEmbeddingStep provider' random calls text').1 = .ok v) ∧
    (getEmbeddingStep provider random calls text).1 = .ok (fallbackEmbedding random calls) ∧
    IsUnitVector1536 (fallbackEmbedding random calls) ∧
    (∃ comps, fallbackEmbedding random calls = .arr comps ∧
      ∀ c ∈ comps, ∃ q : ℚ, c = .num q ∧ q < 1) := by
  refine ⟨?_, ?_, ?_, ?_⟩
  · intro provider' text'
    exact ⟨_, getEmbeddingStep_eq provider' random calls text'⟩
  · simp only [getEmbeddingStep, getEmbeddingTry, hfail]
  · refine ⟨_, rfl, by simp, ?_⟩
    intro c hc
    obtain ⟨i, _, hi⟩ := List.mem_map.mp hc
    have h := hrandom (calls + i)
    exact ⟨random (calls + i) * 2 - 1, hi.symm, by linarith [h.1], by linarith [h.2]⟩
  · refine ⟨_, rfl, ?_⟩
    intro c hc
    obtain ⟨i, _, hi⟩ := List.mem_map.mp hc
    have h := hrandom (calls + i)
    exact ⟨random (calls + i) * 2 - 1, hi.symm, by linarith [h.2]⟩

/-- C24, instance: a provider whose every call raises and a random source
that always answers 1/2. -/
theorem embedding_fallback_witness :
    (getEmbeddingStep failingProvider constantRandom 0 (.str "react")).1 =
      .ok (fallbackEmbedding constantRandom 0) ∧
    IsUnitVector1536 (fallbackEmbedding constantRandom 0) :=
  have h := embedding_fallback failingProvider constantRandom 0 (.str "react") "unavailable"
    rfl (fun _ => by
      unfold constantRandom
      constructor <;> norm_num)
  ⟨h.2.1, h.2.2.1⟩

/-- C25, counterexample to the claim as written: two successive invocations of
`getEmbedding` with the same text, the provider failing in both, return
different vectors: the second consumes the next 1536 results of
`Math.random`. -/
theorem embedding_fallback_not_deterministic :
    (getEmbeddingStep failingProvider sampleStream 0 (.str "react")).2 = 1536 ∧
    (getEmbeddingStep failingProvider sampleStream 0 (.str "react")).1 ≠
      (getEmbeddingStep failingProvider sampleStream 1536 (.str "react")).1 := by
  refine ⟨rfl, ?_⟩
  intro h
  have h' : fallbackEmbedding sampleStream 0 = fallbackEmbedding sampleStream 1536 := by
    have := h
    simp only [getEmbeddingStep, getEmbeddingTry, failingProvider] at this
    exact Except.ok.inj this
  have h0 := (fallbackEmbedding_eq_iff sampleStream 0 1536).mp h' 0 (by norm_num)
  revert h0
  unfold sampleStream
  norm_num

/-- C25, amended: the fallback vector is a function of the results of
`Math.random` alone: two invocations in which the provider call fails, made
after `c₁` and `c₂` calls of `Math.random`, return the same vector exactly
when the 1536 results consumed by the one equal those consumed by the other,
whatever the two texts are. -/
theorem embedding_fallback_determined_by_random (provider : JVal → EmbedOutcome)
    (random : Nat → ℚ) (c₁ c₂ : Nat) (text₁ text₂ : JVal) (m₁ m₂ : String)
    (h₁ : provider text₁ = .raised m₁) (h₂ : provider text₂ = .raised m₂) :
    (getEmbeddingStep provider random c₁ text₁).1 =
        (getEmbeddingStep provider random c₂ text₂).1 ↔
      ∀ i, i < 1536 → random (c₁ + i) = random (c₂ + i) := by
  simp only [getEmbeddingStep, getEmbeddingTry, h₁, h₂]
  rw [Except.ok.injEq]
  exact fallbackEmbedding_eq_iff random c₁ c₂

/-- C25, instance of the amended claim: with a random source that always
answers 1/2, two successive failing invocations on different texts return the
same vector. -/
theorem embedding_fallback_determined_by_random_witness :
    (getEmbeddingStep failingProvider constantRandom 0 (.str "react")).1 =
      (getEmbeddingStep failingProvider constantRandom 1536 (.str "python")).1 :=
  (embedding_fallback_determined_by_random failingProvider constantRandom 0 1536
    (.str "react") (.str "python") "unavailable" "unavailable" rfl rfl).mpr (fun _ _ => rfl)

/-- C21. Search vector tier query: for a request that passes validation and
whose limit is the number `l` (given as such, or by conversion), the response
is determined by the answer of the vector index to one query, whose vector is
the embedding of the effective search text, whose `topK` is exactly `2 * l`
and whose filter restricts matches to entries of type `candidate`; when the
request omits `limit`, the limit is 10 and `topK` is 20. -/
theorem search_vector_query (rt : Runtime) (fetchJob : JVal → JobFetch)
    (allCandidates : List Obj) (provider : JVal → EmbedOutcome) (random : Nat → ℚ)
    (index : QueryArgs → IndexOutcome) (model : String → ModelOutcome) (props : Obj) (l : ℚ)
    (hvalid : PassesValidation props)
    (htext : JVal.truthy (searchTextOf rt fetchJob props) = true)
    (hlimit : JVal.toNumber rt (requestLimit (JVal.lookup "limit" props)) = some l) :
    searchQuery rt provider random (searchTextOf rt fetchJob props)
        (requestLimit (JVal.lookup "limit" props)) =
      QueryArgs.mk (getEmbedding provider random (searchTextOf rt fetchJob props))
        (some (2 * l)) "candidate" true ∧
    (JVal.lookup "limit" props = .undefined →
      requestLimit (JVal.lookup "limit" props) = .num 10 ∧ l = 10 ∧ 2 * l = 20) ∧
    (∀ q : ℚ, JVal.lookup "limit" props = .num q → l = q) ∧
    (∀ index' : QueryArgs → IndexOutcome,
      index' (QueryArgs.mk (getEmbedding provider random (searchTextOf rt fetchJob props))
          (some (2 * l)) "candidate" true) =
        index (QueryArgs.mk (getEmbedding provider random (searchTextOf rt fetchJob props))
          (some (2 * l)) "candidate" true) →
      searchPOST rt fetchJob allCandidates provider random index' model (.ok (.obj props)) =
        searchPOST rt fetchJob allCandidates provider random index model (.ok (.obj props))) ∧
    (∀ m ms, index (QueryArgs.mk (getEmbedding provider random (searchTextOf rt fetchJob props))
          (some (2 * l)) "candidate" true) = .result (m :: ms) →
      searchPOST rt fetchJob allCandidates provider random index model (.ok (.obj props)) =
        .ok (rerankWithGemini rt model ((m :: ms).filterMap (resolveMatch allCandidates))
          (requirementsOf rt fetchJob props) (requestLimit (JVal.lookup "limit" props)))
          "vector-and-gemini") := by
  have hq := searchQuery_eq_vectorQuery rt fetchJob provider random props l hlimit
  unfold vectorQuery at hq
  refine ⟨hq, ?_, ?_, ?_, ?_⟩
  · intro hundef
    rw [hundef] at hlimit
    have hl : l = 10 := by
      simp only [requestLimit, JVal.toNumber, Option.some.injEq] at hlimit
      exact hlimit.symm
    rw [hundef, hl]
    exact ⟨rfl, rfl, by norm_num⟩
  · intro q hq'
    rw [hq'] at hlimit
    simp only [requestLimit, JVal.toNumber, Option.some.injEq] at hlimit
    exact hlimit.symm
  · intro index' hsame
    rw [searchPOST_of_valid rt fetchJob allCandidates provider random index' model props hvalid
      htext,
      searchPOST_of_valid rt fetchJob allCandidates provider random index model props hvalid
      htext, hq, hsame]
  · intro m ms hindex
    rw [← hq] at hindex
    exact searchPOST_vector_tier rt fetchJob allCandidates provider random index model props
      (m :: ms) hvalid htext hindex (List.cons_ne_nil m ms)

/-- C21, instance: the request `{ query: "react" }` omits `limit`; the index
is queried with `topK` 20. -/
theorem search_vector_query_witness :
    searchQuery refRuntime failingProvider constantRandom
        (searchTextOf refRuntime jobNotFound [("query", .str "react")])
        (requestLimit (JVal.lookup "limit" [("query", .str "react")])) =
      QueryArgs.mk (getEmbedding failingProvider constantRandom
          (searchTextOf refRuntime jobNotFound [("query", .str "react")]))
        (some (2 * 10)) "candidate" true :=
  (search_vector_query refRuntime jobNotFound sampleStore failingProvider constantRandom
    sampleIndex failingModel [("query", .str "react")] 10
    (by with_unfolding_all decide) (by with_unfolding_all decide)
    (by with_unfolding_all decide)).1

/-- C22. Search vector tier resolution: when the index answers with matches,
the candidate list handed to the Reranker is, in match order, exactly one row
for each match whose id decodes to the id of a stored candidate (that
candidate's fields plus the similarity of the match as `vectorScore`); every
other match is dropped, and every result of the vector tier is a candidate of
the store. -/
theorem search_vector_resolution (rt : Runtime) (fetchJob : JVal → JobFetch)
    (allCandidates : List Obj) (provider : JVal → EmbedOutcome) (random : Nat → ℚ)
    (index : QueryArgs → IndexOutcome) (model : String → ModelOutcome) (props : Obj)
    (ms : List IndexMatch)
    (hvalid : PassesValidation props)
    (htext : JVal.truthy (searchTextOf rt fetchJob props) = true)
    (hindex : index (searchQuery rt provider random (searchTextOf rt fetchJob props)
      (requestLimit (JVal.lookup "limit" props))) = .result ms)
    (hms : ms ≠ []) :
    ∃ handed,
      ResolvedRows allCandidates ms handed ∧
      (∀ rows, ResolvedRows allCandidates ms rows → rows = handed) ∧
      searchPOST rt fetchJob allCandidates provider random index model (.ok (.obj props)) =
        .ok (rerankWithGemini rt model handed (requirementsOf rt fetchJob props)
          (requestLimit (JVal.lookup "limit" props))) "vector-and-gemini" ∧
      RowsFromStore allCandidates ms (rerankWithGemini rt model handed
        (requirementsOf rt fetchJob props) (requestLimit (JVal.lookup "limit" props))) := by
  refine ⟨ms.filterMap (resolveMatch allCandidates), resolvedRows_filterMap allCandidates ms,
    fun rows h => resolvedRows_unique allCandidates ms rows h,
    searchPOST_vector_tier rt fetchJob allCandidates provider random index model props ms
      hvalid htext hindex hms, ?_⟩
  intro row hrow
  obtain ⟨base, hbase, hrow'⟩ := rerank_rows_from_candidates rt model _ _ _ row hrow
  obtain ⟨c, hc, m, hm, hbase'⟩ := mem_filterMap_resolveMatch allCandidates ms base hbase
  subst hbase'
  exact ⟨c, hc, m, hm, hrow'⟩

set_option maxRecDepth 100000 in
/-- C22, instance: the index answers with the entries of candidate 11, of a
candidate that is not stored, and of candidate 10; the Reranker receives
candidate 11 and candidate 10, in this order. -/
theorem search_vector_resolution_witness :
    (∃ handed,
      ResolvedRows sampleStore
        [⟨"candidate_11", .num (9 / 10)⟩, ⟨"candidate_99", .num (1 / 2)⟩,
          ⟨"candidate_10", .num (2 / 5)⟩] handed ∧
      (∀ rows, ResolvedRows sampleStore
        [⟨"candidate_11", .num (9 / 10)⟩, ⟨"candidate_99", .num (1 / 2)⟩,
          ⟨"candidate_10", .num (2 / 5)⟩] rows → rows = handed) ∧
      searchPOST refRuntime jobNotFound sampleStore failingProvider constantRandom sampleIndex
          failingModel (.ok (.obj [("query", .str "react")])) =
        .ok (rerankWithGemini refRuntime failingModel handed
          (requirementsOf refRuntime jobNotFound [("query", .str "react")])
          (requestLimit (JVal.lookup "limit" [("query", .str "react")]))) "vector-and-gemini" ∧
      RowsFromStore sampleStore
        [⟨"candidate_11", .num (9 / 10)⟩, ⟨"candidate_99", .num (1 / 2)⟩,
          ⟨"candidate_10", .num (2 / 5)⟩]
        (rerankWithGemini refRuntime failingModel handed
          (requirementsOf refRuntime jobNotFound [("query", .str "react")])
          (requestLimit (JVal.lookup "limit" [("query", .str "react")])))) ∧
    [⟨"candidate_11", .num (9 / 10)⟩, ⟨"candidate_99", .num (1 / 2)⟩,
        ⟨"candidate_10", .num (2 / 5)⟩].filterMap (resolveMatch sampleStore) =
      [JVal.setProp sampleCandidateB "vectorScore" (.num (9 / 10)),
        JVal.setProp sampleCandidateA "vectorScore" (.num (2 / 5))] :=
  ⟨search_vector_resolution refRuntime jobNotFound sampleStore failingProvider constantRandom
    sampleIndex failingModel [("query", .str "react")]
    [⟨"candidate_11", .num (9 / 10)⟩, ⟨"candidate_99", .num (1 / 2)⟩,
      ⟨"candidate_10", .num (2 / 5)⟩]
    (by with_unfolding_all decide) (by with_unfolding_all decide) rfl (by simp),
    by with_unfolding_all decide⟩

/-- C30. Vector tier with only unresolvable matches: whenever the index
answers with at least one match and no matched id decodes to the id of a
stored candidate, Search answers with an empty results list tagged
`vector-and-gemini`, whatever the store holds and whatever the model would
answer; the fallback tier is not run. -/
theorem search_vector_tier_unresolvable (rt : Runtime) (fetchJob : JVal → JobFetch)
    (allCandidates : List Obj) (provider : JVal → EmbedOutcome) (random : Nat → ℚ)
    (index : QueryArgs → IndexOutcome) (model : String → ModelOutcome) (props : Obj)
    (ms : List IndexMatch)
    (hvalid : PassesValidation props)
    (htext : JVal.truthy (searchTextOf rt fetchJob props) = true)
    (hindex : index (searchQuery rt provider random (searchTextOf rt fetchJob props)
      (requestLimit (JVal.lookup "limit" props))) = .result ms)
    (hms : ms ≠ [])
    (hunresolved : ∀ m ∈ ms, Unresolved allCandidates m) :
    searchPOST rt fetchJob allCandidates provider random index model (.ok (.obj props)) =
      .ok [] "vector-and-gemini" ∧
    (∀ model' : String → ModelOutcome,
      searchPOST rt fetchJob allCandidates provider random index model' (.ok (.obj props)) =
        .ok [] "vector-and-gemini") ∧
    (∀ results,
      searchPOST rt fetchJob allCandidates provider random index model (.ok (.obj props)) ≠
        .ok results "gemini-only") := by
  have hnil : ms.filterMap (resolveMatch allCandidates) = [] := by
    rw [List.filterMap_eq_nil_iff]
    intro m hm
    exact (resolveMatch_eq_none allCandidates m).mpr (hunresolved m hm)
  have key : ∀ model' : String → ModelOutcome,
      searchPOST rt fetchJob allCandidates provider random index model' (.ok (.obj props)) =
        .ok [] "vector-and-gemini" := by
    intro model'
    rw [searchPOST_vector_tier rt fetchJob allCandidates provider random index model' props ms
      hvalid htext hindex hms, hnil]
    simp [rerankWithGemini]
  refine ⟨key model, key, ?_⟩
  intro results h
  rw [key model] at h
  injection h with _ htag
  revert htag
  decide

set_option maxRecDepth 100000 in
/-- C30, instance: the store holds candidates 10 and 11, the index answers
with the entries of candidates 98 and 99. -/
theorem search_vector_tier_unresolvable_witness :
    searchPOST refRuntime jobNotFound sampleStore failingProvider constantRandom staleIndex
        failingModel (.ok (.obj [("query", .str "react")])) =
      .ok [] "vector-and-gemini" :=
  (search_vector_tier_unresolvable refRuntime jobNotFound sampleStore failingProvider
    constantRandom staleIndex failingModel [("query", .str "react")]
    [⟨"candidate_98", .num (9 / 10)⟩, ⟨"candidate_99", .num (1 / 2)⟩]
    (by with_unfolding_all decide) (by with_unfolding_all decide) rfl (by simp)
    (fun m hm => (resolveMatch_eq_none sampleStore m).mp (by
      simp only [List.mem_cons, List.mem_singleton, List.not_mem_nil, or_false] at hm
      rcases hm with h | h <;> subst h <;> with_unfolding_all decide))).1

set_option maxRecDepth 100000 in
/-- C23, counterexample to the claim as written: with an index whose every
call raises, the successful response is tagged `gemini-only`, not
`model-only`; with an index that answers with matches it is tagged
`vector-and-gemini`, not `vector-and-model`. -/
theorem search_method_tag_names_gemini :
    searchPOST refRuntime jobNotFound sampleStore failingProvider constantRandom failingIndex
        failingModel (.ok sampleSearchBody) = .ok sampleStore "gemini-only" ∧
    "gemini-only" ≠ "model-only" ∧
    searchPOST refRuntime jobNotFound sampleStore failingProvider constantRandom sampleIndex
        failingModel (.ok sampleSearchBody) =
      .ok [JVal.setProp sampleCandidateB "vectorScore" (.num (9 / 10)),
        JVal.setProp sampleCandidateA "vectorScore" (.num (2 / 5))] "vector-and-gemini" ∧
    "vector-and-gemini" ≠ "vector-and-model" := by
  refine ⟨by with_unfolding_all decide, by decide, by with_unfolding_all decide, by decide⟩

/-- C23, amended: every successful Search response has `searchMethod` equal to
`vector-and-gemini` when the results came from the vector tier (the index
answered with at least one match) and equal to `gemini-only` when they came
from the fallback tier (the index raised or answered without matches); in
particular, when the index raises on every call, the tag is `gemini-only`. -/
theorem search_method_tag (rt : Runtime) (fetchJob : JVal → JobFetch)
    (allCandidates : List Obj) (provider : JVal → EmbedOutcome) (random : Nat → ℚ)
    (index : QueryArgs → IndexOutcome) (model : String → ModelOutcome)
    (body : Except String JVal) (results : List Obj) (tag : String)
    (h : searchPOST rt fetchJob allCandidates provider random index model body =
      .ok results tag) :
    ((tag = "vector-and-gemini" ∧
        ∃ args ms requirements limit, index args = .result ms ∧ ms ≠ [] ∧
          results = rerankWithGemini rt model (ms.filterMap (resolveMatch allCandidates))
            requirements limit) ∨
      (tag = "gemini-only" ∧
        ∃ args requirements limit,
          ((∃ m, index args = .raised m) ∨ index args = .result []) ∧
          results = rerankWithGemini rt model (fallbackCandidates allCandidates)
            requirements limit)) ∧
    ((∀ args, ∃ m, index args = .raised m) → tag = "gemini-only") := by
  have main : (tag = "vector-and-gemini" ∧
        ∃ args ms requirements limit, index args = .result ms ∧ ms ≠ [] ∧
          results = rerankWithGemini rt model (ms.filterMap (resolveMatch allCandidates))
            requirements limit) ∨
      (tag = "gemini-only" ∧
        ∃ args requirements limit,
          ((∃ m, index args = .raised m) ∨ index args = .result []) ∧
          results = rerankWithGemini rt model (fallbackCandidates allCandidates)
            requirements limit) := by
    unfold searchPOST at h
    split at h
    · cases h
    · split at h
      · rename_i query jobId limitProp _ _ _
        simp only at h
        split at h
        · cases h
        · split at h
          · cases h
          · split at h
            · rename_i m hidx
              injection h with hres htag
              exact Or.inr ⟨htag.symm, _, _, _, Or.inl ⟨m, hidx⟩, hres.symm⟩
            · rename_i ms hidx
              split at h
              · rename_i hlen
                injection h with hres htag
                refine Or.inl ⟨htag.symm, _, ms, _, _, hidx, ?_, hres.symm⟩
                intro hnil
                rw [hnil] at hlen
                simp at hlen
              · rename_i hlen
                injection h with hres htag
                have hnil : ms = [] := by
                  cases ms with
                  | nil => rfl
                  | cons m ms => simp at hlen
                rw [hnil] at hidx
                exact Or.inr ⟨htag.symm, _, _, _, Or.inr hidx, hres.symm⟩
      · cases h
      · cases h
      · cases h
  refine ⟨main, ?_⟩
  intro hraise
  rcases main with ⟨_, args, ms, _, _, hidx, _, _⟩ | ⟨htag, _⟩
  · obtain ⟨m, hm⟩ := hraise args
    rw [hm] at hidx
    cases hidx
  · exact htag

set_option maxRecDepth 100000 in
/-- C23, instance of the amended claim: the request `{ query: "react" }` with
an index whose every call raises. -/
theorem search_method_tag_witness :
    ("gemini-only" = "vector-and-gemini" ∧
        ∃ args ms requirements limit, failingIndex args = .result ms ∧ ms ≠ [] ∧
          sampleStore = rerankWithGemini refRuntime failingModel
            (ms.filterMap (resolveMatch sampleStore)) requirements limit) ∨
      ("gemini-only" = "gemini-only" ∧
        ∃ args requirements limit,
          ((∃ m, failingIndex args = .raised m) ∨ failingIndex args = .result []) ∧
          sampleStore = rerankWithGemini refRuntime failingModel
            (fallbackCandidates sampleStore) requirements limit) :=
  (search_method_tag refRuntime jobNotFound sampleStore failingProvider constantRandom
    failingIndex failingModel (.ok sampleSearchBody) sampleStore "gemini-only"
    (by with_unfolding_all decide)).1

/-- C28. Both Search tiers pass the same requirements text to the Reranker,
the value of `jobRequirements || query`: the requirements of the fetched job
when they are non-empty (truthy), and otherwise the raw query; in particular,
when a job with non-empty requirements is fetched, a request with the same
job id and any other query gives the Reranker the same text. -/
theorem search_requirements_text (rt : Runtime) (fetchJob : JVal → JobFetch)
    (allCandidates : List Obj) (provider : JVal → EmbedOutcome) (random : Nat → ℚ)
    (index : QueryArgs → IndexOutcome) (model : String → ModelOutcome) (props : Obj)
    (hvalid : PassesValidation props)
    (htext : JVal.truthy (searchTextOf rt fetchJob props) = true) :
    (∀ ms, index (searchQuery rt provider random (searchTextOf rt fetchJob props)
        (requestLimit (JVal.lookup "limit" props))) = .result ms → ms ≠ [] →
      searchPOST rt fetchJob allCandidates provider random index model (.ok (.obj props)) =
        .ok (rerankWithGemini rt model (ms.filterMap (resolveMatch allCandidates))
          (requirementsOf rt fetchJob props) (requestLimit (JVal.lookup "limit" props)))
          "vector-and-gemini") ∧
    ((∃ m, index (searchQuery rt provider random (searchTextOf rt fetchJob props)
          (requestLimit (JVal.lookup "limit" props))) = .raised m) ∨
        index (searchQuery rt provider random (searchTextOf rt fetchJob props)
          (requestLimit (JVal.lookup "limit" props))) = .result [] →
      searchPOST rt fetchJob allCandidates provider random index model (.ok (.obj props)) =
        .ok (rerankWithGemini rt model (fallbackCandidates allCandidates)
          (requirementsOf rt fetchJob props) (requestLimit (JVal.lookup "limit" props)))
          "gemini-only") ∧
    (∀ job, JVal.truthy (JVal.lookup "jobId" props) = true →
      fetchJob (JVal.lookup "jobId" props) = .ok job →
      JVal.truthy (JVal.lookup "requirements" job) = true →
      requirementsOf rt fetchJob props = JVal.lookup "requirements" job) ∧
    (∀ job, JVal.truthy (JVal.lookup "jobId" props) = true →
      fetchJob (JVal.lookup "jobId" props) = .ok job →
      JVal.truthy (JVal.lookup "requirements" job) = false →
      requirementsOf rt fetchJob props = JVal.lookup "query" props) ∧
    (JVal.truthy (JVal.lookup "jobId" props) = false ∨
        (∀ job, fetchJob (JVal.lookup "jobId" props) ≠ .ok job) →
      requirementsOf rt fetchJob props = JVal.lookup "query" props) ∧
    (∀ (props' : Obj) (job : Obj),
      JVal.lookup "jobId" props' = JVal.lookup "jobId" props →
      JVal.truthy (JVal.lookup "jobId" props) = true →
      fetchJob (JVal.lookup "jobId" props) = .ok job →
      JVal.truthy (JVal.lookup "requirements" job) = true →
      requirementsOf rt fetchJob props' = requirementsOf rt fetchJob props) := by
  have hfetched : ∀ (p : Obj) (job : Obj), JVal.truthy (JVal.lookup "jobId" p) = true →
      fetchJob (JVal.lookup "jobId" p) = .ok job →
      JVal.truthy (JVal.lookup "requirements" job) = true →
      requirementsOf rt fetchJob p = JVal.lookup "requirements" job := by
    intro p job hid hjob hreq
    simp only [requirementsOf, resolveSearchText, hid, if_true, hjob, JVal.orElse, hreq]
  refine ⟨?_, ?_, hfetched props, ?_, ?_, ?_⟩
  · intro ms hindex hms
    exact searchPOST_vector_tier rt fetchJob allCandidates provider random index model props ms
      hvalid htext hindex hms
  · intro hindex
    exact searchPOST_fallback_tier rt fetchJob allCandidates provider random index model props
      hvalid htext hindex
  · intro job hid hjob hreq
    simp only [requirementsOf, resolveSearchText, hid, if_true, hjob, JVal.orElse, hreq,
      Bool.false_eq_true, if_false]
  · intro hno
    rcases hno with hid | hjob
    · simp only [requirementsOf, resolveSearchText, hid, Bool.false_eq_true, if_false,
        JVal.orElse_empty]
    · unfold requirementsOf resolveSearchText
      split
      · cases hf : fetchJob (JVal.lookup "jobId" props) with
        | ok job => exact absurd hf (hjob job)
        | raised m => exact JVal.orElse_empty _
        | notOk status => exact JVal.orElse_empty _
        | badJson m => exact JVal.orElse_empty _
      · exact JVal.orElse_empty _
  · intro props' job hsame hid hjob hreq
    rw [hfetched props job hid hjob hreq]
    exact hfetched props' job (by rw [hsame]; exact hid) (by rw [hsame]; exact hjob) hreq

set_option maxRecDepth 100000 in
/-- C28, instance: the job with requirements `3+ years React` is fetched; the
Reranker gets these requirements for the query `remote` and for the query
`onsite`. -/
theorem search_requirements_text_witness :
    requirementsOf refRuntime jobFound [("query", .str "remote"), ("jobId", .num 1)] =
      .str "3+ years React" ∧
    requirementsOf refRuntime jobFound [("query", .str "onsite"), ("jobId", .num 1)] =
      requirementsOf refRuntime jobFound [("query", .str "remote"), ("jobId", .num 1)] :=
  have h := search_requirements_text refRuntime jobFound sampleStore failingProvider
    constantRandom failingIndex failingModel [("query", .str "remote"), ("jobId", .num 1)]
    (by with_unfolding_all decide) (by with_unfolding_all decide)
  ⟨h.2.2.1 _ (by with_unfolding_all decide) rfl (by with_unfolding_all decide),
    h.2.2.2.2.2 [("query", .str "onsite"), ("jobId", .num 1)] _ rfl
      (by with_unfolding_all decide) rfl (by with_unfolding_all decide)⟩

set_option maxRecDepth 100000 in
/-- C29, counterexample to the claim as written: the candidate with id
`10 ^ 21` is indexed under `candidate_1e+21`, which decodes to 1, so that the
match resolves to no stored candidate; and of two stored candidates with the
same id 10, the second is indexed under `candidate_10` and resolved to the
first. -/
theorem external_id_round_trip_fails :
    (candidateIndexEntry exponentRuntime failingProvider constantRandom hugeCandidate).id =
      "candidate_1e+21" ∧
    decodedId ⟨"candidate_1e+21", .num (9 / 10)⟩ = some 1 ∧
    resolveMatch [hugeCandidate] ⟨"candidate_1e+21", .num (9 / 10)⟩ = none ∧
    (candidateIndexEntry refRuntime failingProvider constantRandom sampleCandidateTwin).id =
      "candidate_10" ∧
    resolveMatch [sampleCandidateA, sampleCandidateTwin] ⟨"candidate_10", .num (9 / 10)⟩ =
      some (JVal.setProp sampleCandidateA "vectorScore" (.num (9 / 10))) ∧
    JVal.setProp sampleCandidateA "vectorScore" (.num (9 / 10)) ≠
      JVal.setProp sampleCandidateTwin "vectorScore" (.num (9 / 10)) := by
  refine ⟨by with_unfolding_all decide, by with_unfolding_all decide,
    by with_unfolding_all decide, by with_unfolding_all decide, by with_unfolding_all decide,
    by with_unfolding_all decide⟩

/-- C29, amended: for every non-negative integer `k`, decoding the index id
`candidate_` followed by the decimal digits of `k` with the decoder of the
Search pipeline returns `k`; the id under which `indexCandidateInPinecone`
indexes a candidate is of this form when the runtime prints the candidate's
id `n` as its decimal digits, as the two runtimes here do below `10 ^ 21`;
then a match with this id is resolved by the vector tier to the candidate
itself, provided the candidate is the first of the store with its id. -/
theorem external_id_round_trip (rt : Runtime) (provider : JVal → EmbedOutcome)
    (random : Nat → ℚ) (store : List Obj) (c : Obj) (n : ℕ) (score : JVal)
    (hid : JVal.lookup "id" c = .num (n : ℚ))
    (hprint : rt.numberToString (n : ℚ) = Json.natDigits n)
    (hfirst : FirstWithId store (n : ℚ) c) :
    (∀ k : ℕ, decodedId ⟨"candidate_" ++ Json.natDigits k, score⟩ = some (k : ℚ)) ∧
    (candidateIndexEntry rt provider random c).id = "candidate_" ++ Json.natDigits n ∧
    decodedId ⟨(candidateIndexEntry rt provider random c).id, score⟩ = some (n : ℚ) ∧
    resolveMatch store ⟨(candidateIndexEntry rt provider random c).id, score⟩ =
      some (JVal.setProp c "vectorScore" score) ∧
    (∀ upsert : List IndexEntry → Except String Unit,
      upsert [candidateIndexEntry rt provider random c] = .ok () →
      indexCandidateInPinecone rt provider random upsert c = true) ∧
    (∀ k : ℕ, k < 10 ^ 21 →
      exponentRuntime.numberToString (k : ℚ) = Json.natDigits k ∧
      refRuntime.numberToString (k : ℚ) = Json.natDigits k) := by
  have hentry : (candidateIndexEntry rt provider random c).id =
      "candidate_" ++ Json.natDigits n := by
    show "candidate_" ++ JVal.toStr rt (JVal.lookup "id" c) = _
    rw [hid]
    simp only [JVal.toStr, hprint]
  have hdecode : decodedId ⟨(candidateIndexEntry rt provider random c).id, score⟩ =
      some (n : ℚ) := by
    rw [hentry]
    exact decode_candidate_id n
  refine ⟨fun k => decode_candidate_id k, hentry, hdecode, ?_, ?_, ?_⟩
  · exact (resolveMatch_eq_some store _ _).mpr ⟨(n : ℚ), c, hdecode, hfirst, rfl⟩
  · intro upsert hup
    simp only [indexCandidateInPinecone, hup]
  · intro k hk
    exact ⟨exponentRuntime_prints_decimal k hk, refRuntime_prints_decimal k⟩

/-- C29, instance of the amended claim: candidate 11 of the store with
candidates 10 and 11 is indexed under `candidate_11` and resolved to
itself. -/
theorem external_id_round_trip_witness :
    (candidateIndexEntry refRuntime failingProvider constantRandom sampleCandidateB).id =
      "candidate_" ++ Json.natDigits 11 ∧
    resolveMatch sampleStore
        ⟨(candidateIndexEntry refRuntime failingProvider constantRandom sampleCandidateB).id,
          .num (9 / 10)⟩ =
      some (JVal.setProp sampleCandidateB "vectorScore" (.num (9 / 10))) :=
  have h := external_id_round_trip refRuntime failingProvider constantRandom sampleStore
    sampleCandidateB 11 (.num (9 / 10)) (by with_unfolding_all decide)
    (by with_unfolding_all decide)
    ⟨[sampleCandidateA], [], rfl, by with_unfolding_all decide, by
      intro c' hc'
      rw [List.mem_singleton.mp hc']
      with_unfolding_all decide⟩
  ⟨h.2.1, h.2.2.2.1⟩

/-- C26. Scoring never mutates candidates: for every Reranker invocation on
the caller's array of candidates, that array holds the same candidates in the
same order after the call, as does every other array that existed before it
(the rows are built in new arrays and the one in-place sort works on such a
new array), and every output row agrees with one of the input candidates on
every field other than `score` and `explanation`. -/
theorem rerank_never_mutates_candidates (rt : Runtime) (model : String → ModelOutcome)
    (h : ArrayStore) (candidates : Nat) (requirements limit : JVal)
    (href : candidates < h.length) :
    ArrayStore.read (rerankWithGeminiRef rt model h candidates requirements limit).1
        candidates = ArrayStore.read h candidates ∧
    (∀ ref, ref < h.length →
      ArrayStore.read (rerankWithGeminiRef rt model h candidates requirements limit).1 ref =
        ArrayStore.read h ref) ∧
    h.length ≤ (rerankWithGeminiRef rt model h candidates requirements limit).2 ∧
    ArrayStore.read (rerankWithGeminiRef rt model h candidates requirements limit).1
        (rerankWithGeminiRef rt model h candidates requirements limit).2 =
      rerankWithGemini rt model (ArrayStore.read h candidates) requirements limit ∧
    AgreeExceptScore (ArrayStore.read h candidates)
      (ArrayStore.read (rerankWithGeminiRef rt model h candidates requirements limit).1
        (rerankWithGeminiRef rt model h candidates requirements limit).2) := by
  obtain ⟨hframe, hout, hfresh⟩ :=
    rerankWithGeminiRef_spec rt model h candidates requirements limit href
  refine ⟨hframe candidates href, hframe, hfresh, hout, ?_⟩
  rw [hout]
  intro row hrow
  obtain ⟨c, hc, hrow'⟩ := rerank_rows_from_candidates rt model _ _ _ row hrow
  refine ⟨c, hc, ?_⟩
  intro k hs he
  rcases hrow' with hrow' | ⟨s, e, hrow'⟩
  · rw [hrow']
  · rw [hrow', lookup_other_withScore c s e k hs he]

set_option maxRecDepth 100000 in
/-- C26, instance: the caller's array holds candidates 10 and 11 and the model
ranks both; afterwards the array is as before and the returned rows are in a
new array. -/
theorem rerank_never_mutates_candidates_witness :
    ArrayStore.read (rerankWithGeminiRef refRuntime (constantModel responseSampleRankings)
        [sampleStore] 0 (.str "React") (.num 10)).1 0 = sampleStore ∧
    (rerankWithGeminiRef refRuntime (constantModel responseSampleRankings)
        [sampleStore] 0 (.str "React") (.num 10)).2 ≠ 0 :=
  have h := rerank_never_mutates_candidates refRuntime (constantModel responseSampleRankings)
    [sampleStore] 0 (.str "React") (.num 10) (by decide)
  ⟨h.1, fun h0 => by
    have hle := h.2.2.1
    rw [h0] at hle
    exact absurd hle (by decide)⟩
